import Mathlib

/-!
# LED ring animation (`main/led_ring/led_ring.c`)

A shallow embedding of the rotating colour ring: the HSV to RGB transform, the
animation state `s_ctrl`, the timer callback and the control API.

The arithmetic is embedded twice.
* In `LedRing` a C `float` is an exact rational number (`ℚ`): the code is
  followed operation by operation, without rounding. This embedding carries the
  properties in which no operation rounds (assignments, comparisons, clamps,
  handles, calls, values that binary32 holds exactly), and it is the exact
  reference against which the second embedding is measured.
* In `LedRing.B32` a C `float` is an IEEE 754 binary32 value (`f32`): a finite
  value, an infinity or a NaN. Every operation is rounded to the nearest
  binary32 value, a tie going to the even significand (`rnd`), with the
  subnormal range and the overflow to an infinity; a multiply followed by an add
  is two rounded operations, and the two zeros are not told apart (the code
  never divides by a zero). `long` has 32 bits. The `while` loops of
  `hsv_to_rgb` take a bound `fuel` on the number of tests and give `none` when
  they have not ended by then; a value that C leaves unspecified (`lrintf` of a
  NaN, of an infinity or of a value outside `long`) is `none` as well.

Other conventions.
* The file-scope variables `s_ctrl`, `s_led_strip` and `s_timer` are the fields
  of an explicit `State`, which every function takes and returns.
* Calls to the `led_strip` driver and to the FreeRTOS timer service are
  recorded, in order and with the status they returned, in `State.calls`; the
  statuses themselves are inputs of the model.
* `live_timers` and `device_after` read the timers that exist and the content
  of the strip off that record; a call takes effect there when the collaborator
  reported success.
* The critical sections (`taskENTER_CRITICAL` / `taskEXIT_CRITICAL`) have no
  effect in this sequential model.
-/

namespace LedRing

/-! ## Configuration constants (`led_ring.h`) -/

/-- `#define LED_RING_COUNT (8)` -/
def LED_RING_COUNT : Nat := 8

/-! ## `<math.h>` on exact rationals -/

/-- `fabsf` -/
def fabsf (x : ℚ) : ℚ := if x < 0 then -x else x

/-- `fminf` -/
def fminf (x y : ℚ) : ℚ := if x < y then x else y

/-- `fmaxf` -/
def fmaxf (x y : ℚ) : ℚ := if x < y then y else x

/-- Truncation toward zero, the integer quotient used by `fmodf`. -/
def truncq (x : ℚ) : ℤ := if x < 0 then -⌊-x⌋ else ⌊x⌋

/-- `fmodf x y = x - n * y`, where `n` is `x / y` truncated toward zero. -/
def fmodf (x y : ℚ) : ℚ := x - (truncq (x / y) : ℚ) * y

/-- `lrintf` in the default rounding mode (`FE_TONEAREST`): the nearest integer,
a tie going to the even neighbour. -/
def lrintf (x : ℚ) : ℤ :=
  let f : ℤ := ⌊x⌋
  let d : ℚ := x - f
  if d < 1 / 2 then f
  else if 1 / 2 < d then f + 1
  else if f % 2 = 0 then f else f + 1

/-- The conversion `(uint8_t)z` of a `long`: reduction modulo 256. -/
def to_uint8 (z : ℤ) : Nat := (z % 256).toNat

/-! ## HSV to RGB -/

/-- `while (H < 0) H += 360.0f;` -/
def hsv_wrap_neg (H : ℚ) : ℚ :=
  if H < 0 then hsv_wrap_neg (H + 360) else H
termination_by (⌈-H / 360⌉).toNat
decreasing_by
  rename_i h
  have h1 : -(H + 360) / 360 = -H / 360 - 1 := by ring
  have h2 : (0 : ℤ) < ⌈-H / 360⌉ := Int.ceil_pos.mpr (by linarith)
  rw [h1, Int.ceil_sub_one]
  omega

/-- `while (H >= 360.0f) H -= 360.0f;` -/
def hsv_wrap_ge (H : ℚ) : ℚ :=
  if 360 ≤ H then hsv_wrap_ge (H - 360) else H
termination_by (⌊H / 360⌋).toNat
decreasing_by
  rename_i h
  have h1 : (H - 360) / 360 = H / 360 - 1 := by ring
  have h2 : (0 : ℤ) < ⌊H / 360⌋ := Int.floor_pos.mpr (by linarith)
  rw [h1, Int.floor_sub_one]
  omega

/-- An 8-bit RGB triple, the three output parameters `*r`, `*g`, `*b`. -/
structure rgb_t where
  r : Nat
  g : Nat
  b : Nat
  deriving DecidableEq, Repr

/-- The hue as it stands after the two normalising loops of `hsv_to_rgb`. -/
def hsv_hue (H : ℚ) : ℚ := hsv_wrap_ge (hsv_wrap_neg H)

/-- The sector choice of `hsv_to_rgb`: `(r1, g1, b1)` from the normalised hue
`H`, chroma `C` and intermediate `X`. -/
def hsv_sector (H C X : ℚ) : ℚ × ℚ × ℚ :=
  if H < 60 then (C, X, 0)
  else if H < 120 then (X, C, 0)
  else if H < 180 then (0, C, X)
  else if H < 240 then (0, X, C)
  else if H < 300 then (X, 0, C)
  else (C, 0, X)

/-- The three products `(r1 + m) * 255.0f`, `(g1 + m) * 255.0f`,
`(b1 + m) * 255.0f` that `hsv_to_rgb` passes to `lrintf`. -/
def hsv_scaled (H0 S V : ℚ) : ℚ × ℚ × ℚ :=
  let H := hsv_hue H0
  let C := V * S
  let X := C * (1 - fabsf (fmodf (H / 60) 2 - 1))
  let m := V - C
  let p := hsv_sector H C X
  ((p.1 + m) * 255, (p.2.1 + m) * 255, (p.2.2 + m) * 255)

/-- The three `long` values returned by `lrintf`, before the narrowing to
`uint8_t`. -/
def hsv_rounded (H S V : ℚ) : ℤ × ℤ × ℤ :=
  let q := hsv_scaled H S V
  (lrintf q.1, lrintf q.2.1, lrintf q.2.2)

/-- `hsv_to_rgb(H, S, V, &r, &g, &b)`. -/
def hsv_to_rgb (H S V : ℚ) : rgb_t :=
  let z := hsv_rounded H S V
  { r := to_uint8 z.1, g := to_uint8 z.2.1, b := to_uint8 z.2.2 }

/-! ## Status codes and the outside world -/

/-- `esp_err_t` -/
abbrev esp_err_t := ℤ

/-- `ESP_OK` -/
def ESP_OK : esp_err_t := 0

/-- `ESP_FAIL` -/
def ESP_FAIL : esp_err_t := -1

/-- What the collaborators answer during one call of the component: the build
constant `configTICK_RATE_HZ` and the value returned by each driver or timer
service call the component makes. A handle is a natural number; `none` is
`NULL`. -/
structure env where
  configTICK_RATE_HZ : Nat
  /-- status of `led_strip_new_rmt_device` and the handle it stores on success -/
  new_rmt_device : esp_err_t × Nat
  /-- status of `led_strip_set_pixel` for each index -/
  set_pixel_rc : Nat → esp_err_t
  /-- status of `led_strip_refresh` -/
  refresh_rc : esp_err_t
  /-- status of `led_strip_clear` -/
  clear_rc : esp_err_t
  /-- the handle returned by `xTimerCreate`, `none` for `NULL` -/
  timer_create : Option Nat
  /-- whether `xTimerStart` returns `pdPASS` -/
  timer_start : Bool
  /-- whether `xTimerStop` returns `pdPASS` -/
  timer_stop : Bool
  /-- whether `xTimerDelete` returns `pdPASS` -/
  timer_delete : Bool
  /-- whether `xTimerChangePeriod` returns `pdPASS` -/
  timer_change_period : Bool

/-- One call made to the `led_strip` driver or to the FreeRTOS timer service,
with its arguments and the value it returned. -/
inductive api_call where
  | led_strip_new_rmt_device (rc : esp_err_t)
  | led_strip_set_pixel (strip : Option Nat) (index : Nat) (r g b : Nat) (rc : esp_err_t)
  | led_strip_refresh (strip : Option Nat) (rc : esp_err_t)
  | led_strip_clear (strip : Option Nat) (rc : esp_err_t)
  | xTimerCreate (period_ticks : Nat) (ret : Option Nat)
  | xTimerStart (timer : Nat) (pass : Bool)
  | xTimerStop (timer : Nat) (pass : Bool)
  | xTimerDelete (timer : Nat) (pass : Bool)
  | xTimerChangePeriod (timer : Nat) (period_ticks : Nat) (pass : Bool)
  deriving DecidableEq, Repr

/-! ## Animation state -/

/-- `led_ring_ctrl_t` -/
structure led_ring_ctrl_t where
  base_hue_deg : ℚ
  speed_deg_per_sec : ℚ
  brightness : ℚ
  saturation : ℚ
  hue_span_deg : ℚ
  update_hz : ℚ
  deriving DecidableEq, Repr

/-- The file-scope variables of `led_ring.c`, and the record of the calls made
so far to the collaborators (oldest first). -/
structure State where
  s_ctrl : led_ring_ctrl_t
  s_led_strip : Option Nat
  s_timer : Option Nat
  calls : List api_call
  deriving DecidableEq, Repr

/-- The static initialiser of `s_ctrl`. -/
def s_ctrl_init : led_ring_ctrl_t :=
  { base_hue_deg := 0
    speed_deg_per_sec := 120
    brightness := 1 / 5
    saturation := 1
    hue_span_deg := 360 / (LED_RING_COUNT : ℚ)
    update_hz := 50 }

/-- The state at program start: both handles `NULL`, no call made yet. -/
def State.boot : State :=
  { s_ctrl := s_ctrl_init, s_led_strip := none, s_timer := none, calls := [] }

/-! ## Device initialisation -/

/-- `led_ring_init_strip`. The driver stores the new handle in `s_led_strip`
only when it returns `ESP_OK`; `ESP_RETURN_ON_ERROR` hands any other status
back to the caller. -/
def led_ring_init_strip (e : env) (st : State) : esp_err_t × State :=
  match st.s_led_strip with
  | some _ => (ESP_OK, st)
  | none =>
    let rc := e.new_rmt_device.1
    let st1 := { st with calls := st.calls ++ [api_call.led_strip_new_rmt_device rc] }
    if rc ≠ ESP_OK then (rc, st1)
    else (ESP_OK, { st1 with s_led_strip := some e.new_rmt_device.2 })

/-! ## Timer callback -/

/-- The calls of the pixel loop of `led_ring_timer_cb`, for `i = 0 .. n-1`. -/
def pixel_writes (e : env) (strip : Option Nat)
    (base_hue_deg hue_span_deg saturation brightness : ℚ) (n : Nat) : List api_call :=
  (List.range n).map fun (i : Nat) =>
    let hue := base_hue_deg + (i : ℚ) * hue_span_deg
    let c := hsv_to_rgb hue saturation brightness
    api_call.led_strip_set_pixel strip i c.r c.g c.b (e.set_pixel_rc i)

/-- The phase update at the end of `led_ring_timer_cb`: add `delta_deg`, then
the two single `if` corrections. -/
def advance_hue (base_hue_deg speed_deg_per_sec upd_hz : ℚ) : ℚ :=
  let delta_deg := speed_deg_per_sec / (if upd_hz > 0 then upd_hz else 50)
  let h1 := base_hue_deg + delta_deg
  let h2 := if h1 ≥ 360 then h1 - 360 else h1
  if h2 < 0 then h2 + 360 else h2

/-- `led_ring_timer_cb`: snapshot, one `led_strip_set_pixel` per LED, one
`led_strip_refresh` (statuses discarded), then the phase update. -/
def led_ring_timer_cb (e : env) (st : State) : State :=
  let base_hue_deg := st.s_ctrl.base_hue_deg
  let hue_span_deg := st.s_ctrl.hue_span_deg
  let brightness := st.s_ctrl.brightness
  let saturation := st.s_ctrl.saturation
  let upd_hz := st.s_ctrl.update_hz
  let writes :=
    pixel_writes e st.s_led_strip base_hue_deg hue_span_deg saturation brightness LED_RING_COUNT
  let calls := st.calls ++ writes ++ [api_call.led_strip_refresh st.s_led_strip e.refresh_rc]
  { st with
    s_ctrl := { st.s_ctrl with
      base_hue_deg := advance_hue st.s_ctrl.base_hue_deg st.s_ctrl.speed_deg_per_sec upd_hz }
    calls := calls }

/-! ## Timer period -/

/-- The conversion `(TickType_t)z` of a `long` to the unsigned 32-bit tick type. -/
def to_TickType_t (z : ℤ) : Nat := (z % 2 ^ 32).toNat

/-- Modelled from the spec: the FreeRTOS macro `pdMS_TO_TICKS` is not part of
the sources. A period in whole milliseconds becomes a number of ticks at the
tick rate `configTICK_RATE_HZ`: `ms * configTICK_RATE_HZ / 1000`, computed as
FreeRTOS does in the unsigned 32-bit type `TickType_t`. -/
def pdMS_TO_TICKS (e : env) (ms : Nat) : Nat :=
  (ms * e.configTICK_RATE_HZ % 2 ^ 32) / 1000

/-- `pdMS_TO_TICKS((TickType_t)lrintf(1000.0f / update_hz))`, raised to 1 when
it is 0. -/
def period_ticks (e : env) (update_hz : ℚ) : Nat :=
  let p := pdMS_TO_TICKS e (to_TickType_t (lrintf (1000 / update_hz)))
  if p = 0 then 1 else p

/-- The block `if (s_timer) { xTimerStop(...); xTimerDelete(...); s_timer = NULL; }`
of `led_ring_start` and `led_ring_stop`. -/
def stop_delete_timer (e : env) (st : State) : State :=
  match st.s_timer with
  | some t =>
    { st with
      s_timer := none
      calls := st.calls ++
        [api_call.xTimerStop t e.timer_stop, api_call.xTimerDelete t e.timer_delete] }
  | none => st

/-! ## Control API -/

/-- `led_ring_start` -/
def led_ring_start (e : env) (brightness_0_1 speed_deg_per_sec update_hz : ℚ)
    (st : State) : esp_err_t × State :=
  let r := led_ring_init_strip e st
  if r.1 ≠ ESP_OK then r
  else
    let c : led_ring_ctrl_t :=
      { r.2.s_ctrl with
        brightness := fminf (fmaxf brightness_0_1 0) 1
        speed_deg_per_sec := speed_deg_per_sec
        update_hz := if update_hz > 2 then update_hz else 50
        hue_span_deg := 360 / (LED_RING_COUNT : ℚ)
        base_hue_deg := 0 }
    let st1 := stop_delete_timer e { r.2 with s_ctrl := c }
    let p := period_ticks e c.update_hz
    let st2 := { st1 with
      s_timer := e.timer_create
      calls := st1.calls ++ [api_call.xTimerCreate p e.timer_create] }
    match e.timer_create with
    | none => (ESP_FAIL, st2)
    | some t =>
      let st3 := { st2 with calls := st2.calls ++ [api_call.xTimerStart t e.timer_start] }
      if e.timer_start ≠ true then (ESP_FAIL, st3) else (ESP_OK, st3)

/-- `led_ring_set_brightness` -/
def led_ring_set_brightness (brightness_0_1 : ℚ) (st : State) : State :=
  { st with s_ctrl := { st.s_ctrl with brightness := fminf (fmaxf brightness_0_1 0) 1 } }

/-- `led_ring_set_speed_deg` -/
def led_ring_set_speed_deg (speed_deg_per_sec : ℚ) (st : State) : State :=
  { st with s_ctrl := { st.s_ctrl with speed_deg_per_sec := speed_deg_per_sec } }

/-- `led_ring_set_speed_pixels` -/
def led_ring_set_speed_pixels (pixels_per_sec : ℚ) (st : State) : State :=
  let deg_per_sec := pixels_per_sec * (360 / (LED_RING_COUNT : ℚ))
  led_ring_set_speed_deg deg_per_sec st

/-- `led_ring_set_update_hz` -/
def led_ring_set_update_hz (e : env) (update_hz : ℚ) (st : State) : State :=
  let hz := if update_hz < 2 then 2 else update_hz
  let st1 := { st with s_ctrl := { st.s_ctrl with update_hz := hz } }
  match st1.s_timer with
  | some t =>
    { st1 with
      calls := st1.calls ++
        [api_call.xTimerChangePeriod t (period_ticks e hz) e.timer_change_period] }
  | none => st1

/-- `led_ring_set_saturation` -/
def led_ring_set_saturation (saturation_0_1 : ℚ) (st : State) : State :=
  { st with s_ctrl := { st.s_ctrl with saturation := fminf (fmaxf saturation_0_1 0) 1 } }

/-- `led_ring_set_hue_span_deg` -/
def led_ring_set_hue_span_deg (hue_span_deg : ℚ) (st : State) : State :=
  { st with s_ctrl := { st.s_ctrl with hue_span_deg := hue_span_deg } }

/-! ## Scheduler -/

/-- Collaborators that succeed at every call: a 1 kHz tick, device handle 1,
timer handle 1. -/
def env_ok : env :=
  { configTICK_RATE_HZ := 1000
    new_rmt_device := (ESP_OK, 1)
    set_pixel_rc := fun _ => ESP_OK
    refresh_rc := ESP_OK
    clear_rc := ESP_OK
    timer_create := some 1
    timer_start := true
    timer_stop := true
    timer_delete := true
    timer_change_period := true }

/-- Collaborators as in `env_ok`, except that `xTimerStart` does not return
`pdPASS`. -/
def env_timer_start_fails : env := { env_ok with timer_start := false }

/-- Collaborators as in `env_ok`, except that `xTimerCreate` returns `NULL`. -/
def env_timer_create_fails : env := { env_ok with timer_create := none }

/-- Collaborators as in `env_ok`, except that `led_strip_new_rmt_device` returns
`ESP_FAIL`. -/
def env_init_fails : env := { env_ok with new_rmt_device := (ESP_FAIL, 0) }

/-! ## The collaborators, as the recorded calls leave them -/

/-- Modelled from the spec: the FreeRTOS timer service is not part of the
sources. One recorded call acts on the handles of the timers that exist: a
timer exists from the `xTimerCreate` that returned its handle until an
`xTimerDelete` on that handle which the service accepted (`pdPASS`). -/
def live_timers_step (live : List Nat) : api_call → List Nat
  | api_call.xTimerCreate _ (some t) => live ++ [t]
  | api_call.xTimerDelete t true => live.erase t
  | _ => live

/-- The handles of the timers that exist after the recorded calls. -/
def live_timers (calls : List api_call) : List Nat :=
  calls.foldl live_timers_step []

/-- The colour of an LED that is off. -/
def rgb_off : rgb_t := { r := 0, g := 0, b := 0 }

/-- The colours of the `led_strip_set_pixel` calls among `calls`, in order. -/
def written_colours (calls : List api_call) : List rgb_t :=
  calls.filterMap fun c =>
    match c with
    | api_call.led_strip_set_pixel _ _ r g b _ => some { r := r, g := g, b := b }
    | _ => none

/-- A call to the `led_strip` driver. -/
def api_call.is_device_call : api_call → Bool
  | api_call.led_strip_new_rmt_device _ => true
  | api_call.led_strip_set_pixel _ _ _ _ _ _ => true
  | api_call.led_strip_refresh _ _ => true
  | api_call.led_strip_clear _ _ => true
  | _ => false

/-- A call that creates or deletes a timer. -/
def api_call.is_timer_lifecycle : api_call → Bool
  | api_call.xTimerCreate _ _ => true
  | api_call.xTimerDelete _ _ => true
  | _ => false

namespace B32

/-! ## IEEE 754 binary32 -/

/-- The floor of the binary logarithm of `n`, by at most `fuel` halvings. -/
def nat_log2 : Nat → Nat → Nat
  | 0, _ => 0
  | fuel + 1, n => if n < 2 then 0 else nat_log2 fuel (n / 2) + 1

/-- The floor of the binary logarithm of `|x|`, for `x ≠ 0`. -/
def ilog2 (x : ℚ) : ℤ :=
  let k : ℤ :=
    (nat_log2 x.num.natAbs x.num.natAbs : ℤ) - (nat_log2 x.den x.den : ℤ)
  if (2 : ℚ) ^ k ≤ |x| then k else k - 1

/-- The exponent of the unit in the last place of the binary32 values around
`x`: 24 significant bits, and `2 ^ (-149)` for the subnormal range. -/
def ulp_exp (x : ℚ) : ℤ := max (ilog2 x - 23) (-149)

/-- Rounding to the nearest multiple of the unit in the last place, a tie going
to the even multiple: the binary32 rounding of the default mode, the exponent
range being unbounded above. -/
def rnd (x : ℚ) : ℚ :=
  if x = 0 then 0 else (lrintf (x / 2 ^ ulp_exp x) : ℚ) * 2 ^ ulp_exp x

/-- `FLT_MAX`, the largest finite binary32 value. -/
def FLT_MAX : ℚ := (2 ^ 24 - 1) * 2 ^ 104

/-- The number `x` is an integer multiple of `2 ^ g`. -/
def aligned (g : ℤ) (x : ℚ) : Prop := (x / 2 ^ g).den = 1

instance (g : ℤ) (x : ℚ) : Decidable (aligned g x) := by
  unfold aligned
  infer_instance

/-- A C `float`: a finite value, an infinity or a NaN. The two zeros are not
told apart. -/
inductive f32 where
  | fin (x : ℚ)
  | pinf
  | ninf
  | nan
  deriving DecidableEq, Repr

/-- A finite value is a binary32 value when rounding leaves it unchanged and it
does not exceed `FLT_MAX`. -/
def f32.valid : f32 → Prop
  | f32.fin x => rnd x = x ∧ |x| ≤ FLT_MAX
  | _ => True

instance (a : f32) : Decidable a.valid := by
  cases a <;> unfold f32.valid <;> infer_instance

/-- The binary32 result of an operation whose exact result is `x`: `x` rounded,
or an infinity when the rounded value exceeds `FLT_MAX`. -/
def of_real (x : ℚ) : f32 :=
  if FLT_MAX < rnd x then f32.pinf
  else if rnd x < -FLT_MAX then f32.ninf
  else f32.fin (rnd x)

/-- Unary minus. -/
def neg : f32 → f32
  | f32.fin a => f32.fin (-a)
  | f32.pinf => f32.ninf
  | f32.ninf => f32.pinf
  | f32.nan => f32.nan

/-- `a + b` -/
def add : f32 → f32 → f32
  | f32.nan, _ => f32.nan
  | _, f32.nan => f32.nan
  | f32.fin a, f32.fin b => of_real (a + b)
  | f32.pinf, f32.ninf => f32.nan
  | f32.ninf, f32.pinf => f32.nan
  | f32.pinf, _ => f32.pinf
  | _, f32.pinf => f32.pinf
  | f32.ninf, _ => f32.ninf
  | _, f32.ninf => f32.ninf

/-- `a - b` -/
def sub (a b : f32) : f32 := add a (neg b)

/-- The infinity of the sign of `s * t`, for non-zero `s` and `t`. -/
def inf_of_signs (s t : Bool) : f32 := if s = t then f32.pinf else f32.ninf

/-- `a * b` -/
def mul : f32 → f32 → f32
  | f32.nan, _ => f32.nan
  | _, f32.nan => f32.nan
  | f32.fin a, f32.fin b => of_real (a * b)
  | f32.fin a, f32.pinf => if a = 0 then f32.nan else inf_of_signs (decide (0 < a)) true
  | f32.fin a, f32.ninf => if a = 0 then f32.nan else inf_of_signs (decide (0 < a)) false
  | f32.pinf, f32.fin b => if b = 0 then f32.nan else inf_of_signs true (decide (0 < b))
  | f32.ninf, f32.fin b => if b = 0 then f32.nan else inf_of_signs false (decide (0 < b))
  | f32.pinf, f32.pinf => f32.pinf
  | f32.ninf, f32.ninf => f32.pinf
  | f32.pinf, f32.ninf => f32.ninf
  | f32.ninf, f32.pinf => f32.ninf

/-- `a / b`. A zero divisor counts as `+0`. -/
def div : f32 → f32 → f32
  | f32.nan, _ => f32.nan
  | _, f32.nan => f32.nan
  | f32.fin a, f32.fin b =>
    if b = 0 then
      if a = 0 then f32.nan else inf_of_signs (decide (0 < a)) true
    else of_real (a / b)
  | f32.fin _, f32.pinf => f32.fin 0
  | f32.fin _, f32.ninf => f32.fin 0
  | f32.pinf, f32.fin b => inf_of_signs true (decide (0 ≤ b))
  | f32.ninf, f32.fin b => inf_of_signs false (decide (0 ≤ b))
  | f32.pinf, f32.pinf => f32.nan
  | f32.pinf, f32.ninf => f32.nan
  | f32.ninf, f32.pinf => f32.nan
  | f32.ninf, f32.ninf => f32.nan

/-- `a < b`; false when either is a NaN. -/
def lt : f32 → f32 → Bool
  | f32.nan, _ => false
  | _, f32.nan => false
  | f32.fin a, f32.fin b => decide (a < b)
  | f32.ninf, f32.ninf => false
  | f32.ninf, _ => true
  | _, f32.ninf => false
  | f32.pinf, _ => false
  | _, f32.pinf => true

/-- `a >= b`; false when either is a NaN. -/
def ge : f32 → f32 → Bool
  | f32.nan, _ => false
  | _, f32.nan => false
  | f32.fin a, f32.fin b => decide (b ≤ a)
  | f32.pinf, _ => true
  | _, f32.pinf => false
  | _, f32.ninf => true
  | f32.ninf, _ => false

/-- `a > b`; false when either is a NaN. -/
def gt (a b : f32) : Bool := lt b a

/-- `fabsf` -/
def fabsf : f32 → f32
  | f32.fin a => f32.fin |a|
  | f32.pinf => f32.pinf
  | f32.ninf => f32.pinf
  | f32.nan => f32.nan

/-- `fmodf`: the remainder of the division truncated toward zero, which is
exact. -/
def fmodf : f32 → f32 → f32
  | f32.nan, _ => f32.nan
  | _, f32.nan => f32.nan
  | f32.pinf, _ => f32.nan
  | f32.ninf, _ => f32.nan
  | f32.fin a, f32.fin b =>
    if b = 0 then f32.nan else f32.fin (a - (truncq (a / b) : ℚ) * b)
  | f32.fin a, f32.pinf => f32.fin a
  | f32.fin a, f32.ninf => f32.fin a

/-- `fmaxf`: the larger argument, the other argument when one is a NaN. -/
def fmaxf : f32 → f32 → f32
  | f32.nan, y => y
  | x, f32.nan => x
  | x, y => if lt x y then y else x

/-- `fminf`: the smaller argument, the other argument when one is a NaN. -/
def fminf : f32 → f32 → f32
  | f32.nan, y => y
  | x, f32.nan => x
  | x, y => if lt x y then x else y

/-- `lrintf` to a 32-bit `long`: the nearest integer, a tie going to the even
one; no value (`none`) where C leaves the result unspecified, for an infinity, a
NaN or a rounded value outside the range of `long`. -/
def lrintf : f32 → Option ℤ
  | f32.fin a =>
    if -2 ^ 31 ≤ LedRing.lrintf a ∧ LedRing.lrintf a < 2 ^ 31 then some (LedRing.lrintf a)
    else none
  | _ => none

/-! ## HSV to RGB in binary32 -/

/-- `while (H < 0) H += 360.0f;` with at most `fuel` evaluations of the
condition; `none` when the loop has not ended by then. -/
def hsv_wrap_neg : Nat → f32 → Option f32
  | 0, _ => none
  | fuel + 1, H =>
    if lt H (f32.fin 0) then hsv_wrap_neg fuel (add H (f32.fin 360)) else some H

/-- `while (H >= 360.0f) H -= 360.0f;` with at most `fuel` evaluations of the
condition; `none` when the loop has not ended by then. -/
def hsv_wrap_ge : Nat → f32 → Option f32
  | 0, _ => none
  | fuel + 1, H =>
    if ge H (f32.fin 360) then hsv_wrap_ge fuel (sub H (f32.fin 360)) else some H

/-- The hue as it stands after the two normalising loops of `hsv_to_rgb`. -/
def hsv_hue (fuel : Nat) (H : f32) : Option f32 :=
  match hsv_wrap_neg fuel H with
  | some H1 => hsv_wrap_ge fuel H1
  | none => none

/-- The sector choice of `hsv_to_rgb`. -/
def hsv_sector (H C X : f32) : f32 × f32 × f32 :=
  if lt H (f32.fin 60) then (C, X, f32.fin 0)
  else if lt H (f32.fin 120) then (X, C, f32.fin 0)
  else if lt H (f32.fin 180) then (f32.fin 0, C, X)
  else if lt H (f32.fin 240) then (f32.fin 0, X, C)
  else if lt H (f32.fin 300) then (X, f32.fin 0, C)
  else (C, f32.fin 0, X)

/-- The three products `(r1 + m) * 255.0f`, `(g1 + m) * 255.0f`,
`(b1 + m) * 255.0f` that `hsv_to_rgb` passes to `lrintf`, from the hue `H` left
by the loops; every operation is rounded to binary32. -/
def hsv_scaled (H S V : f32) : f32 × f32 × f32 :=
  let C := mul V S
  let X := mul C
    (sub (f32.fin 1) (fabsf (sub (fmodf (div H (f32.fin 60)) (f32.fin 2)) (f32.fin 1))))
  let m := sub V C
  let p := hsv_sector H C X
  (mul (add p.1 m) (f32.fin 255), mul (add p.2.1 m) (f32.fin 255),
    mul (add p.2.2 m) (f32.fin 255))

/-- The colour from the three products: `lrintf`, then the narrowing to
`uint8_t`. -/
def hsv_round (q : f32 × f32 × f32) : Option rgb_t :=
  match lrintf q.1, lrintf q.2.1, lrintf q.2.2 with
  | some r, some g, some b => some { r := to_uint8 r, g := to_uint8 g, b := to_uint8 b }
  | _, _, _ => none

/-- `hsv_to_rgb(H, S, V, &r, &g, &b)` in binary32; `none` when a loop has not
ended within the fuel or `lrintf` has no specified value. -/
def hsv_to_rgb (fuel : Nat) (H S V : f32) : Option rgb_t :=
  match hsv_hue fuel H with
  | some h => hsv_round (hsv_scaled h S V)
  | none => none

/-! ## Animation state in binary32 -/

/-- `led_ring_ctrl_t` -/
structure led_ring_ctrl_t where
  base_hue_deg : f32
  speed_deg_per_sec : f32
  brightness : f32
  saturation : f32
  hue_span_deg : f32
  update_hz : f32
  deriving DecidableEq, Repr

/-- The file-scope variables of `led_ring.c` and the record of the calls made
to the collaborators. -/
structure State where
  s_ctrl : led_ring_ctrl_t
  s_led_strip : Option Nat
  s_timer : Option Nat
  calls : List api_call
  deriving DecidableEq, Repr

/-- The constant `360.0f / LED_RING_COUNT`. -/
def span_default : f32 := div (f32.fin 360) (f32.fin (LED_RING_COUNT : ℚ))

/-- The static initialiser of `s_ctrl`; `0.2f` is `13421773 / 2 ^ 26`. -/
def s_ctrl_init : led_ring_ctrl_t :=
  { base_hue_deg := f32.fin 0
    speed_deg_per_sec := f32.fin 120
    brightness := f32.fin (13421773 / 67108864)
    saturation := f32.fin 1
    hue_span_deg := span_default
    update_hz := f32.fin 50 }

/-- The state at program start. -/
def State.boot : State :=
  { s_ctrl := s_ctrl_init, s_led_strip := none, s_timer := none, calls := [] }

/-- All the values of a list, when each is present. -/
def all_some {α : Type} : List (Option α) → Option (List α)
  | [] => some []
  | x :: xs =>
    match x, all_some xs with
    | some a, some l => some (a :: l)
    | _, _ => none

/-- The hue of LED `i` in the pixel loop:
`float hue = base_hue_deg + i * hue_span_deg;`. -/
def pixel_hue (base_hue_deg hue_span_deg : f32) (i : Nat) : f32 :=
  add base_hue_deg (mul (f32.fin (i : ℚ)) hue_span_deg)

/-- The colour computed for LED `i` in the pixel loop. -/
def pixel_colour (fuel : Nat) (c : led_ring_ctrl_t) (i : Nat) : Option rgb_t :=
  hsv_to_rgb fuel (pixel_hue c.base_hue_deg c.hue_span_deg i) c.saturation c.brightness

/-- The calls of the pixel loop of `led_ring_timer_cb`, for `i = 0 .. n-1`;
`none` when one `hsv_to_rgb` does not return. -/
def pixel_writes (fuel : Nat) (e : env) (strip : Option Nat) (c : led_ring_ctrl_t)
    (n : Nat) : Option (List api_call) :=
  all_some ((List.range n).map fun (i : Nat) =>
    (pixel_colour fuel c i).map fun col =>
      api_call.led_strip_set_pixel strip i col.r col.g col.b (e.set_pixel_rc i))

/-- The phase update at the end of `led_ring_timer_cb`. -/
def advance_hue (base_hue_deg speed_deg_per_sec upd_hz : f32) : f32 :=
  let delta_deg :=
    div speed_deg_per_sec (if gt upd_hz (f32.fin 0) then upd_hz else f32.fin 50)
  let h1 := add base_hue_deg delta_deg
  let h2 := if ge h1 (f32.fin 360) then sub h1 (f32.fin 360) else h1
  if lt h2 (f32.fin 0) then add h2 (f32.fin 360) else h2

/-- `led_ring_timer_cb` in binary32; `none` when it does not return. -/
def led_ring_timer_cb (fuel : Nat) (e : env) (st : State) : Option State :=
  match pixel_writes fuel e st.s_led_strip st.s_ctrl LED_RING_COUNT with
  | some writes =>
    some
      { st with
        s_ctrl := { st.s_ctrl with
          base_hue_deg := advance_hue st.s_ctrl.base_hue_deg st.s_ctrl.speed_deg_per_sec
            st.s_ctrl.update_hz }
        calls := st.calls ++ writes ++
          [api_call.led_strip_refresh st.s_led_strip e.refresh_rc] }
  | none => none

/-- Successive firings of the periodic timer. -/
def run_ticks (fuel : Nat) : List env → State → Option State
  | [], st => some st
  | e :: es, st =>
    match led_ring_timer_cb fuel e st with
    | some st1 => run_ticks fuel es st1
    | none => none

/-- `pdMS_TO_TICKS((TickType_t)lrintf(1000.0f / update_hz))`, raised to 1 when
it is 0; `none` when `lrintf` has no specified value. -/
def period_ticks (e : env) (update_hz : f32) : Option Nat :=
  match lrintf (div (f32.fin 1000) update_hz) with
  | some z =>
    let p := pdMS_TO_TICKS e (to_TickType_t z)
    some (if p = 0 then 1 else p)
  | none => none

/-- `led_ring_set_speed_deg` -/
def led_ring_set_speed_deg (speed_deg_per_sec : f32) (st : State) : State :=
  { st with s_ctrl := { st.s_ctrl with speed_deg_per_sec := speed_deg_per_sec } }

/-- `led_ring_set_speed_pixels` -/
def led_ring_set_speed_pixels (pixels_per_sec : f32) (st : State) : State :=
  let deg_per_sec := mul pixels_per_sec span_default
  led_ring_set_speed_deg deg_per_sec st

/-- `led_ring_set_hue_span_deg` -/
def led_ring_set_hue_span_deg (hue_span_deg : f32) (st : State) : State :=
  { st with s_ctrl := { st.s_ctrl with hue_span_deg := hue_span_deg } }

/-- `led_ring_set_update_hz`; `none` when the period has no specified value. -/
def led_ring_set_update_hz (e : env) (update_hz : f32) (st : State) : Option State :=
  let hz := if lt update_hz (f32.fin 2) then f32.fin 2 else update_hz
  let st1 := { st with s_ctrl := { st.s_ctrl with update_hz := hz } }
  match st1.s_timer with
  | some t =>
    match period_ticks e hz with
    | some p =>
      some { st1 with
        calls := st1.calls ++ [api_call.xTimerChangePeriod t p e.timer_change_period] }
    | none => none
  | none => some st1

/-- `led_ring_init_strip`; see `LedRing.led_ring_init_strip`. -/
def led_ring_init_strip (e : env) (st : State) : esp_err_t × State :=
  match st.s_led_strip with
  | some _ => (ESP_OK, st)
  | none =>
    let rc := e.new_rmt_device.1
    let st1 := { st with calls := st.calls ++ [api_call.led_strip_new_rmt_device rc] }
    if rc ≠ ESP_OK then (rc, st1)
    else (ESP_OK, { st1 with s_led_strip := some e.new_rmt_device.2 })

/-- The block `if (s_timer) { xTimerStop(...); xTimerDelete(...); s_timer = NULL; }`. -/
def stop_delete_timer (e : env) (st : State) : State :=
  match st.s_timer with
  | some t =>
    { st with
      s_timer := none
      calls := st.calls ++
        [api_call.xTimerStop t e.timer_stop, api_call.xTimerDelete t e.timer_delete] }
  | none => st

/-- `led_ring_start` in binary32; `none` when the period has no specified
value. -/
def led_ring_start (e : env) (brightness_0_1 speed_deg_per_sec update_hz : f32)
    (st : State) : Option (esp_err_t × State) :=
  let r := led_ring_init_strip e st
  if r.1 ≠ ESP_OK then some r
  else
    let c : led_ring_ctrl_t :=
      { r.2.s_ctrl with
        brightness := fminf (fmaxf brightness_0_1 (f32.fin 0)) (f32.fin 1)
        speed_deg_per_sec := speed_deg_per_sec
        update_hz := if gt update_hz (f32.fin 2) then update_hz else f32.fin 50
        hue_span_deg := div (f32.fin 360) (f32.fin (LED_RING_COUNT : ℚ))
        base_hue_deg := f32.fin 0 }
    let st1 := stop_delete_timer e { r.2 with s_ctrl := c }
    match period_ticks e c.update_hz with
    | none => none
    | some p =>
      let st2 := { st1 with
        s_timer := e.timer_create
        calls := st1.calls ++ [api_call.xTimerCreate p e.timer_create] }
      match e.timer_create with
      | none => some (ESP_FAIL, st2)
      | some t =>
        let st3 := { st2 with calls := st2.calls ++ [api_call.xTimerStart t e.timer_start] }
        if e.timer_start ≠ true then some (ESP_FAIL, st3) else some (ESP_OK, st3)

/-- The frame written by one tick from state `st`: the colours of the pixel
writes of `led_ring_timer_cb`, in the order of the writes. -/
def tick_frame (fuel : Nat) (e : env) (st : State) : Option (List rgb_t) :=
  (pixel_writes fuel e st.s_led_strip st.s_ctrl LED_RING_COUNT).map written_colours

end B32

/-! ## Notions of the specification -/

/-- The rounding named in section 4.1 of the specification: the nearest integer,
a tie going away from zero (the C function `roundf`). -/
def round_half_away (x : ℚ) : ℤ := if x < 0 then -⌊-x + 1 / 2⌋ else ⌊x + 1 / 2⌋

/-- `z` is `x` rounded to the nearest integer, a tie going to the even
neighbour. -/
def nearest_ties_even (x : ℚ) (z : ℤ) : Prop :=
  |x - z| ≤ 1 / 2 ∧ (|x - z| = 1 / 2 → z % 2 = 0)

instance (x : ℚ) (z : ℤ) : Decidable (nearest_ties_even x z) := by
  unfold nearest_ties_even
  infer_instance

/-- The invariant of the animation state: brightness and saturation in `[0, 1]`,
phase in `[0, 360)`. -/
def ctrl_inv (c : led_ring_ctrl_t) : Prop :=
  (0 ≤ c.brightness ∧ c.brightness ≤ 1) ∧ (0 ≤ c.saturation ∧ c.saturation ≤ 1) ∧
    (0 ≤ c.base_hue_deg ∧ c.base_hue_deg < 360)

instance (c : led_ring_ctrl_t) : Decidable (ctrl_inv c) := by
  unfold ctrl_inv
  infer_instance
/-! # Properties

## Hue normalisation -/

theorem hsv_wrap_neg_of_nonneg {H : ℚ} (h : 0 ≤ H) : hsv_wrap_neg H = H := by
  rw [hsv_wrap_neg, if_neg (not_lt.mpr h)]

theorem hsv_wrap_neg_of_neg {H : ℚ} (h : H < 0) :
    hsv_wrap_neg H = hsv_wrap_neg (H + 360) := by
  rw [hsv_wrap_neg, if_pos h]

theorem hsv_wrap_ge_of_lt {H : ℚ} (h : H < 360) : hsv_wrap_ge H = H := by
  rw [hsv_wrap_ge, if_neg (not_le.mpr h)]

theorem hsv_wrap_ge_of_ge {H : ℚ} (h : 360 ≤ H) :
    hsv_wrap_ge H = hsv_wrap_ge (H - 360) := by
  rw [hsv_wrap_ge, if_pos h]

/-- The first loop adds a whole number of turns and leaves a value that is not
negative; a value that entered the loop leaves it below 360. -/
theorem hsv_wrap_neg_spec (H : ℚ) :
    0 ≤ hsv_wrap_neg H ∧ (H < 360 → hsv_wrap_neg H < 360) ∧
      ∃ k : ℤ, hsv_wrap_neg H = H + 360 * k := by
  induction H using hsv_wrap_neg.induct with
  | case1 H h ih =>
    obtain ⟨h0, h1, k, hk⟩ := ih
    rw [hsv_wrap_neg_of_neg h]
    refine ⟨h0, fun _ => ?_, k + 1, ?_⟩
    · by_cases h2 : H + 360 < 0
      · exact h1 (by linarith)
      · rw [hsv_wrap_neg_of_nonneg (not_lt.mp h2)]; linarith
    · rw [hk]; push_cast; ring
  | case2 H h =>
    rw [hsv_wrap_neg_of_nonneg (not_lt.mp h)]
    exact ⟨not_lt.mp h, fun h => h, 0, by simp⟩

/-- The second loop removes a whole number of turns, ends below 360 and keeps a
value that is not negative so. -/
theorem hsv_wrap_ge_spec (H : ℚ) :
    hsv_wrap_ge H < 360 ∧ (0 ≤ H → 0 ≤ hsv_wrap_ge H) ∧
      ∃ k : ℤ, hsv_wrap_ge H = H + 360 * k := by
  induction H using hsv_wrap_ge.induct with
  | case1 H h ih =>
    obtain ⟨h0, h1, k, hk⟩ := ih
    rw [hsv_wrap_ge_of_ge h]
    refine ⟨h0, fun _ => h1 (by linarith), k - 1, ?_⟩
    rw [hk]; push_cast; ring
  | case2 H h =>
    rw [hsv_wrap_ge_of_lt (not_le.mp h)]
    exact ⟨not_le.mp h, fun h => h, 0, by simp⟩

theorem hsv_hue_spec (H : ℚ) :
    0 ≤ hsv_hue H ∧ hsv_hue H < 360 ∧ ∃ k : ℤ, hsv_hue H = H + 360 * k := by
  obtain ⟨a0, _, k, hk⟩ := hsv_wrap_neg_spec H
  obtain ⟨b0, b1, j, hj⟩ := hsv_wrap_ge_spec (hsv_wrap_neg H)
  refine ⟨b1 a0, b0, k + j, ?_⟩
  unfold hsv_hue
  rw [hj, hk]; push_cast; ring

/-- Two values of one turn `[0, 360)` that differ by whole turns are equal. -/
theorem turn_unique {a b : ℚ} (ha0 : 0 ≤ a) (ha : a < 360) (hb0 : 0 ≤ b) (hb : b < 360)
    (k : ℤ) (h : a = b + 360 * k) : a = b := by
  have h1 : (k : ℚ) < 1 := by linarith
  have h2 : (-1 : ℚ) < k := by linarith
  have h3 : k < 1 := by exact_mod_cast h1
  have h4 : -1 < k := by exact_mod_cast h2
  have h5 : k = 0 := by omega
  rw [h, h5]; simp

theorem hsv_hue_add_turns (H : ℚ) (k : ℤ) : hsv_hue (H + 360 * k) = hsv_hue H := by
  obtain ⟨a0, a1, i, hi⟩ := hsv_hue_spec (H + 360 * k)
  obtain ⟨b0, b1, j, hj⟩ := hsv_hue_spec H
  refine turn_unique a0 a1 b0 b1 (i + k - j) ?_
  rw [hi, hj]; push_cast; ring

theorem hsv_hue_of_mem {H : ℚ} (h0 : 0 ≤ H) (h1 : H < 360) : hsv_hue H = H := by
  unfold hsv_hue
  rw [hsv_wrap_neg_of_nonneg h0, hsv_wrap_ge_of_lt h1]

/-! ## Rounding -/

/-- `lrintf` returns the floor or the floor plus one, according to the fractional
part. -/
theorem lrintf_cases (x : ℚ) :
    (lrintf x = ⌊x⌋ ∧ x - ⌊x⌋ ≤ 1 / 2 ∧ (x - ⌊x⌋ = 1 / 2 → ⌊x⌋ % 2 = 0)) ∨
    (lrintf x = ⌊x⌋ + 1 ∧ 1 / 2 ≤ x - ⌊x⌋ ∧ (x - ⌊x⌋ = 1 / 2 → ⌊x⌋ % 2 ≠ 0)) := by
  unfold lrintf
  simp only []
  split_ifs with h1 h2 h3
  · left; exact ⟨rfl, le_of_lt h1, fun h => absurd h (ne_of_lt h1)⟩
  · right; exact ⟨rfl, le_of_lt h2, fun h => absurd h.symm (ne_of_lt h2)⟩
  · left; exact ⟨rfl, not_lt.mp h2, fun _ => h3⟩
  · right; exact ⟨rfl, not_lt.mp h1, fun _ => h3⟩

/-- `lrintf` rounds to nearest, ties to even. -/
theorem lrintf_nearest (x : ℚ) : nearest_ties_even x (lrintf x) := by
  have hf0 : (⌊x⌋ : ℚ) ≤ x := Int.floor_le x
  have hf1 : x < ⌊x⌋ + 1 := Int.lt_floor_add_one x
  unfold nearest_ties_even
  rcases lrintf_cases x with ⟨h, hd, he⟩ | ⟨h, hd, he⟩
  · rw [h, abs_of_nonneg (by linarith)]
    exact ⟨hd, he⟩
  · rw [h]; push_cast
    rw [abs_of_nonpos (by linarith)]
    refine ⟨by linarith, fun hh => ?_⟩
    have : ⌊x⌋ % 2 ≠ 0 := he (by linarith)
    omega

/-- Rounding to nearest with ties to even determines the integer. -/
theorem nearest_ties_even_unique {x : ℚ} {z w : ℤ}
    (hz : nearest_ties_even x z) (hw : nearest_ties_even x w) : z = w := by
  obtain ⟨hz1, hz2⟩ := hz
  obtain ⟨hw1, hw2⟩ := hw
  have a1 := abs_le.mp hz1
  have a2 := abs_le.mp hw1
  have b1 : ((z - w : ℤ) : ℚ) ≤ 1 := by push_cast; linarith
  have b2 : (-1 : ℚ) ≤ ((z - w : ℤ) : ℚ) := by push_cast; linarith
  have c1 : z - w ≤ 1 := by exact_mod_cast b1
  have c2 : -1 ≤ z - w := by exact_mod_cast b2
  by_contra hne
  have hcases : z - w = 1 ∨ z - w = -1 := by omega
  rcases hcases with h | h
  · have hzw : (z : ℚ) = w + 1 := by
      have : ((z - w : ℤ) : ℚ) = 1 := by rw [h]; simp
      push_cast at this; linarith
    have e1 : x - z = -(1 / 2) := by linarith [a1.1, a2.2]
    have e2 : x - w = 1 / 2 := by linarith
    have p1 := hz2 (by rw [e1]; norm_num [abs_of_neg])
    have p2 := hw2 (by rw [e2]; norm_num [abs_of_pos])
    omega
  · have hzw : (z : ℚ) = w - 1 := by
      have : ((z - w : ℤ) : ℚ) = -1 := by rw [h]; simp
      push_cast at this; linarith
    have e1 : x - z = 1 / 2 := by linarith [a1.2, a2.1]
    have e2 : x - w = -(1 / 2) := by linarith
    have p1 := hz2 (by rw [e1]; norm_num [abs_of_pos])
    have p2 := hw2 (by rw [e2]; norm_num [abs_of_neg])
    omega

/-- Evaluation of `lrintf` away from a tie. -/
theorem lrintf_eq_of_near {x : ℚ} {z : ℤ} (h0 : x - z < 1 / 2) (h1 : -(1 / 2) < x - z) :
    lrintf x = z := by
  refine nearest_ties_even_unique (lrintf_nearest x) ⟨?_, fun h => ?_⟩
  · exact abs_le.mpr ⟨by linarith, by linarith⟩
  · exfalso
    rcases abs_cases (x - z) with ⟨e, _⟩ | ⟨e, _⟩ <;> linarith

theorem lrintf_intCast (n : ℤ) : lrintf (n : ℚ) = n :=
  lrintf_eq_of_near (by simp) (by simp)

theorem lrintf_le {x : ℚ} {n : ℤ} (h : x ≤ n) : lrintf x ≤ n := by
  have hf0 : (⌊x⌋ : ℚ) ≤ x := Int.floor_le x
  rcases lrintf_cases x with ⟨e, _, _⟩ | ⟨e, hd, _⟩
  · rw [e]; exact_mod_cast le_trans hf0 h
  · rw [e]
    have : (⌊x⌋ : ℚ) < n := by linarith
    have : ⌊x⌋ < n := by exact_mod_cast this
    omega

theorem le_lrintf {x : ℚ} {n : ℤ} (h : (n : ℚ) ≤ x) : n ≤ lrintf x := by
  have hf : n ≤ ⌊x⌋ := Int.le_floor.mpr h
  rcases lrintf_cases x with ⟨e, _, _⟩ | ⟨e, _, _⟩ <;> rw [e] <;> omega

/-! ## Colour transform -/

theorem fabsf_eq_abs (x : ℚ) : fabsf x = |x| := by
  unfold fabsf
  split_ifs with h
  · exact (abs_of_neg h).symm
  · exact (abs_of_nonneg (not_lt.mp h)).symm

theorem fmodf_mem {x y : ℚ} (hx : 0 ≤ x) (hy : 0 < y) :
    0 ≤ fmodf x y ∧ fmodf x y < y := by
  have hq : 0 ≤ x / y := div_nonneg hx (le_of_lt hy)
  have h0 : ((⌊x / y⌋ : ℤ) : ℚ) ≤ x / y := Int.floor_le _
  have h1 : x / y < ⌊x / y⌋ + 1 := Int.lt_floor_add_one _
  have e : x = x / y * y := by field_simp
  unfold fmodf truncq
  rw [if_neg (not_lt.mpr hq)]
  constructor
  · nlinarith
  · nlinarith

theorem to_uint8_of_mem {z : ℤ} (h0 : 0 ≤ z) (h1 : z ≤ 255) : (to_uint8 z : ℤ) = z := by
  unfold to_uint8
  omega

/-! ## Primary colours -/

theorem truncq_intCast_nonneg {n : ℤ} (h : 0 ≤ n) : truncq (n : ℚ) = n := by
  unfold truncq
  rw [if_neg (not_lt.mpr (by exact_mod_cast h))]
  exact Int.floor_intCast n

/-- At a hue that is an even multiple of 60 inside `[0, 360)` the intermediate
`X` vanishes. -/
theorem hsv_scaled_full (H : ℚ) (j : ℤ) (hj : 0 ≤ j) (hH : H = 120 * j) (h1 : H < 360) :
    hsv_scaled H 1 1 =
      (((hsv_sector H 1 0).1) * 255, ((hsv_sector H 1 0).2.1) * 255,
        ((hsv_sector H 1 0).2.2) * 255) := by
  have h0 : 0 ≤ H := by rw [hH]; exact mul_nonneg (by norm_num) (by exact_mod_cast hj)
  have hq : H / 60 / 2 = (j : ℚ) := by rw [hH]; ring
  have hf : fmodf (H / 60) 2 = 0 := by
    unfold fmodf
    rw [hq, truncq_intCast_nonneg hj, hH]; ring
  have hx : (1 : ℚ) * 1 * (1 - fabsf (fmodf (H / 60) 2 - 1)) = 0 := by
    rw [hf, fabsf_eq_abs]; norm_num
  simp only [hsv_scaled, hsv_hue_of_mem h0 h1, hx]
  norm_num

theorem lrintf_255 : lrintf 255 = 255 := by
  exact_mod_cast lrintf_intCast 255

theorem lrintf_0 : lrintf 0 = 0 := by
  exact_mod_cast lrintf_intCast 0

/-- C5. Primary colours: `hsv_to_rgb(0, 1, 1)` is `(255, 0, 0)`,
`hsv_to_rgb(120, 1, 1)` is `(0, 255, 0)` and `hsv_to_rgb(240, 1, 1)` is
`(0, 0, 255)`. -/
theorem hsv_to_rgb_primaries :
    hsv_to_rgb 0 1 1 = { r := 255, g := 0, b := 0 } ∧
    hsv_to_rgb 120 1 1 = { r := 0, g := 255, b := 0 } ∧
    hsv_to_rgb 240 1 1 = { r := 0, g := 0, b := 255 } := by
  have e0 : hsv_scaled 0 1 1 = (255, 0, 0) := by
    rw [hsv_scaled_full 0 0 (by norm_num) (by norm_num) (by norm_num)]
    norm_num [hsv_sector]
  have e1 : hsv_scaled 120 1 1 = (0, 255, 0) := by
    rw [hsv_scaled_full 120 1 (by norm_num) (by norm_num) (by norm_num)]
    norm_num [hsv_sector]
  have e2 : hsv_scaled 240 1 1 = (0, 0, 255) := by
    rw [hsv_scaled_full 240 2 (by norm_num) (by norm_num) (by norm_num)]
    norm_num [hsv_sector]
  refine ⟨?_, ?_, ?_⟩
  · simp only [hsv_to_rgb, hsv_rounded, e0, lrintf_255, lrintf_0]; rfl
  · simp only [hsv_to_rgb, hsv_rounded, e1, lrintf_255, lrintf_0]; rfl
  · simp only [hsv_to_rgb, hsv_rounded, e2, lrintf_255, lrintf_0]; rfl

/-! ## Phase advance -/

/-- The callback changes `base_hue_deg` and no other field of `s_ctrl`. -/
theorem led_ring_timer_cb_ctrl (e : env) (st : State) :
    (led_ring_timer_cb e st).s_ctrl =
      { st.s_ctrl with
        base_hue_deg :=
          advance_hue st.s_ctrl.base_hue_deg st.s_ctrl.speed_deg_per_sec st.s_ctrl.update_hz } :=
  rfl

/-- C6, the code at a failing input. From the boot state with the speed set to
36000 degrees per second (phase 0, 50 Hz) one tick leaves `base_hue_deg` at
360, outside `[0, 360)`; the phase 0 + 36000 / 50 = 720 normalised into
`[0, 360)` is 0. -/
theorem led_ring_timer_cb_phase_escapes :
    (led_ring_set_speed_deg 36000 State.boot).s_ctrl.base_hue_deg = 0 ∧
    (led_ring_set_speed_deg 36000 State.boot).s_ctrl.update_hz = 50 ∧
    (led_ring_timer_cb env_ok
      (led_ring_set_speed_deg 36000 State.boot)).s_ctrl.base_hue_deg = 360 ∧
    hsv_hue (0 + 36000 / 50) = 0 := by
  refine ⟨rfl, rfl, ?_, ?_⟩
  · rw [led_ring_timer_cb_ctrl]
    simp only [led_ring_set_speed_deg, State.boot, s_ctrl_init, advance_hue]
    norm_num
  · have h := hsv_hue_add_turns 0 2
    have e : (0 : ℚ) + 36000 / 50 = 0 + 360 * ((2 : ℤ) : ℚ) := by norm_num
    rw [e, h]
    exact hsv_hue_of_mem (le_refl 0) (by norm_num)

/-! ## Control API -/

/-- The clamp `fminf(fmaxf(x, 0), 1)` is `min (max x 0) 1`. -/
theorem clamp_eq (x : ℚ) : fminf (fmaxf x 0) 1 = min (max x 0) 1 := by
  unfold fminf fmaxf
  split_ifs with h1 h2 h2
  · rw [max_eq_right (le_of_lt h1), min_eq_left (by norm_num)]
  · exact absurd (by norm_num : (0 : ℚ) < 1) h2
  · rw [max_eq_left (not_lt.mp h1), min_eq_left (le_of_lt h2)]
  · rw [max_eq_left (not_lt.mp h1), min_eq_right (not_lt.mp h2)]

theorem clamp_mem (x : ℚ) : 0 ≤ fminf (fmaxf x 0) 1 ∧ fminf (fmaxf x 0) 1 ≤ 1 := by
  rw [clamp_eq]
  exact ⟨le_min (le_max_right x 0) (by norm_num), min_le_right _ _⟩

theorem led_ring_init_strip_ctrl (e : env) (st : State) :
    (led_ring_init_strip e st).2.s_ctrl = st.s_ctrl := by
  unfold led_ring_init_strip
  split
  · rfl
  · dsimp only
    split_ifs <;> rfl

theorem stop_delete_timer_ctrl (e : env) (st : State) :
    (stop_delete_timer e st).s_ctrl = st.s_ctrl := by
  unfold stop_delete_timer
  split <;> rfl

/-- The animation state that `led_ring_start` writes once the device is there. -/
theorem led_ring_start_ctrl_of_init_ok (e : env) (b s hz : ℚ) (st : State)
    (h : (led_ring_init_strip e st).1 = ESP_OK) :
    (led_ring_start e b s hz st).2.s_ctrl =
      { st.s_ctrl with
        brightness := fminf (fmaxf b 0) 1
        speed_deg_per_sec := s
        update_hz := if hz > 2 then hz else 50
        hue_span_deg := 360 / (LED_RING_COUNT : ℚ)
        base_hue_deg := 0 } := by
  unfold led_ring_start
  simp only [h, ne_eq, not_true_eq_false, if_false]
  rw [← led_ring_init_strip_ctrl e st]
  split
  · simp only [stop_delete_timer_ctrl]
  · split_ifs <;> simp only [stop_delete_timer_ctrl]

/-- A failed device initialisation ends `led_ring_start` at once. -/
theorem led_ring_start_of_init_err (e : env) (b s hz : ℚ) (st : State)
    (h : (led_ring_init_strip e st).1 ≠ ESP_OK) :
    led_ring_start e b s hz st = led_ring_init_strip e st := by
  unfold led_ring_start
  simp only [h, ne_eq, not_false_eq_true, if_true]

theorem led_ring_start_ok_init (e : env) (b s hz : ℚ) (st : State)
    (h : (led_ring_start e b s hz st).1 = ESP_OK) :
    (led_ring_init_strip e st).1 = ESP_OK := by
  by_contra hne
  rw [led_ring_start_of_init_err e b s hz st hne] at h
  exact hne h

/-- C7. Clamp invariant of the control API: from a state whose brightness and
saturation lie in `[0, 1]` and whose phase lies in `[0, 360)`, `led_ring_start`
and each setter, with any argument, lead to such a state again; and
`led_ring_set_brightness(x)`, `led_ring_set_saturation(x)` store
`min(max(x, 0), 1)`. -/
theorem control_api_keeps_inv (e : env) (x y z : ℚ) (st : State) (h : ctrl_inv st.s_ctrl) :
    ctrl_inv (led_ring_start e x y z st).2.s_ctrl ∧
    ctrl_inv (led_ring_set_brightness x st).s_ctrl ∧
    ctrl_inv (led_ring_set_speed_deg x st).s_ctrl ∧
    ctrl_inv (led_ring_set_speed_pixels x st).s_ctrl ∧
    ctrl_inv (led_ring_set_update_hz e x st).s_ctrl ∧
    ctrl_inv (led_ring_set_saturation x st).s_ctrl ∧
    ctrl_inv (led_ring_set_hue_span_deg x st).s_ctrl ∧
    (led_ring_set_brightness x st).s_ctrl.brightness = min (max x 0) 1 ∧
    (led_ring_set_saturation x st).s_ctrl.saturation = min (max x 0) 1 := by
  obtain ⟨hb, hs, hp⟩ := h
  refine ⟨?_, ⟨clamp_mem x, hs, hp⟩, ⟨hb, hs, hp⟩, ⟨hb, hs, hp⟩, ?_, ⟨hb, clamp_mem x, hp⟩,
    ⟨hb, hs, hp⟩, clamp_eq x, clamp_eq x⟩
  · by_cases hi : (led_ring_init_strip e st).1 = ESP_OK
    · rw [led_ring_start_ctrl_of_init_ok e x y z st hi]
      exact ⟨clamp_mem x, hs, le_refl 0, by norm_num⟩
    · rw [led_ring_start_of_init_err e x y z st hi, led_ring_init_strip_ctrl]
      exact ⟨hb, hs, hp⟩
  · unfold led_ring_set_update_hz
    dsimp only
    split <;> exact ⟨hb, hs, hp⟩

/-- The clamp invariant from the boot state, with out-of-range arguments. -/
theorem control_api_keeps_inv_witness :
    ctrl_inv State.boot.s_ctrl ∧
    (ctrl_inv (led_ring_start env_ok 7 (-90) 1 State.boot).2.s_ctrl ∧
    ctrl_inv (led_ring_set_brightness 7 State.boot).s_ctrl ∧
    ctrl_inv (led_ring_set_speed_deg 7 State.boot).s_ctrl ∧
    ctrl_inv (led_ring_set_speed_pixels 7 State.boot).s_ctrl ∧
    ctrl_inv (led_ring_set_update_hz env_ok 7 State.boot).s_ctrl ∧
    ctrl_inv (led_ring_set_saturation 7 State.boot).s_ctrl ∧
    ctrl_inv (led_ring_set_hue_span_deg 7 State.boot).s_ctrl ∧
    (led_ring_set_brightness 7 State.boot).s_ctrl.brightness = min (max 7 0) 1 ∧
    (led_ring_set_saturation 7 State.boot).s_ctrl.saturation = min (max 7 0) 1) :=
  have h : ctrl_inv State.boot.s_ctrl := by
    simp only [ctrl_inv, State.boot, s_ctrl_init]; norm_num
  ⟨h, control_api_keeps_inv env_ok 7 (-90) 1 State.boot h⟩

/-- On the boot state, with collaborators that succeed, the device is created. -/
theorem led_ring_init_strip_boot_ok : (led_ring_init_strip env_ok State.boot).1 = ESP_OK := by
  simp [led_ring_init_strip, State.boot, env_ok]

/-- On the boot state, with collaborators that succeed, `led_ring_start` succeeds. -/
theorem led_ring_start_boot_ok (b s hz : ℚ) :
    (led_ring_start env_ok b s hz State.boot).1 = ESP_OK := by
  unfold led_ring_start
  simp only [led_ring_init_strip_boot_ok, ne_eq, not_true_eq_false, if_false]
  simp [env_ok]

/-- C10, counterexample. `led_ring_start(0.2, 120, 1)` on the boot state
succeeds and stores `update_hz = 50`, not the 2 Hz floor. -/
theorem led_ring_start_low_hz_not_floor :
    (led_ring_start env_ok (1 / 5) 120 1 State.boot).1 = ESP_OK ∧
    (led_ring_start env_ok (1 / 5) 120 1 State.boot).2.s_ctrl.update_hz = 50 ∧
    (led_ring_start env_ok (1 / 5) 120 1 State.boot).2.s_ctrl.update_hz ≠ 2 := by
  have h : (led_ring_start env_ok (1 / 5) 120 1 State.boot).2.s_ctrl.update_hz = 50 := by
    rw [led_ring_start_ctrl_of_init_ok _ _ _ _ _ led_ring_init_strip_boot_ok]
    norm_num
  refine ⟨led_ring_start_boot_ok _ _ _, h, ?_⟩
  rw [h]; norm_num

/-- C10, amended. After a successful `led_ring_start(b, s, hz)` the phase is 0,
the speed is `s`, the brightness is `b` clamped into `[0, 1]`, and `update_hz`
is `hz` when `hz` is above 2 Hz and the 50 Hz default when `hz` is below 2 Hz. -/
theorem led_ring_start_state (e : env) (b s hz : ℚ) (st : State)
    (h : (led_ring_start e b s hz st).1 = ESP_OK) :
    (led_ring_start e b s hz st).2.s_ctrl.base_hue_deg = 0 ∧
    (led_ring_start e b s hz st).2.s_ctrl.speed_deg_per_sec = s ∧
    (led_ring_start e b s hz st).2.s_ctrl.brightness = min (max b 0) 1 ∧
    (2 < hz → (led_ring_start e b s hz st).2.s_ctrl.update_hz = hz) ∧
    (hz < 2 → (led_ring_start e b s hz st).2.s_ctrl.update_hz = 50) := by
  rw [led_ring_start_ctrl_of_init_ok e b s hz st (led_ring_start_ok_init e b s hz st h)]
  refine ⟨rfl, rfl, clamp_eq b, fun h2 => ?_, fun h2 => ?_⟩
  · simp only [gt_iff_lt, h2, if_true]
  · simp only [gt_iff_lt, not_lt.mpr (le_of_lt h2), if_false]

/-- The state after `led_ring_start(3, -90, 60)` on the boot state. -/
theorem led_ring_start_state_witness :
    (led_ring_start env_ok 3 (-90) 60 State.boot).1 = ESP_OK ∧
    ((led_ring_start env_ok 3 (-90) 60 State.boot).2.s_ctrl.base_hue_deg = 0 ∧
    (led_ring_start env_ok 3 (-90) 60 State.boot).2.s_ctrl.speed_deg_per_sec = -90 ∧
    (led_ring_start env_ok 3 (-90) 60 State.boot).2.s_ctrl.brightness = min (max 3 0) 1 ∧
    (2 < (60 : ℚ) → (led_ring_start env_ok 3 (-90) 60 State.boot).2.s_ctrl.update_hz = 60) ∧
    ((60 : ℚ) < 2 → (led_ring_start env_ok 3 (-90) 60 State.boot).2.s_ctrl.update_hz = 50)) :=
  ⟨led_ring_start_boot_ok _ _ _,
    led_ring_start_state env_ok 3 (-90) 60 State.boot (led_ring_start_boot_ok _ _ _)⟩

/-! ## Start and stop, step by step -/

theorem led_ring_init_strip_of_some (e : env) {st : State} {d : Nat}
    (h : st.s_led_strip = some d) : led_ring_init_strip e st = (ESP_OK, st) := by
  unfold led_ring_init_strip
  rw [h]

theorem led_ring_init_strip_of_none_err (e : env) {st : State} (h : st.s_led_strip = none)
    (hrc : e.new_rmt_device.1 ≠ ESP_OK) :
    led_ring_init_strip e st =
      (e.new_rmt_device.1,
        { st with
          calls := st.calls ++ [api_call.led_strip_new_rmt_device e.new_rmt_device.1] }) := by
  unfold led_ring_init_strip
  rw [h]
  simp only [hrc, ne_eq, not_false_eq_true, if_true]

theorem led_ring_init_strip_of_none_ok (e : env) {st : State} (h : st.s_led_strip = none)
    (hrc : e.new_rmt_device.1 = ESP_OK) :
    led_ring_init_strip e st =
      (ESP_OK,
        { st with
          calls := st.calls ++ [api_call.led_strip_new_rmt_device e.new_rmt_device.1]
          s_led_strip := some e.new_rmt_device.2 }) := by
  unfold led_ring_init_strip
  rw [h]
  simp only [hrc, ne_eq, not_true_eq_false, if_false]

theorem stop_delete_timer_of_some (e : env) {st : State} {t : Nat} (h : st.s_timer = some t) :
    stop_delete_timer e st =
      { st with
        s_timer := none
        calls := st.calls ++
          [api_call.xTimerStop t e.timer_stop, api_call.xTimerDelete t e.timer_delete] } := by
  unfold stop_delete_timer
  rw [h]

theorem stop_delete_timer_of_none (e : env) {st : State} (h : st.s_timer = none) :
    stop_delete_timer e st = st := by
  unfold stop_delete_timer
  rw [h]

/-- The calls made by the block that discards the timer held on entry. -/
theorem stop_delete_timer_spec (e : env) (st : State) :
    (stop_delete_timer e st).s_timer = none ∧
    (stop_delete_timer e st).s_led_strip = st.s_led_strip ∧
    (stop_delete_timer e st).calls =
      st.calls ++
        (match st.s_timer with
          | some t =>
            [api_call.xTimerStop t e.timer_stop, api_call.xTimerDelete t e.timer_delete]
          | none => []) := by
  cases h : st.s_timer with
  | none => rw [stop_delete_timer_of_none e h]; simp [h]
  | some t => rw [stop_delete_timer_of_some e h]; simp

/-- Discarding the timer does not look at the animation state. -/
theorem stop_delete_timer_with_ctrl (e : env) (st : State) (c : led_ring_ctrl_t) :
    stop_delete_timer e { st with s_ctrl := c } =
      { stop_delete_timer e st with s_ctrl := c } := by
  unfold stop_delete_timer
  cases h : st.s_timer <;> simp [h]

/-- `led_ring_start` once the device is there and `xTimerCreate` has returned a
handle: the status, the handles and the calls made. -/
theorem led_ring_start_of_created (e : env) (b s hz : ℚ) (st : State) {t : Nat}
    (hi : (led_ring_init_strip e st).1 = ESP_OK) (hc : e.timer_create = some t) :
    (led_ring_start e b s hz st).1 = (if e.timer_start = true then ESP_OK else ESP_FAIL) ∧
    (led_ring_start e b s hz st).2.s_timer = some t ∧
    (led_ring_start e b s hz st).2.s_led_strip = (led_ring_init_strip e st).2.s_led_strip ∧
    (led_ring_start e b s hz st).2.calls =
      (stop_delete_timer e (led_ring_init_strip e st).2).calls ++
        [api_call.xTimerCreate (period_ticks e (if hz > 2 then hz else 50)) (some t),
         api_call.xTimerStart t e.timer_start] := by
  obtain ⟨_, h2, _⟩ := stop_delete_timer_spec e (led_ring_init_strip e st).2
  unfold led_ring_start
  simp only [hi, ne_eq, not_true_eq_false, if_false, hc, stop_delete_timer_with_ctrl]
  cases hs : e.timer_start <;> simp [h2]

/-- `led_ring_start` once the device is there and `xTimerCreate` has returned
`NULL`. -/
theorem led_ring_start_of_not_created (e : env) (b s hz : ℚ) (st : State)
    (hi : (led_ring_init_strip e st).1 = ESP_OK) (hc : e.timer_create = none) :
    (led_ring_start e b s hz st).1 = ESP_FAIL ∧
    (led_ring_start e b s hz st).2.s_timer = none ∧
    (led_ring_start e b s hz st).2.s_led_strip = (led_ring_init_strip e st).2.s_led_strip ∧
    (led_ring_start e b s hz st).2.calls =
      (stop_delete_timer e (led_ring_init_strip e st).2).calls ++
        [api_call.xTimerCreate (period_ticks e (if hz > 2 then hz else 50)) none] := by
  obtain ⟨_, h2, _⟩ := stop_delete_timer_spec e (led_ring_init_strip e st).2
  unfold led_ring_start
  simp only [hi, ne_eq, not_true_eq_false, if_false, hc, stop_delete_timer_with_ctrl]
  simp [h2]

/-! ## Failures inside `led_ring_start` -/

/-- At a 1 kHz tick and 50 Hz the period is 20 ticks. -/
theorem period_ticks_1kHz_50 (e : env) (h : e.configTICK_RATE_HZ = 1000) :
    period_ticks e 50 = 20 := by
  have hl : lrintf (1000 / 50) = 20 := by
    rw [show (1000 / 50 : ℚ) = ((20 : ℤ) : ℚ) by norm_num]
    exact lrintf_intCast 20
  simp [period_ticks, pdMS_TO_TICKS, to_TickType_t, hl, h]

/-- On the boot state the device is created whenever the driver returns
`ESP_OK`. -/
theorem led_ring_init_strip_boot (e : env) (h : e.new_rmt_device.1 = ESP_OK) :
    led_ring_init_strip e State.boot =
      (ESP_OK,
        { State.boot with
          calls := [api_call.led_strip_new_rmt_device e.new_rmt_device.1]
          s_led_strip := some e.new_rmt_device.2 }) := by
  rw [led_ring_init_strip_of_none_ok e rfl h]
  rfl

/-- C12, the code at a failing input. On the boot state, with a timer service
whose `xTimerCreate` returns handle 1 and whose `xTimerStart` fails,
`led_ring_start(0.2, 120, 50)` returns `ESP_FAIL` and still holds handle 1 in
`s_timer`: the timer was created and is neither started nor deleted. -/
theorem led_ring_start_keeps_handle_when_start_fails :
    (led_ring_start env_timer_start_fails (1 / 5) 120 50 State.boot).1 = ESP_FAIL ∧
    (led_ring_start env_timer_start_fails (1 / 5) 120 50 State.boot).2.s_timer = some 1 ∧
    (led_ring_start env_timer_start_fails (1 / 5) 120 50 State.boot).2.calls =
      [api_call.led_strip_new_rmt_device ESP_OK, api_call.xTimerCreate 20 (some 1),
       api_call.xTimerStart 1 false] := by
  have hi := led_ring_init_strip_boot env_timer_start_fails rfl
  have hi1 : (led_ring_init_strip env_timer_start_fails State.boot).1 = ESP_OK := by rw [hi]
  have hc : env_timer_start_fails.timer_create = some 1 := rfl
  obtain ⟨h1, h2, _, h4⟩ := led_ring_start_of_created env_timer_start_fails (1 / 5) 120 50
    State.boot hi1 hc
  refine ⟨?_, h2, ?_⟩
  · rw [h1]; rfl
  · rw [h4, hi, stop_delete_timer_of_none _ rfl]
    have hp : period_ticks env_timer_start_fails 50 = 20 := period_ticks_1kHz_50 _ rfl
    have h50 : (if (50 : ℚ) > 2 then (50 : ℚ) else 50) = 50 := by norm_num
    rw [h50, hp]
    rfl

/-- When `xTimerCreate` returns `NULL`, `led_ring_start` returns `ESP_FAIL` and
holds no timer handle. -/
theorem led_ring_start_create_failure (e : env) (b s hz : ℚ) (st : State)
    (hi : (led_ring_init_strip e st).1 = ESP_OK) (hc : e.timer_create = none) :
    (led_ring_start e b s hz st).1 = ESP_FAIL ∧ (led_ring_start e b s hz st).2.s_timer = none :=
  ⟨(led_ring_start_of_not_created e b s hz st hi hc).1,
    (led_ring_start_of_not_created e b s hz st hi hc).2.1⟩

/-- C13. Atomicity on device-init failure: when no device handle is held and
`led_strip_new_rmt_device` fails, `led_ring_start` returns that status, makes no
other call (no timer is created), and leaves the animation state, the timer
handle and the device handle as they were. -/
theorem led_ring_start_init_failure (e : env) (b s hz : ℚ) (st : State)
    (h0 : st.s_led_strip = none) (h1 : e.new_rmt_device.1 ≠ ESP_OK) :
    (led_ring_start e b s hz st).1 = e.new_rmt_device.1 ∧
    (led_ring_start e b s hz st).1 ≠ ESP_OK ∧
    (led_ring_start e b s hz st).2.s_ctrl = st.s_ctrl ∧
    (led_ring_start e b s hz st).2.s_timer = st.s_timer ∧
    (led_ring_start e b s hz st).2.s_led_strip = st.s_led_strip ∧
    (led_ring_start e b s hz st).2.calls =
      st.calls ++ [api_call.led_strip_new_rmt_device e.new_rmt_device.1] ∧
    live_timers (led_ring_start e b s hz st).2.calls = live_timers st.calls := by
  have hi := led_ring_init_strip_of_none_err e h0 h1
  have hne : (led_ring_init_strip e st).1 ≠ ESP_OK := by rw [hi]; exact h1
  rw [led_ring_start_of_init_err e b s hz st hne, hi]
  refine ⟨rfl, h1, rfl, rfl, rfl, rfl, ?_⟩
  simp [live_timers, List.foldl_append, live_timers_step]

/-- The atomicity at the boot state changed by two setters, with a driver that
returns `ESP_FAIL`. -/
theorem led_ring_start_init_failure_witness :
    ((led_ring_set_saturation (1 / 2) (led_ring_set_hue_span_deg 10 State.boot)).s_led_strip
      = none ∧ env_init_fails.new_rmt_device.1 ≠ ESP_OK) ∧
    ((led_ring_start env_init_fails 1 90 60
        (led_ring_set_saturation (1 / 2) (led_ring_set_hue_span_deg 10 State.boot))).1 =
      env_init_fails.new_rmt_device.1 ∧
    (led_ring_start env_init_fails 1 90 60
        (led_ring_set_saturation (1 / 2) (led_ring_set_hue_span_deg 10 State.boot))).1 ≠ ESP_OK ∧
    (led_ring_start env_init_fails 1 90 60
        (led_ring_set_saturation (1 / 2) (led_ring_set_hue_span_deg 10 State.boot))).2.s_ctrl =
      (led_ring_set_saturation (1 / 2) (led_ring_set_hue_span_deg 10 State.boot)).s_ctrl ∧
    (led_ring_start env_init_fails 1 90 60
        (led_ring_set_saturation (1 / 2) (led_ring_set_hue_span_deg 10 State.boot))).2.s_timer =
      (led_ring_set_saturation (1 / 2) (led_ring_set_hue_span_deg 10 State.boot)).s_timer ∧
    (led_ring_start env_init_fails 1 90 60
        (led_ring_set_saturation (1 / 2)
          (led_ring_set_hue_span_deg 10 State.boot))).2.s_led_strip =
      (led_ring_set_saturation (1 / 2) (led_ring_set_hue_span_deg 10 State.boot)).s_led_strip ∧
    (led_ring_start env_init_fails 1 90 60
        (led_ring_set_saturation (1 / 2) (led_ring_set_hue_span_deg 10 State.boot))).2.calls =
      (led_ring_set_saturation (1 / 2) (led_ring_set_hue_span_deg 10 State.boot)).calls ++
        [api_call.led_strip_new_rmt_device env_init_fails.new_rmt_device.1] ∧
    live_timers (led_ring_start env_init_fails 1 90 60
        (led_ring_set_saturation (1 / 2) (led_ring_set_hue_span_deg 10 State.boot))).2.calls =
      live_timers
        (led_ring_set_saturation (1 / 2) (led_ring_set_hue_span_deg 10 State.boot)).calls) :=
  have h1 : env_init_fails.new_rmt_device.1 ≠ ESP_OK := by
    simp [env_init_fails, ESP_FAIL, ESP_OK]
  ⟨⟨rfl, h1⟩, led_ring_start_init_failure env_init_fails 1 90 60 _ rfl h1⟩

/-! ## Successive starts -/

/-- With collaborators that succeed, `led_ring_start` succeeds from every
state. -/
theorem led_ring_start_env_ok (b s hz : ℚ) (st : State) :
    (led_ring_start env_ok b s hz st).1 = ESP_OK := by
  have hi : (led_ring_init_strip env_ok st).1 = ESP_OK := by
    cases h : st.s_led_strip with
    | some d => rw [led_ring_init_strip_of_some env_ok h]
    | none => rw [led_ring_init_strip_of_none_ok env_ok h rfl]
  have hc : env_ok.timer_create = some 1 := rfl
  rw [(led_ring_start_of_created env_ok b s hz st hi hc).1]
  rfl

/-! ## Stop -/

/-- C17. Setter frame: each setter returns the state it was given with one
field of `s_ctrl` replaced (brightness, speed, speed, saturation, hue span,
update rate); the phase, the other fields and both handles are as before. The
five plain setters make no call; `led_ring_set_update_hz` adds to the record only
calls that are neither driver calls nor timer creations or deletions. -/
theorem setters_frame (e : env) (x : ℚ) (st : State) :
    led_ring_set_brightness x st =
      { st with s_ctrl := { st.s_ctrl with
          brightness := (led_ring_set_brightness x st).s_ctrl.brightness } } ∧
    led_ring_set_speed_deg x st =
      { st with s_ctrl := { st.s_ctrl with
          speed_deg_per_sec := (led_ring_set_speed_deg x st).s_ctrl.speed_deg_per_sec } } ∧
    led_ring_set_speed_pixels x st =
      { st with s_ctrl := { st.s_ctrl with
          speed_deg_per_sec := (led_ring_set_speed_pixels x st).s_ctrl.speed_deg_per_sec } } ∧
    led_ring_set_saturation x st =
      { st with s_ctrl := { st.s_ctrl with
          saturation := (led_ring_set_saturation x st).s_ctrl.saturation } } ∧
    led_ring_set_hue_span_deg x st =
      { st with s_ctrl := { st.s_ctrl with
          hue_span_deg := (led_ring_set_hue_span_deg x st).s_ctrl.hue_span_deg } } ∧
    (led_ring_set_update_hz e x st).s_ctrl =
      { st.s_ctrl with update_hz := (led_ring_set_update_hz e x st).s_ctrl.update_hz } ∧
    (led_ring_set_update_hz e x st).s_timer = st.s_timer ∧
    (led_ring_set_update_hz e x st).s_led_strip = st.s_led_strip ∧
    ∃ extra : List api_call,
      (led_ring_set_update_hz e x st).calls = st.calls ++ extra ∧
      ∀ c ∈ extra, c.is_device_call = false ∧ c.is_timer_lifecycle = false := by
  refine ⟨rfl, rfl, rfl, rfl, rfl, ?_, ?_, ?_, ?_⟩
  · unfold led_ring_set_update_hz
    cases st.s_timer <;> rfl
  · unfold led_ring_set_update_hz
    cases h : st.s_timer <;> simp [h]
  · unfold led_ring_set_update_hz
    cases st.s_timer <;> rfl
  · unfold led_ring_set_update_hz
    cases h : st.s_timer with
    | none => exact ⟨[], by simp [h], by simp⟩
    | some t =>
      refine ⟨[api_call.xTimerChangePeriod t
        (period_ticks e (if x < 2 then 2 else x)) e.timer_change_period], by simp [h], ?_⟩
      intro c hc
      rw [List.mem_singleton] at hc
      subst hc
      exact ⟨rfl, rfl⟩

/-- Whether the device is created does not depend on the animation state. -/
theorem led_ring_init_strip_status_ctrl (e : env) (st : State) (c : led_ring_ctrl_t) :
    (led_ring_init_strip e { st with s_ctrl := c }).1 = (led_ring_init_strip e st).1 := by
  unfold led_ring_init_strip
  cases h : st.s_led_strip with
  | some d => simp [h]
  | none =>
    simp only [h]
    split_ifs <;> rfl

/-- The status of `led_ring_start`, from the status of the device
initialisation and the answers of the timer service. -/
theorem led_ring_start_status (e : env) (b s hz : ℚ) (st : State) :
    (led_ring_start e b s hz st).1 =
      if (led_ring_init_strip e st).1 ≠ ESP_OK then (led_ring_init_strip e st).1
      else
        match e.timer_create with
        | none => ESP_FAIL
        | some _ => if e.timer_start = true then ESP_OK else ESP_FAIL := by
  by_cases hi : (led_ring_init_strip e st).1 = ESP_OK
  · rw [if_neg (not_not.mpr hi)]
    cases hc : e.timer_create with
    | none => exact (led_ring_start_of_not_created e b s hz st hi hc).1
    | some t => exact (led_ring_start_of_created e b s hz st hi hc).1
  · rw [if_pos hi, led_ring_start_of_init_err e b s hz st hi]

/-- The status of `led_ring_start` does not depend on the animation state. -/
theorem led_ring_start_status_ctrl (e : env) (b s hz : ℚ) (st : State) (c : led_ring_ctrl_t) :
    (led_ring_start e b s hz { st with s_ctrl := c }).1 = (led_ring_start e b s hz st).1 := by
  rw [led_ring_start_status, led_ring_start_status, led_ring_init_strip_status_ctrl]

/-- C20. What start overwrites: a successful `led_ring_start` stores the hue
span `360 / N`, whatever was stored before, and leaves the saturation as it was
before the call; called after `led_ring_set_hue_span_deg(x)` it discards `x`,
called after `led_ring_set_saturation(y)` it keeps the stored `min(max(y,0),1)`. -/
theorem led_ring_start_span_and_saturation (e : env) (b s hz x y : ℚ) (st : State)
    (h : (led_ring_start e b s hz st).1 = ESP_OK) :
    (led_ring_start e b s hz st).2.s_ctrl.hue_span_deg = 360 / (LED_RING_COUNT : ℚ) ∧
    (led_ring_start e b s hz st).2.s_ctrl.saturation = st.s_ctrl.saturation ∧
    (led_ring_start e b s hz (led_ring_set_hue_span_deg x st)).1 = ESP_OK ∧
    (led_ring_start e b s hz (led_ring_set_hue_span_deg x st)).2.s_ctrl.hue_span_deg =
      360 / (LED_RING_COUNT : ℚ) ∧
    (led_ring_start e b s hz (led_ring_set_saturation y st)).1 = ESP_OK ∧
    (led_ring_start e b s hz (led_ring_set_saturation y st)).2.s_ctrl.saturation =
      min (max y 0) 1 := by
  have hx : (led_ring_start e b s hz (led_ring_set_hue_span_deg x st)).1 = ESP_OK := by
    unfold led_ring_set_hue_span_deg
    rw [led_ring_start_status_ctrl, h]
  have hy : (led_ring_start e b s hz (led_ring_set_saturation y st)).1 = ESP_OK := by
    unfold led_ring_set_saturation
    rw [led_ring_start_status_ctrl, h]
  refine ⟨?_, ?_, hx, ?_, hy, ?_⟩
  · rw [led_ring_start_ctrl_of_init_ok e b s hz st (led_ring_start_ok_init e b s hz st h)]
  · rw [led_ring_start_ctrl_of_init_ok e b s hz st (led_ring_start_ok_init e b s hz st h)]
  · rw [led_ring_start_ctrl_of_init_ok e b s hz _ (led_ring_start_ok_init e b s hz _ hx)]
  · rw [led_ring_start_ctrl_of_init_ok e b s hz _ (led_ring_start_ok_init e b s hz _ hy)]
    exact clamp_eq y

/-- Start on the boot state with collaborators that succeed, and after
`led_ring_set_hue_span_deg(10)` or `led_ring_set_saturation(3)`. -/
theorem led_ring_start_span_and_saturation_witness :
    (led_ring_start env_ok 1 90 60 State.boot).1 = ESP_OK ∧
    ((led_ring_start env_ok 1 90 60 State.boot).2.s_ctrl.hue_span_deg =
      360 / (LED_RING_COUNT : ℚ) ∧
    (led_ring_start env_ok 1 90 60 State.boot).2.s_ctrl.saturation =
      State.boot.s_ctrl.saturation ∧
    (led_ring_start env_ok 1 90 60 (led_ring_set_hue_span_deg 10 State.boot)).1 = ESP_OK ∧
    (led_ring_start env_ok 1 90 60
      (led_ring_set_hue_span_deg 10 State.boot)).2.s_ctrl.hue_span_deg =
      360 / (LED_RING_COUNT : ℚ) ∧
    (led_ring_start env_ok 1 90 60 (led_ring_set_saturation 3 State.boot)).1 = ESP_OK ∧
    (led_ring_start env_ok 1 90 60 (led_ring_set_saturation 3 State.boot)).2.s_ctrl.saturation =
      min (max 3 0) 1) :=
  ⟨led_ring_start_env_ok _ _ _ _,
    led_ring_start_span_and_saturation env_ok 1 90 60 10 3 State.boot
      (led_ring_start_env_ok _ _ _ _)⟩

/-! ## Successive starts: the timers and the device -/

namespace B32

/-! ## Binary logarithm -/

theorem nat_log2_spec : ∀ fuel n : Nat, 0 < n → n ≤ fuel →
    2 ^ nat_log2 fuel n ≤ n ∧ n < 2 ^ (nat_log2 fuel n + 1) := by
  intro fuel
  induction fuel with
  | zero => intro n h0 h1; omega
  | succ f ih =>
    intro n h0 h1
    unfold nat_log2
    by_cases h2 : n < 2
    · rw [if_pos h2]
      constructor <;> simp <;> omega
    · rw [if_neg h2]
      have hd0 : 0 < n / 2 := by omega
      have hd1 : n / 2 ≤ f := by omega
      obtain ⟨a, b⟩ := ih (n / 2) hd0 hd1
      constructor
      · rw [pow_succ]; omega
      · rw [pow_succ]; omega

/-- The value of a rational number's absolute value from its numerator and
denominator. -/
theorem abs_eq_natAbs_div_den (x : ℚ) : |x| = (x.num.natAbs : ℚ) / (x.den : ℚ) := by
  have h := Rat.num_div_den x
  have hd : (0 : ℚ) < x.den := by exact_mod_cast x.den_pos
  conv_lhs => rw [← h]
  rw [abs_div, abs_of_pos hd]
  have e : |(x.num : ℚ)| = (x.num.natAbs : ℚ) := by
    rw [← Int.cast_abs, Int.abs_eq_natAbs, Int.cast_natCast]
  rw [e]

/-- The defining property of `ilog2`. -/
theorem ilog2_spec {x : ℚ} (hx : x ≠ 0) :
    (2 : ℚ) ^ ilog2 x ≤ |x| ∧ |x| < (2 : ℚ) ^ (ilog2 x + 1) := by
  have hn : 0 < x.num.natAbs := Int.natAbs_pos.mpr (Rat.num_ne_zero.mpr hx)
  have hd : 0 < x.den := x.den_pos
  obtain ⟨a1, a2⟩ := nat_log2_spec _ _ hn (le_refl _)
  obtain ⟨b1, b2⟩ := nat_log2_spec _ _ hd (le_refl _)
  have habs := abs_eq_natAbs_div_den x
  have hdq : (0 : ℚ) < x.den := by exact_mod_cast hd
  have a1q : (2 : ℚ) ^ (nat_log2 x.num.natAbs x.num.natAbs) ≤ x.num.natAbs := by
    exact_mod_cast a1
  have a2q : (x.num.natAbs : ℚ) < (2 : ℚ) ^ (nat_log2 x.num.natAbs x.num.natAbs + 1) := by
    exact_mod_cast a2
  have b1q : (2 : ℚ) ^ (nat_log2 x.den x.den) ≤ x.den := by exact_mod_cast b1
  have b2q : (x.den : ℚ) < (2 : ℚ) ^ (nat_log2 x.den x.den + 1) := by exact_mod_cast b2
  have two_ne : (2 : ℚ) ≠ 0 := by norm_num
  -- lower and upper estimates of `|x|`
  have hlow : (2 : ℚ) ^ (((nat_log2 x.num.natAbs x.num.natAbs : ℤ) -
      (nat_log2 x.den x.den : ℤ)) - 1) ≤ |x| := by
    rw [habs, zpow_sub₀ two_ne, zpow_sub₀ two_ne, zpow_natCast, zpow_natCast, zpow_one,
      div_div, le_div_iff₀ hdq]
    have h2 : (0 : ℚ) < 2 ^ nat_log2 x.den x.den * 2 := by positivity
    rw [div_mul_eq_mul_div, div_le_iff₀ h2]
    rw [pow_succ] at b2q
    nlinarith [a1q, b2q]
  have hupp : |x| < (2 : ℚ) ^ (((nat_log2 x.num.natAbs x.num.natAbs : ℤ) -
      (nat_log2 x.den x.den : ℤ)) + 1) := by
    have e : ((nat_log2 x.num.natAbs x.num.natAbs : ℤ) - (nat_log2 x.den x.den : ℤ)) + 1 =
        ((nat_log2 x.num.natAbs x.num.natAbs + 1 : Nat) : ℤ) - (nat_log2 x.den x.den : ℤ) := by
      push_cast; ring
    rw [habs, e, zpow_sub₀ two_ne, zpow_natCast, zpow_natCast, div_lt_div_iff₀ hdq (by positivity)]
    nlinarith [a2q, b1q]
  unfold ilog2
  simp only []
  split_ifs with h
  · exact ⟨h, hupp⟩
  · refine ⟨hlow, ?_⟩
    rw [sub_add_cancel]
    exact not_le.mp h

theorem ilog2_lt_of_abs_lt {x : ℚ} (hx : x ≠ 0) {k : ℤ} (h : |x| < (2 : ℚ) ^ k) :
    ilog2 x < k := by
  by_contra hk
  have hk' : k ≤ ilog2 x := not_lt.mp hk
  have := (ilog2_spec hx).1
  have hmono : (2 : ℚ) ^ k ≤ (2 : ℚ) ^ ilog2 x := zpow_le_zpow_right₀ (by norm_num) hk'
  linarith

theorem le_ilog2_of_le_abs {x : ℚ} (hx : x ≠ 0) {k : ℤ} (h : (2 : ℚ) ^ k ≤ |x|) :
    k ≤ ilog2 x := by
  by_contra hk
  have hk' : ilog2 x + 1 ≤ k := by omega
  have := (ilog2_spec hx).2
  have hmono : (2 : ℚ) ^ (ilog2 x + 1) ≤ (2 : ℚ) ^ k := zpow_le_zpow_right₀ (by norm_num) hk'
  linarith

theorem ilog2_neg (x : ℚ) : ilog2 (-x) = ilog2 x := by
  unfold ilog2
  simp only [Rat.neg_num, Int.natAbs_neg, Rat.neg_den, abs_neg]

theorem ulp_exp_neg (x : ℚ) : ulp_exp (-x) = ulp_exp x := by
  unfold ulp_exp
  rw [ilog2_neg]

theorem ilog2_mono {x y : ℚ} (hx : x ≠ 0) (h : |x| ≤ |y|) : ilog2 x ≤ ilog2 y := by
  have hy : y ≠ 0 := by
    intro hy0
    rw [hy0, abs_zero] at h
    exact hx (abs_eq_zero.mp (le_antisymm h (abs_nonneg x)))
  exact le_ilog2_of_le_abs hy (le_trans (ilog2_spec hx).1 h)

theorem ulp_exp_mono {x y : ℚ} (hx : x ≠ 0) (h : |x| ≤ |y|) : ulp_exp x ≤ ulp_exp y := by
  unfold ulp_exp
  have := ilog2_mono hx h
  exact max_le_max (by omega) (le_refl _)

/-! ## Rounding to binary32 -/

theorem lrintf_neg (x : ℚ) : LedRing.lrintf (-x) = -LedRing.lrintf x := by
  refine nearest_ties_even_unique (lrintf_nearest (-x)) ?_
  obtain ⟨h1, h2⟩ := lrintf_nearest x
  have e : -x - ((-LedRing.lrintf x : ℤ) : ℚ) = -(x - (LedRing.lrintf x : ℚ)) := by
    push_cast; ring
  refine ⟨by rw [e, abs_neg]; exact h1, fun h => ?_⟩
  rw [e, abs_neg] at h
  have := h2 h
  omega

theorem lrintf_mono {x y : ℚ} (h : x ≤ y) : LedRing.lrintf x ≤ LedRing.lrintf y := by
  obtain ⟨hx1, hx2⟩ := lrintf_nearest x
  obtain ⟨hy1, hy2⟩ := lrintf_nearest y
  have ax := abs_le.mp hx1
  have ay := abs_le.mp hy1
  by_contra hlt
  have hlt' : LedRing.lrintf y + 1 ≤ LedRing.lrintf x := by omega
  have hq : ((LedRing.lrintf y : ℤ) : ℚ) + 1 ≤ (LedRing.lrintf x : ℚ) := by exact_mod_cast hlt'
  have e1 : x - (LedRing.lrintf x : ℚ) = -(1 / 2) := by linarith [ax.1, ay.2]
  have e2 : y - (LedRing.lrintf y : ℚ) = 1 / 2 := by linarith [ax.1, ay.2]
  have e3 : (LedRing.lrintf x : ℚ) = (LedRing.lrintf y : ℚ) + 1 := by linarith [ax.1, ay.2]
  have e4 : LedRing.lrintf x = LedRing.lrintf y + 1 := by exact_mod_cast e3
  have p1 := hx2 (by rw [e1]; norm_num [abs_of_neg])
  have p2 := hy2 (by rw [e2]; norm_num [abs_of_pos])
  omega

theorem two_zpow_pos (e : ℤ) : (0 : ℚ) < (2 : ℚ) ^ e := by positivity

theorem rnd_zero : rnd 0 = 0 := by
  unfold rnd
  rw [if_pos rfl]

theorem rnd_of_ne {x : ℚ} (h : x ≠ 0) :
    rnd x = (LedRing.lrintf (x / 2 ^ ulp_exp x) : ℚ) * 2 ^ ulp_exp x := by
  unfold rnd
  rw [if_neg h]

theorem rnd_neg (x : ℚ) : rnd (-x) = -rnd x := by
  by_cases h : x = 0
  · subst h; simp [rnd_zero]
  · have h' : -x ≠ 0 := neg_ne_zero.mpr h
    rw [rnd_of_ne h, rnd_of_ne h', ulp_exp_neg, neg_div, lrintf_neg]
    push_cast
    ring

theorem rnd_nonneg {x : ℚ} (h : 0 ≤ x) : 0 ≤ rnd x := by
  by_cases h0 : x = 0
  · subst h0; rw [rnd_zero]
  · rw [rnd_of_ne h0]
    have hp := two_zpow_pos (ulp_exp x)
    have : (0 : ℤ) ≤ LedRing.lrintf (x / 2 ^ ulp_exp x) :=
      le_lrintf (by push_cast; exact div_nonneg h (le_of_lt hp))
    have hq : (0 : ℚ) ≤ (LedRing.lrintf (x / 2 ^ ulp_exp x) : ℚ) := by exact_mod_cast this
    exact mul_nonneg hq (le_of_lt hp)

theorem rnd_nonpos {x : ℚ} (h : x ≤ 0) : rnd x ≤ 0 := by
  have := rnd_nonneg (neg_nonneg.mpr h)
  rw [rnd_neg] at this
  linarith

/-- A value below an integer multiple of its own unit in the last place rounds
to at most that multiple. -/
theorem rnd_le_of_le_grid {x : ℚ} (hx : x ≠ 0) {N : ℤ}
    (h : x ≤ (N : ℚ) * 2 ^ ulp_exp x) : rnd x ≤ (N : ℚ) * 2 ^ ulp_exp x := by
  rw [rnd_of_ne hx]
  have hp := two_zpow_pos (ulp_exp x)
  have h1 : x / 2 ^ ulp_exp x ≤ (N : ℚ) := by rw [div_le_iff₀ hp]; exact h
  have h2 : LedRing.lrintf (x / 2 ^ ulp_exp x) ≤ N := lrintf_le h1
  have h3 : (LedRing.lrintf (x / 2 ^ ulp_exp x) : ℚ) ≤ (N : ℚ) := by exact_mod_cast h2
  exact mul_le_mul_of_nonneg_right h3 (le_of_lt hp)

theorem le_rnd_of_grid_le {x : ℚ} (hx : x ≠ 0) {N : ℤ}
    (h : (N : ℚ) * 2 ^ ulp_exp x ≤ x) : (N : ℚ) * 2 ^ ulp_exp x ≤ rnd x := by
  rw [rnd_of_ne hx]
  have hp := two_zpow_pos (ulp_exp x)
  have h1 : (N : ℚ) ≤ x / 2 ^ ulp_exp x := by rw [le_div_iff₀ hp]; exact h
  have h2 : N ≤ LedRing.lrintf (x / 2 ^ ulp_exp x) := le_lrintf h1
  have h3 : (N : ℚ) ≤ (LedRing.lrintf (x / 2 ^ ulp_exp x) : ℚ) := by exact_mod_cast h2
  exact mul_le_mul_of_nonneg_right h3 (le_of_lt hp)

theorem two_zpow_split {g e : ℤ} (h : e ≤ g) :
    (2 : ℚ) ^ g = ((2 ^ (g - e).toNat : ℤ) : ℚ) * (2 : ℚ) ^ e := by
  have hn : ((g - e).toNat : ℤ) = g - e := Int.toNat_of_nonneg (by omega)
  have two_ne : (2 : ℚ) ≠ 0 := by norm_num
  push_cast
  rw [← zpow_natCast, ← zpow_add₀ two_ne, hn]
  congr 1
  ring

/-- A multiple `m * 2 ^ g` of a power of two with fewer than 24 significant
bits, at or above the subnormal step, is left unchanged by the rounding. -/
theorem rnd_int_mul_zpow_lt {m g : ℤ} (hg : -149 ≤ g) (hm : |m| < 2 ^ 24) :
    rnd ((m : ℚ) * 2 ^ g) = (m : ℚ) * 2 ^ g := by
  by_cases h0 : m = 0
  · subst h0; simp [rnd_zero]
  have hpg := two_zpow_pos g
  have hx : (m : ℚ) * 2 ^ g ≠ 0 := by
    have : (m : ℚ) ≠ 0 := by exact_mod_cast h0
    exact mul_ne_zero this (ne_of_gt hpg)
  have habs : |(m : ℚ) * 2 ^ g| < (2 : ℚ) ^ (g + 24) := by
    rw [abs_mul, abs_of_pos hpg, zpow_add₀ (by norm_num : (2 : ℚ) ≠ 0), mul_comm]
    have : |(m : ℚ)| < 2 ^ 24 := by
      have : ((|m| : ℤ) : ℚ) < ((2 ^ 24 : ℤ) : ℚ) := by exact_mod_cast hm
      simpa using this
    have h24 : ((2 : ℚ) ^ (24 : ℤ)) = 2 ^ 24 := by norm_num
    rw [h24]
    exact mul_lt_mul_of_pos_left this hpg
  have hlog := ilog2_lt_of_abs_lt hx habs
  have he : ulp_exp ((m : ℚ) * 2 ^ g) ≤ g := by
    unfold ulp_exp
    exact max_le (by omega) hg
  rw [rnd_of_ne hx]
  generalize ulp_exp ((m : ℚ) * 2 ^ g) = e at he
  have hs := two_zpow_split he
  have hpe := two_zpow_pos e
  have hdiv : (m : ℚ) * 2 ^ g / 2 ^ e = ((m * 2 ^ (g - e).toNat : ℤ) : ℚ) := by
    rw [hs]
    push_cast
    field_simp
    ring
  rw [hdiv, lrintf_intCast, hs]
  push_cast
  ring

theorem rnd_int_mul_zpow {m g : ℤ} (hg : -149 ≤ g) (hm : |m| ≤ 2 ^ 24) :
    rnd ((m : ℚ) * 2 ^ g) = (m : ℚ) * 2 ^ g := by
  by_cases h : |m| < 2 ^ 24
  · exact rnd_int_mul_zpow_lt hg h
  · have hm' : |m| = 2 ^ 24 := le_antisymm hm (not_lt.mp h)
    have hcase : m = 2 ^ 24 ∨ m = -2 ^ 24 := by
      rcases abs_cases m with ⟨e, _⟩ | ⟨e, _⟩ <;> omega
    have h2 : (2 : ℚ) ^ (g + 1) = 2 * 2 ^ g := by
      rw [zpow_add₀ (by norm_num : (2 : ℚ) ≠ 0)]; norm_num; ring
    rcases hcase with e | e
    · have := @rnd_int_mul_zpow_lt (2 ^ 23) (g + 1) (by omega) (by norm_num)
      have e1 : ((m : ℤ) : ℚ) * 2 ^ g = (((2 : ℤ) ^ 23 : ℤ) : ℚ) * 2 ^ (g + 1) := by
        rw [e, h2]; push_cast; ring
      rw [e1]; exact this
    · have := @rnd_int_mul_zpow_lt (-2 ^ 23) (g + 1) (by omega) (by norm_num)
      have e1 : ((m : ℤ) : ℚ) * 2 ^ g = ((-(2 : ℤ) ^ 23 : ℤ) : ℚ) * 2 ^ (g + 1) := by
        rw [e, h2]; push_cast; ring
      rw [e1]; exact this

/-- The magnitude of a number against its unit in the last place. -/
theorem abs_lt_ulp_mul {x : ℚ} (hx : x ≠ 0) : |x| < 2 ^ 24 * (2 : ℚ) ^ ulp_exp x := by
  have h1 := (ilog2_spec hx).2
  have h2 : ilog2 x + 1 ≤ ulp_exp x + 24 := by
    unfold ulp_exp
    have := le_max_left (ilog2 x - 23) (-149)
    omega
  have h3 : (2 : ℚ) ^ (ilog2 x + 1) ≤ (2 : ℚ) ^ (ulp_exp x + 24) :=
    zpow_le_zpow_right₀ (by norm_num) h2
  have h4 : (2 : ℚ) ^ (ulp_exp x + 24) = 2 ^ 24 * (2 : ℚ) ^ ulp_exp x := by
    rw [zpow_add₀ (by norm_num : (2 : ℚ) ≠ 0)]; norm_num; ring
  linarith

theorem abs_lrintf_div_ulp_le {x : ℚ} (hx : x ≠ 0) :
    |LedRing.lrintf (x / 2 ^ ulp_exp x)| ≤ 2 ^ 24 := by
  have hp := two_zpow_pos (ulp_exp x)
  have h := abs_lt.mp (abs_lt_ulp_mul hx)
  have h1 : x / 2 ^ ulp_exp x ≤ ((2 ^ 24 : ℤ) : ℚ) := by
    rw [div_le_iff₀ hp]; push_cast; linarith [h.2]
  have h2 : ((-2 ^ 24 : ℤ) : ℚ) ≤ x / 2 ^ ulp_exp x := by
    rw [le_div_iff₀ hp]; push_cast; linarith [h.1]
  exact abs_le.mpr ⟨le_lrintf h2, lrintf_le h1⟩

/-- Rounding is idempotent: a rounded value is a binary32 value. -/
theorem rnd_idem (x : ℚ) : rnd (rnd x) = rnd x := by
  by_cases hx : x = 0
  · subst hx; rw [rnd_zero, rnd_zero]
  · rw [rnd_of_ne hx]
    refine rnd_int_mul_zpow ?_ (abs_lrintf_div_ulp_le hx)
    unfold ulp_exp
    exact le_max_right _ _

/-- A binary32 value is an integer multiple of its unit in the last place. -/
theorem exists_int_mul_of_rnd_eq {x : ℚ} (h : rnd x = x) (hx : x ≠ 0) :
    ∃ m : ℤ, x = (m : ℚ) * 2 ^ ulp_exp x := by
  refine ⟨LedRing.lrintf (x / 2 ^ ulp_exp x), ?_⟩
  rw [← rnd_of_ne hx, h]

theorem rnd_mono_pos {x y : ℚ} (hx : 0 < x) (h : x ≤ y) : rnd x ≤ rnd y := by
  have hx0 : x ≠ 0 := ne_of_gt hx
  have hy : 0 < y := lt_of_lt_of_le hx h
  have hy0 : y ≠ 0 := ne_of_gt hy
  have habs : |x| ≤ |y| := by rw [abs_of_pos hx, abs_of_pos hy]; exact h
  have he := ulp_exp_mono hx0 habs
  rcases eq_or_lt_of_le he with heq | hlt
  · rw [rnd_of_ne hx0, rnd_of_ne hy0, heq]
    have hp := two_zpow_pos (ulp_exp y)
    have h1 : x / 2 ^ ulp_exp y ≤ y / 2 ^ ulp_exp y := div_le_div_of_nonneg_right h (le_of_lt hp)
    have h2 := lrintf_mono h1
    have h3 : (LedRing.lrintf (x / 2 ^ ulp_exp y) : ℚ) ≤ (LedRing.lrintf (y / 2 ^ ulp_exp y) : ℚ) := by
      exact_mod_cast h2
    exact mul_le_mul_of_nonneg_right h3 (le_of_lt hp)
  · -- the power of two at the bottom of the binade of `y` separates the two
    have hxl : -149 ≤ ulp_exp x := by unfold ulp_exp; exact le_max_right _ _
    have hxe : ilog2 x - 23 ≤ ulp_exp x := by unfold ulp_exp; exact le_max_left _ _
    have hye : ulp_exp y = ilog2 y - 23 := by
      unfold ulp_exp at hlt ⊢
      rcases max_cases (ilog2 y - 23) (-149) with ⟨e, _⟩ | ⟨e, _⟩
      · exact e
      · rw [e] at hlt; omega
    have hlog : ilog2 x + 1 ≤ ilog2 y := by omega
    have hxB : x ≤ (2 : ℚ) ^ ilog2 y := by
      have h1 := (ilog2_spec hx0).2
      rw [abs_of_pos hx] at h1
      have h2 : (2 : ℚ) ^ (ilog2 x + 1) ≤ (2 : ℚ) ^ ilog2 y :=
        zpow_le_zpow_right₀ (by norm_num) hlog
      linarith
    have hBy : (2 : ℚ) ^ ilog2 y ≤ y := by
      have h1 := (ilog2_spec hy0).1
      rw [abs_of_pos hy] at h1
      exact h1
    have s1 := @two_zpow_split (ilog2 y) (ulp_exp x) (by omega)
    have s2 := @two_zpow_split (ilog2 y) (ulp_exp y) (by omega)
    have r1 := @rnd_le_of_le_grid x hx0 (2 ^ (ilog2 y - ulp_exp x).toNat) (by rw [← s1]; exact hxB)
    have r2 := @le_rnd_of_grid_le y hy0 (2 ^ (ilog2 y - ulp_exp y).toNat) (by rw [← s2]; exact hBy)
    rw [← s1] at r1
    rw [← s2] at r2
    linarith

/-- Rounding is monotone. -/
theorem rnd_mono {x y : ℚ} (h : x ≤ y) : rnd x ≤ rnd y := by
  rcases lt_or_le 0 x with hx | hx
  · exact rnd_mono_pos hx h
  · rcases le_or_lt 0 y with hy | hy
    · exact le_trans (rnd_nonpos hx) (rnd_nonneg hy)
    · have := @rnd_mono_pos (-y) (-x) (by linarith) (by linarith)
      rw [rnd_neg, rnd_neg] at this
      linarith

/-- The rounding error is at most half a unit in the last place. -/
theorem rnd_err (x : ℚ) : |rnd x - x| ≤ (2 : ℚ) ^ ulp_exp x / 2 := by
  by_cases hx : x = 0
  · subst hx
    rw [rnd_zero]
    simp
    positivity
  · rw [rnd_of_ne hx]
    have hp := two_zpow_pos (ulp_exp x)
    obtain ⟨h1, _⟩ := lrintf_nearest (x / 2 ^ ulp_exp x)
    have e : (LedRing.lrintf (x / 2 ^ ulp_exp x) : ℚ) * 2 ^ ulp_exp x - x =
        -(x / 2 ^ ulp_exp x - (LedRing.lrintf (x / 2 ^ ulp_exp x) : ℚ)) * 2 ^ ulp_exp x := by
      field_simp
      ring
    rw [e, abs_mul, abs_neg, abs_of_pos hp]
    have := mul_le_mul_of_nonneg_right h1 (le_of_lt hp)
    linarith

/-- Between 0 and 1 the rounding error is at most `2 ^ (-25)`. -/
theorem rnd_err_unit {x : ℚ} (h0 : 0 ≤ x) (h1 : x < 1) : |rnd x - x| ≤ 1 / 2 ^ 25 := by
  by_cases hx : x = 0
  · subst hx; rw [rnd_zero]; simp
  · have hlog : ilog2 x < 0 := ilog2_lt_of_abs_lt hx (by rw [abs_of_nonneg h0]; simpa using h1)
    have hu : ulp_exp x ≤ -24 := by
      unfold ulp_exp
      exact max_le (by omega) (by norm_num)
    have h2 : (2 : ℚ) ^ ulp_exp x ≤ (2 : ℚ) ^ (-24 : ℤ) := zpow_le_zpow_right₀ (by norm_num) hu
    have h3 : (2 : ℚ) ^ (-24 : ℤ) = 1 / 2 ^ 24 := by norm_num [zpow_neg]
    have := rnd_err x
    rw [h3] at h2
    have h4 : (1 : ℚ) / 2 ^ 24 / 2 = 1 / 2 ^ 25 := by norm_num
    linarith

/-! ## Finite results -/

theorem of_real_of_abs_le {x : ℚ} (h : |rnd x| ≤ FLT_MAX) : of_real x = f32.fin (rnd x) := by
  have h' := abs_le.mp h
  unfold of_real
  rw [if_neg (not_lt.mpr h'.2), if_neg (not_lt.mpr h'.1)]

theorem rnd_abs_le {x c : ℚ} (hc : rnd c = c) (h : |x| ≤ c) : |rnd x| ≤ c := by
  have h' := abs_le.mp h
  have h1 := rnd_mono h'.2
  have h2 := rnd_mono h'.1
  rw [hc] at h1
  rw [rnd_neg, hc] at h2
  exact abs_le.mpr ⟨h2, h1⟩

theorem rnd_FLT_MAX : rnd FLT_MAX = FLT_MAX := by
  have := @rnd_int_mul_zpow_lt (2 ^ 24 - 1) 104 (by norm_num) (by norm_num)
  have e : FLT_MAX = (((2 : ℤ) ^ 24 - 1 : ℤ) : ℚ) * (2 : ℚ) ^ (104 : ℤ) := by
    unfold FLT_MAX; norm_num
  rw [e]; exact this

/-- The result of an operation whose exact value does not exceed a binary32
value `c` in magnitude is the rounded value. -/
theorem of_real_of_le {x c : ℚ} (hc : rnd c = c) (hcm : c ≤ FLT_MAX) (h : |x| ≤ c) :
    of_real x = f32.fin (rnd x) :=
  of_real_of_abs_le (le_trans (rnd_abs_le hc h) hcm)

/-- The result of an operation whose exact value is a binary32 value. -/
theorem of_real_of_rnd_eq {x : ℚ} (h : rnd x = x) (hm : |x| ≤ FLT_MAX) :
    of_real x = f32.fin x := by
  have := @of_real_of_abs_le x (by rw [h]; exact hm)
  rw [this, h]

/-- A natural number below `2 ^ 24` is a binary32 value. -/
theorem rnd_natCast {n : Nat} (h : n < 2 ^ 24) : rnd (n : ℚ) = n := by
  have := @rnd_int_mul_zpow_lt (n : ℤ) 0 (by norm_num) (by
    rw [abs_of_nonneg (by positivity)]; exact_mod_cast h)
  simpa using this

/-! ## Multiples of a power of two -/

theorem aligned_iff {g : ℤ} {x : ℚ} : aligned g x ↔ ∃ m : ℤ, x = (m : ℚ) * 2 ^ g := by
  have hp := two_zpow_pos g
  unfold aligned
  constructor
  · intro h
    refine ⟨(x / 2 ^ g).num, ?_⟩
    have := Rat.num_div_den (x / 2 ^ g)
    rw [h] at this
    simp only [Nat.cast_one, div_one] at this
    rw [this]
    field_simp
  · rintro ⟨m, rfl⟩
    have : (m : ℚ) * 2 ^ g / 2 ^ g = (m : ℚ) := by field_simp
    rw [this]
    exact Rat.den_intCast m

theorem aligned_of_le {g g1 : ℤ} {x : ℚ} (h : g1 ≤ g) (hx : aligned g x) : aligned g1 x := by
  rw [aligned_iff] at hx ⊢
  obtain ⟨m, rfl⟩ := hx
  refine ⟨m * 2 ^ (g - g1).toNat, ?_⟩
  rw [two_zpow_split h]
  push_cast
  ring

theorem aligned_add {g : ℤ} {x y : ℚ} (hx : aligned g x) (hy : aligned g y) :
    aligned g (x + y) := by
  rw [aligned_iff] at hx hy ⊢
  obtain ⟨m, rfl⟩ := hx
  obtain ⟨n, rfl⟩ := hy
  exact ⟨m + n, by push_cast; ring⟩

theorem aligned_neg {g : ℤ} {x : ℚ} (hx : aligned g x) : aligned g (-x) := by
  rw [aligned_iff] at hx ⊢
  obtain ⟨m, rfl⟩ := hx
  exact ⟨-m, by push_cast; ring⟩

theorem aligned_sub {g : ℤ} {x y : ℚ} (hx : aligned g x) (hy : aligned g y) :
    aligned g (x - y) := by
  rw [sub_eq_add_neg]
  exact aligned_add hx (aligned_neg hy)

theorem aligned_int_mul {g : ℤ} {x : ℚ} (k : ℤ) (hx : aligned g x) :
    aligned g ((k : ℚ) * x) := by
  rw [aligned_iff] at hx ⊢
  obtain ⟨m, rfl⟩ := hx
  exact ⟨k * m, by push_cast; ring⟩

theorem aligned_intCast {g : ℤ} (hg : g ≤ 0) (n : ℤ) : aligned g (n : ℚ) := by
  have h0 : aligned 0 (n : ℚ) := aligned_iff.mpr ⟨n, by simp⟩
  exact aligned_of_le hg h0

theorem aligned_360 {g : ℤ} (hg : g ≤ 3) : aligned g (360 : ℚ) :=
  aligned_of_le hg (aligned_iff.mpr ⟨45, by norm_num⟩)

/-- A binary32 value is a multiple of its unit in the last place. -/
theorem aligned_of_rnd_eq {x : ℚ} (h : rnd x = x) : aligned (ulp_exp x) x := by
  by_cases hx : x = 0
  · subst hx; exact aligned_iff.mpr ⟨0, by simp⟩
  · exact aligned_iff.mpr (exists_int_mul_of_rnd_eq h hx)

/-- A multiple of `2 ^ g` of magnitude at most `2 ^ (g + 24)` is a binary32
value. -/
theorem rnd_eq_of_aligned {x : ℚ} {g : ℤ} (hg : -149 ≤ g) (ha : aligned g x)
    (hb : |x| ≤ 2 ^ 24 * (2 : ℚ) ^ g) : rnd x = x := by
  obtain ⟨m, rfl⟩ := aligned_iff.mp ha
  refine rnd_int_mul_zpow hg ?_
  have hp := two_zpow_pos g
  rw [abs_mul, abs_of_pos hp] at hb
  have h1 : |(m : ℚ)| ≤ 2 ^ 24 := le_of_mul_le_mul_right hb hp
  have h2 : ((|m| : ℤ) : ℚ) ≤ ((2 ^ 24 : ℤ) : ℚ) := by push_cast; exact h1
  exact_mod_cast h2

/-- The unit in the last place of a value of magnitude at least `2 ^ k`. -/
theorem le_ulp_exp {x : ℚ} {k : ℤ} (h : (2 : ℚ) ^ k ≤ |x|) : k - 23 ≤ ulp_exp x := by
  have hx : x ≠ 0 := by
    intro h0
    rw [h0, abs_zero] at h
    exact absurd h (not_le.mpr (two_zpow_pos k))
  have := le_ilog2_of_le_abs hx h
  unfold ulp_exp
  have := le_max_left (ilog2 x - 23) (-149)
  omega

theorem ulp_exp_le {x : ℚ} {k : ℤ} (hk : -149 ≤ k - 24) (hx : x ≠ 0) (h : |x| < (2 : ℚ) ^ k) :
    ulp_exp x ≤ k - 24 := by
  have := ilog2_lt_of_abs_lt hx h
  unfold ulp_exp
  exact max_le (by omega) (by omega)

/-- A binary32 value of magnitude at least 256 is a multiple of `2 ^ (-15)`. -/
theorem aligned_of_ge_256 {x : ℚ} (h : rnd x = x) (hx : 256 ≤ |x|) : aligned (-15) x := by
  have h1 : (-15 : ℤ) ≤ ulp_exp x := by
    have := @le_ulp_exp x 8 (by norm_num; exact hx)
    omega
  exact aligned_of_le h1 (aligned_of_rnd_eq h)

/-! ## The normalising loops where they are exact -/

/-- `H - 360.0f` is exact between 360 and `2 ^ 27`. -/
theorem rnd_sub_360 {x : ℚ} (h : rnd x = x) (h0 : 360 ≤ x) (h1 : x ≤ 2 ^ 27) :
    rnd (x - 360) = x - 360 := by
  have hx0 : x ≠ 0 := by linarith
  have habs : |x| = x := abs_of_pos (by linarith)
  rcases eq_or_lt_of_le h1 with heq | hlt
  · rw [heq]
    have := @rnd_int_mul_zpow_lt 16777171 3 (by norm_num) (by norm_num)
    have e : ((2 : ℚ) ^ 27 - 360) = ((16777171 : ℤ) : ℚ) * (2 : ℚ) ^ (3 : ℤ) := by norm_num
    rw [e]; exact this
  · have hu : ulp_exp x ≤ 3 := by
      have := @ulp_exp_le x 27 (by norm_num) hx0 (by rw [habs]; exact_mod_cast hlt)
      omega
    have hl : -149 ≤ ulp_exp x := by unfold ulp_exp; exact le_max_right _ _
    refine rnd_eq_of_aligned hl (aligned_sub (aligned_of_rnd_eq h) (aligned_360 hu)) ?_
    have := abs_lt_ulp_mul hx0
    rw [habs] at this
    rw [abs_of_nonneg (by linarith)]
    linarith

/-- `H + 360.0f` is exact between `-2 ^ 27` and -360. -/
theorem rnd_add_360_of_le {x : ℚ} (h : rnd x = x) (h0 : x ≤ -360) (h1 : -2 ^ 27 ≤ x) :
    rnd (x + 360) = x + 360 := by
  have := @rnd_sub_360 (-x) (by rw [rnd_neg, h]) (by linarith) (by linarith)
  have e : x + 360 = -(-x - 360) := by ring
  rw [e, rnd_neg, this]

/-- `H + 360.0f` is exact for a negative multiple of `2 ^ (-15)` above -360. -/
theorem rnd_add_360_of_aligned {x : ℚ} (ha : aligned (-15) x) (h0 : -360 ≤ x) (h1 : x < 0) :
    rnd (x + 360) = x + 360 := by
  refine rnd_eq_of_aligned (by norm_num) (aligned_add ha (aligned_360 (by norm_num))) ?_
  rw [abs_of_nonneg (by linarith)]
  have : (2 : ℚ) ^ 24 * (2 : ℚ) ^ (-15 : ℤ) = 512 := by norm_num [zpow_neg]
  rw [this]
  linarith

theorem FLT_MAX_ge : (2 : ℚ) ^ 27 ≤ FLT_MAX := by
  unfold FLT_MAX; norm_num

theorem sub_fin_360 (x : ℚ) : sub (f32.fin x) (f32.fin 360) = of_real (x - 360) := by
  show of_real (x + -360) = of_real (x - 360)
  rw [sub_eq_add_neg]

theorem add_fin_360 (x : ℚ) : add (f32.fin x) (f32.fin 360) = of_real (x + 360) := rfl

theorem ge_fin (x y : ℚ) : ge (f32.fin x) (f32.fin y) = decide (y ≤ x) := rfl

theorem lt_fin (x y : ℚ) : lt (f32.fin x) (f32.fin y) = decide (x < y) := rfl

theorem hsv_wrap_ge_succ (fuel : Nat) (H : f32) :
    hsv_wrap_ge (fuel + 1) H =
      if ge H (f32.fin 360) then hsv_wrap_ge fuel (sub H (f32.fin 360)) else some H := rfl

theorem hsv_wrap_neg_succ (fuel : Nat) (H : f32) :
    hsv_wrap_neg (fuel + 1) H =
      if lt H (f32.fin 0) then hsv_wrap_neg fuel (add H (f32.fin 360)) else some H := rfl

/-- The second loop on a binary32 value between 0 and `2 ^ 27`: every
subtraction is exact, and the loop ends within `fuel` tests when
`H < 360 * fuel`. -/
theorem hsv_wrap_ge_exact : ∀ (fuel : Nat) (x : ℚ), rnd x = x → 0 ≤ x → x ≤ 2 ^ 27 →
    x < 360 * fuel →
    hsv_wrap_ge fuel (f32.fin x) = some (f32.fin (LedRing.hsv_wrap_ge x)) := by
  intro fuel
  induction fuel with
  | zero => intro x _ h0 _ hf; simp at hf; linarith
  | succ f ih =>
    intro x hx h0 h1 hf
    rw [hsv_wrap_ge_succ, ge_fin]
    by_cases h : 360 ≤ x
    · have hr := rnd_sub_360 hx h h1
      have hm : |x - 360| ≤ FLT_MAX := by
        rw [abs_of_nonneg (by linarith)]
        linarith [FLT_MAX_ge]
      rw [decide_eq_true h, if_pos rfl, sub_fin_360, of_real_of_rnd_eq hr hm,
        LedRing.hsv_wrap_ge_of_ge h]
      refine ih (x - 360) hr (by linarith) (by linarith) ?_
      push_cast at hf
      linarith
    · rw [decide_eq_false h, LedRing.hsv_wrap_ge_of_lt (not_le.mp h)]
      simp

/-- The first loop on a binary32 value between `-2 ^ 27` and 0 that is a
multiple of `2 ^ (-15)`: every addition is exact, and the loop ends within
`fuel + 1` tests when `-360 * fuel ≤ H`. -/
theorem hsv_wrap_neg_exact : ∀ (fuel : Nat) (x : ℚ), rnd x = x → aligned (-15) x →
    -2 ^ 27 ≤ x → -(360 * (fuel : ℚ)) ≤ x →
    hsv_wrap_neg (fuel + 1) (f32.fin x) = some (f32.fin (LedRing.hsv_wrap_neg x)) := by
  intro fuel
  induction fuel with
  | zero =>
    intro x _ _ _ hf
    simp at hf
    rw [hsv_wrap_neg_succ, lt_fin, decide_eq_false (not_lt.mpr hf),
      LedRing.hsv_wrap_neg_of_nonneg hf]
    simp
  | succ f ih =>
    intro x hx ha h1 hf
    rw [hsv_wrap_neg_succ, lt_fin]
    by_cases h : x < 0
    · have hr : rnd (x + 360) = x + 360 := by
        rcases le_or_lt x (-360) with h2 | h2
        · exact rnd_add_360_of_le hx h2 h1
        · exact rnd_add_360_of_aligned ha (le_of_lt h2) h
      have hm : |x + 360| ≤ FLT_MAX := by
        have := FLT_MAX_ge
        exact abs_le.mpr ⟨by linarith, by linarith⟩
      rw [decide_eq_true h, if_pos rfl, add_fin_360, of_real_of_rnd_eq hr hm,
        LedRing.hsv_wrap_neg_of_neg h]
      refine ih (x + 360) hr (aligned_add ha (aligned_360 (by norm_num))) (by linarith) ?_
      push_cast at hf
      linarith
    · rw [decide_eq_false h, LedRing.hsv_wrap_neg_of_nonneg (not_lt.mp h)]
      simp

/-! ## Hue normalisation in binary32 -/

theorem rnd_of_aligned_turn {y : ℚ} (ha : aligned (-15) y) (h0 : 0 ≤ y) (h1 : y < 360) :
    rnd y = y := by
  refine rnd_eq_of_aligned (by norm_num) ha ?_
  rw [abs_of_nonneg h0]
  have : (2 : ℚ) ^ 24 * (2 : ℚ) ^ (-15 : ℤ) = 512 := by norm_num [zpow_neg]
  rw [this]
  linarith

theorem rnd_360 : rnd 360 = 360 := by
  have := @rnd_natCast 360 (by norm_num)
  simpa using this

theorem hsv_hue_eq (fuel : Nat) (H : f32) :
    hsv_hue fuel H =
      match hsv_wrap_neg fuel H with
      | some H1 => hsv_wrap_ge fuel H1
      | none => none := rfl

/-- The exact second loop keeps binary32 values between 0 and `2 ^ 27`. -/
theorem rnd_hsv_wrap_ge (x : ℚ) : rnd x = x → 0 ≤ x → x ≤ 2 ^ 27 →
    rnd (LedRing.hsv_wrap_ge x) = LedRing.hsv_wrap_ge x := by
  induction x using LedRing.hsv_wrap_ge.induct with
  | case1 H h ih =>
    intro hx h0 h1
    rw [LedRing.hsv_wrap_ge_of_ge h]
    exact ih (rnd_sub_360 hx h h1) (by linarith) (by linarith)
  | case2 H h =>
    intro hx _ _
    rw [LedRing.hsv_wrap_ge_of_lt (not_le.mp h)]
    exact hx

/-- The first loop ends for every binary32 value of magnitude at most `2 ^ 27`,
on a binary32 value between 0 and `2 ^ 27`; it is exact unless `H + 360` is
rounded for a `H` between -360 and 0. -/
theorem hsv_wrap_neg_returns {x : ℚ} {fuel : Nat} (hx : rnd x = x) (hb : |x| ≤ 2 ^ 27)
    (hf : 372830 ≤ fuel) :
    ∃ r : ℚ, hsv_wrap_neg fuel (f32.fin x) = some (f32.fin r) ∧ rnd r = r ∧ 0 ≤ r ∧
      r ≤ 2 ^ 27 ∧
      ((-360 < x → x < 0 → rnd (x + 360) = x + 360) → r = LedRing.hsv_wrap_neg x) := by
  have hb' := abs_le.mp hb
  obtain ⟨f, rfl⟩ : ∃ f, fuel = f + 2 := ⟨fuel - 2, by omega⟩
  have hfq : (372828 : ℚ) ≤ (f : ℚ) := by
    have : 372828 ≤ f := by omega
    exact_mod_cast this
  rcases le_or_lt 0 x with h0 | h0
  · refine ⟨x, ?_, hx, h0, hb'.2, fun _ => (LedRing.hsv_wrap_neg_of_nonneg h0).symm⟩
    rw [hsv_wrap_neg_succ, lt_fin, decide_eq_false (not_lt.mpr h0)]
    simp
  · rcases le_or_lt x (-360) with h1 | h1
    · have ha : aligned (-15) x :=
        aligned_of_ge_256 hx (by rw [abs_of_neg h0]; linarith)
      have e1 := hsv_wrap_neg_exact (f + 1) x hx ha hb'.1 (by push_cast; linarith)
      obtain ⟨y0, y1, k, hk⟩ := LedRing.hsv_wrap_neg_spec x
      have hay : aligned (-15) (LedRing.hsv_wrap_neg x) := by
        rw [hk]
        have := aligned_add ha (aligned_int_mul k (@aligned_360 (-15) (by norm_num)))
        rw [mul_comm] at this
        exact this
      have hy1 := y1 (by linarith)
      exact ⟨_, e1, rnd_of_aligned_turn hay y0 hy1, y0, by linarith, fun _ => rfl⟩
    · have hm : |x + 360| ≤ 360 := abs_le.mpr ⟨by linarith, by linarith⟩
      have hfm : (360 : ℚ) ≤ FLT_MAX := by unfold FLT_MAX; norm_num
      have hr0 : 0 ≤ rnd (x + 360) := rnd_nonneg (by linarith)
      have hr1 : rnd (x + 360) ≤ 360 := by
        have := @rnd_mono (x + 360) 360 (by linarith)
        rw [rnd_360] at this
        exact this
      refine ⟨rnd (x + 360), ?_, rnd_idem _, hr0, by linarith, fun hs => ?_⟩
      · rw [hsv_wrap_neg_succ, lt_fin, decide_eq_true h0, if_pos rfl, add_fin_360,
          of_real_of_le rnd_360 hfm hm, hsv_wrap_neg_succ, lt_fin,
          decide_eq_false (not_lt.mpr hr0)]
        simp
      · rw [hs h1 h0, LedRing.hsv_wrap_neg_of_neg h0,
          LedRing.hsv_wrap_neg_of_nonneg (by linarith)]

/-- The two normalising loops end for every binary32 value of magnitude at most
`2 ^ 27`, on a binary32 value in `[0, 360)`. -/
theorem hsv_hue_returns {x : ℚ} {fuel : Nat} (hx : rnd x = x) (hb : |x| ≤ 2 ^ 27)
    (hf : 372830 ≤ fuel) :
    ∃ y : ℚ, hsv_hue fuel (f32.fin x) = some (f32.fin y) ∧ rnd y = y ∧ 0 ≤ y ∧ y < 360 ∧
      ((-360 < x → x < 0 → rnd (x + 360) = x + 360) → y = LedRing.hsv_hue x) := by
  obtain ⟨r, e1, hr, r0, r1, hex⟩ := hsv_wrap_neg_returns hx hb hf
  have hfuel : r < 360 * (fuel : ℚ) := by
    have : (372830 : ℚ) ≤ (fuel : ℚ) := by exact_mod_cast hf
    have h27 : (2 : ℚ) ^ 27 = 134217728 := by norm_num
    linarith
  have e2 := hsv_wrap_ge_exact fuel r hr r0 r1 hfuel
  obtain ⟨g0, g1, _⟩ := LedRing.hsv_wrap_ge_spec r
  refine ⟨LedRing.hsv_wrap_ge r, ?_, rnd_hsv_wrap_ge r hr r0 r1, g1 r0, g0, fun hs => ?_⟩
  · rw [hsv_hue_eq, e1]
    exact e2
  · unfold LedRing.hsv_hue
    rw [hex hs]

/-- Where the loops are exact the binary32 hue is the exact hue: for a binary32
`H` of magnitude at most `2 ^ 27`, provided `H + 360` is a binary32 value when
`-360 < H < 0`. -/
theorem hsv_hue_exact {x : ℚ} {fuel : Nat} (hx : rnd x = x) (hb : |x| ≤ 2 ^ 27)
    (hs : -360 < x → x < 0 → rnd (x + 360) = x + 360) (hf : 372830 ≤ fuel) :
    hsv_hue fuel (f32.fin x) = some (f32.fin (LedRing.hsv_hue x)) := by
  obtain ⟨y, e, _, _, _, hy⟩ := hsv_hue_returns hx hb hf
  rw [e, hy hs]

/-- A hue that is not negative needs no alignment. -/
theorem hsv_hue_exact_of_nonneg {x : ℚ} {fuel : Nat} (hx : rnd x = x) (h0 : 0 ≤ x)
    (h1 : x ≤ 2 ^ 27) (hf : 372830 ≤ fuel) :
    hsv_hue fuel (f32.fin x) = some (f32.fin (LedRing.hsv_hue x)) :=
  hsv_hue_exact hx (by rw [abs_of_nonneg h0]; exact h1) (fun _ h => absurd h0 (not_le.mpr h)) hf

/-- Two binary32 values a whole number of turns apart: the one between -360 and
0 has an exact `+ 360`. -/
theorem rnd_add_360_of_pair {x : ℚ} {k : ℤ}
    (hy : rnd (x + 360 * k) = x + 360 * k) (hk : k ≠ 0) (h0 : -360 < x) (h1 : x < 0) :
    rnd (x + 360) = x + 360 := by
  by_cases hk1 : k = 1
  · subst hk1
    simpa using hy
  · have hbig : 256 ≤ |x + 360 * (k : ℚ)| := by
      rcases lt_or_gt_of_ne hk with hneg | hpos
      · have : (k : ℚ) ≤ -1 := by exact_mod_cast (show k ≤ -1 by omega)
        rw [abs_of_neg (by nlinarith)]
        nlinarith
      · have : (2 : ℚ) ≤ k := by exact_mod_cast (show 2 ≤ k by omega)
        rw [abs_of_pos (by nlinarith)]
        nlinarith
    have ha := aligned_of_ge_256 hy hbig
    have hax : aligned (-15) x := by
      have := aligned_sub ha (aligned_int_mul k (@aligned_360 (-15) (by norm_num)))
      have e : x + 360 * (k : ℚ) - (k : ℚ) * 360 = x := by ring
      rw [e] at this
      exact this
    exact rnd_add_360_of_aligned hax (le_of_lt h0) h1

/-- Hue periodicity of the normalising loops in binary32: two binary32 values
of magnitude at most `2 ^ 27` that differ by whole turns leave the loops, and
with the same hue. -/
theorem hsv_hue_add_turns_b32 {x : ℚ} {k : ℤ} {fuel : Nat} (hx : rnd x = x)
    (hy : rnd (x + 360 * k) = x + 360 * k) (hxb : |x| ≤ 2 ^ 27)
    (hyb : |x + 360 * k| ≤ 2 ^ 27) (hf : 372830 ≤ fuel) :
    ∃ y : ℚ, hsv_hue fuel (f32.fin (x + 360 * k)) = some (f32.fin y) ∧
      hsv_hue fuel (f32.fin x) = some (f32.fin y) ∧ rnd y = y ∧ 0 ≤ y ∧ y < 360 := by
  by_cases hk : k = 0
  · subst hk
    simp only [Int.cast_zero, mul_zero, add_zero]
    obtain ⟨y, e, hy, y0, y1, _⟩ := hsv_hue_returns hx hxb hf
    exact ⟨y, e, e, hy, y0, y1⟩
  · obtain ⟨y, e1, hyr, y0, y1, hyx⟩ := hsv_hue_returns hx hxb hf
    have e1x := hyx (rnd_add_360_of_pair hy hk)
    have hx' : rnd (x + 360 * (k : ℚ) + 360 * ((-k : ℤ) : ℚ)) =
        x + 360 * (k : ℚ) + 360 * ((-k : ℤ) : ℚ) := by
      have e : x + 360 * (k : ℚ) + 360 * ((-k : ℤ) : ℚ) = x := by push_cast; ring
      rw [e]; exact hx
    have e2 := @hsv_hue_exact (x + 360 * k) fuel hy hyb
      (rnd_add_360_of_pair hx' (neg_ne_zero.mpr hk)) hf
    rw [LedRing.hsv_hue_add_turns, ← e1x] at e2
    exact ⟨y, e2, e1, hyr, y0, y1⟩

/-! ## The loops on any finite hue -/

theorem rnd_abs_le_FLT_MAX {x : ℚ} (h : |x| ≤ FLT_MAX) : |rnd x| ≤ FLT_MAX :=
  rnd_abs_le rnd_FLT_MAX h

theorem of_real_of_abs_le_FLT_MAX {x : ℚ} (h : |x| ≤ FLT_MAX) : of_real x = f32.fin (rnd x) :=
  of_real_of_abs_le (rnd_abs_le_FLT_MAX h)

theorem FLT_MAX_ge_360 : (360 : ℚ) ≤ FLT_MAX := by
  unfold FLT_MAX; norm_num

/-- When the first loop ends on a finite hue, it ends on a finite value that is
not negative. -/
theorem hsv_wrap_neg_some : ∀ (fuel : Nat) (x : ℚ) (h : f32), |x| ≤ FLT_MAX →
    hsv_wrap_neg fuel (f32.fin x) = some h →
    ∃ r : ℚ, h = f32.fin r ∧ 0 ≤ r ∧ r ≤ FLT_MAX := by
  intro fuel
  induction fuel with
  | zero => intro x h _ e; exact absurd e (by simp [hsv_wrap_neg])
  | succ f ih =>
    intro x h hb e
    have hb' := abs_le.mp hb
    rw [hsv_wrap_neg_succ, lt_fin] at e
    by_cases h0 : x < 0
    · rw [decide_eq_true h0, if_pos rfl, add_fin_360] at e
      have hm : |x + 360| ≤ FLT_MAX :=
        abs_le.mpr ⟨by linarith, by linarith [FLT_MAX_ge_360]⟩
      rw [of_real_of_abs_le_FLT_MAX hm] at e
      exact ih _ h (rnd_abs_le_FLT_MAX hm) e
    · rw [decide_eq_false h0] at e
      simp at e
      exact ⟨x, e.symm, not_lt.mp h0, hb'.2⟩

/-- When the second loop ends on a finite value that is not negative, it ends
on a value in `[0, 360)`. -/
theorem hsv_wrap_ge_some : ∀ (fuel : Nat) (x : ℚ) (h : f32), 0 ≤ x → x ≤ FLT_MAX →
    hsv_wrap_ge fuel (f32.fin x) = some h →
    ∃ y : ℚ, h = f32.fin y ∧ 0 ≤ y ∧ y < 360 := by
  intro fuel
  induction fuel with
  | zero => intro x h _ _ e; exact absurd e (by simp [hsv_wrap_ge])
  | succ f ih =>
    intro x h h0 h1 e
    rw [hsv_wrap_ge_succ, ge_fin] at e
    by_cases hge : 360 ≤ x
    · rw [decide_eq_true hge, if_pos rfl, sub_fin_360] at e
      have hm : |x - 360| ≤ FLT_MAX := by
        rw [abs_of_nonneg (by linarith)]; linarith
      rw [of_real_of_abs_le_FLT_MAX hm] at e
      have hr := abs_le.mp (rnd_abs_le_FLT_MAX hm)
      exact ih _ h (rnd_nonneg (by linarith)) hr.2 e
    · rw [decide_eq_false hge] at e
      simp at e
      exact ⟨x, e.symm, h0, not_le.mp hge⟩

/-- When the two loops end on a finite hue, they end on a value in
`[0, 360)`. -/
theorem hsv_hue_some {fuel : Nat} {x : ℚ} {h : f32} (hb : |x| ≤ FLT_MAX)
    (e : hsv_hue fuel (f32.fin x) = some h) : ∃ y : ℚ, h = f32.fin y ∧ 0 ≤ y ∧ y < 360 := by
  rw [hsv_hue_eq] at e
  cases e1 : hsv_wrap_neg fuel (f32.fin x) with
  | none => rw [e1] at e; exact absurd e (by simp)
  | some H1 =>
    rw [e1] at e
    obtain ⟨r, rfl, r0, r1⟩ := hsv_wrap_neg_some fuel x H1 hb e1
    exact hsv_wrap_ge_some fuel r h r0 r1 e

/-! ## The loops that do not end -/

/-- Once `H - 360.0f` rounds back to `H`, the second loop does not end. -/
theorem hsv_wrap_ge_stuck {H : f32} (h1 : ge H (f32.fin 360) = true)
    (h2 : sub H (f32.fin 360) = H) : ∀ fuel : Nat, hsv_wrap_ge fuel H = none := by
  intro fuel
  induction fuel with
  | zero => rfl
  | succ f ih => rw [hsv_wrap_ge_succ, h1, if_pos rfl, h2, ih]

/-- Once `H + 360.0f` rounds back to `H`, the first loop does not end. -/
theorem hsv_wrap_neg_stuck {H : f32} (h1 : lt H (f32.fin 0) = true)
    (h2 : add H (f32.fin 360) = H) : ∀ fuel : Nat, hsv_wrap_neg fuel H = none := by
  intro fuel
  induction fuel with
  | zero => rfl
  | succ f ih => rw [hsv_wrap_neg_succ, h1, if_pos rfl, h2, ih]

theorem hsv_hue_stuck_ge {H : f32} (h0 : lt H (f32.fin 0) = false)
    (h1 : ge H (f32.fin 360) = true) (h2 : sub H (f32.fin 360) = H) :
    ∀ fuel : Nat, hsv_hue fuel H = none := by
  intro fuel
  rw [hsv_hue_eq]
  cases fuel with
  | zero => rfl
  | succ f =>
    rw [hsv_wrap_neg_succ, h0]
    simp only [Bool.false_eq_true, if_false]
    exact hsv_wrap_ge_stuck h1 h2 (f + 1)

theorem hsv_to_rgb_eq (fuel : Nat) (H S V : f32) :
    hsv_to_rgb fuel H S V =
      match hsv_hue fuel H with
      | some h => hsv_round (hsv_scaled h S V)
      | none => none := rfl

theorem hsv_to_rgb_stuck {H : f32} (h : ∀ fuel : Nat, hsv_hue fuel H = none) (S V : f32) :
    ∀ fuel : Nat, hsv_to_rgb fuel H S V = none := by
  intro fuel
  rw [hsv_to_rgb_eq, h fuel]

/-! ## The products -/

theorem of_real_mem {x c : ℚ} (hc : rnd c = c) (hcm : c ≤ FLT_MAX) (h0 : 0 ≤ x) (h1 : x ≤ c) :
    of_real x = f32.fin (rnd x) ∧ 0 ≤ rnd x ∧ rnd x ≤ c := by
  have hc0 : 0 ≤ c := le_trans h0 h1
  refine ⟨of_real_of_le hc hcm (by rw [abs_of_nonneg h0]; exact h1), rnd_nonneg h0, ?_⟩
  have := rnd_mono h1
  rw [hc] at this
  exact this

theorem rnd_one : rnd 1 = 1 := by
  have := @rnd_natCast 1 (by norm_num)
  simpa using this

theorem rnd_255 : rnd 255 = 255 := by
  have := @rnd_natCast 255 (by norm_num)
  simpa using this

theorem rnd_6 : rnd 6 = 6 := by
  have := @rnd_natCast 6 (by norm_num)
  simpa using this

theorem one_le_FLT_MAX : (1 : ℚ) ≤ FLT_MAX := by
  unfold FLT_MAX; norm_num

theorem of_real_zero : of_real 0 = f32.fin 0 := by
  have := @of_real_of_rnd_eq 0 rnd_zero (by unfold FLT_MAX; norm_num)
  exact this

theorem mul_fin (a b : ℚ) : mul (f32.fin a) (f32.fin b) = of_real (a * b) := rfl

theorem add_fin (a b : ℚ) : add (f32.fin a) (f32.fin b) = of_real (a + b) := rfl

theorem sub_fin (a b : ℚ) : sub (f32.fin a) (f32.fin b) = of_real (a - b) := by
  show of_real (a + -b) = of_real (a - b)
  rw [sub_eq_add_neg]

theorem div_fin {a b : ℚ} (hb : b ≠ 0) : div (f32.fin a) (f32.fin b) = of_real (a / b) := by
  show (if b = 0 then _ else of_real (a / b)) = _
  rw [if_neg hb]

theorem fmodf_fin {a b : ℚ} (hb : b ≠ 0) :
    fmodf (f32.fin a) (f32.fin b) = f32.fin (LedRing.fmodf a b) := by
  show (if b = 0 then _ else f32.fin (a - (truncq (a / b) : ℚ) * b)) = _
  rw [if_neg hb]
  rfl

theorem fabsf_fin (a : ℚ) : fabsf (f32.fin a) = f32.fin |a| := rfl

/-- The factor `1 - fabsf(fmodf(H / 60.0f, 2.0f) - 1)` is a value in `[0, 1]` for
a hue in `[0, 360)`. -/
theorem hsv_factor_fin {y : ℚ} (h0 : 0 ≤ y) (h1 : y < 360) :
    ∃ w : ℚ, sub (f32.fin 1)
        (fabsf (sub (fmodf (div (f32.fin y) (f32.fin 60)) (f32.fin 2)) (f32.fin 1))) =
      f32.fin w ∧ 0 ≤ w ∧ w ≤ 1 := by
  have hfm6 : (6 : ℚ) ≤ FLT_MAX := by unfold FLT_MAX; norm_num
  obtain ⟨q1, q2, q3⟩ := @of_real_mem (y / 60) 6 rnd_6 hfm6 (by positivity) (by linarith)
  obtain ⟨f0, f1⟩ := @LedRing.fmodf_mem (rnd (y / 60)) 2 q2 (by norm_num)
  have t1 : of_real (LedRing.fmodf (rnd (y / 60)) 2 - 1) =
      f32.fin (rnd (LedRing.fmodf (rnd (y / 60)) 2 - 1)) :=
    of_real_of_le rnd_one one_le_FLT_MAX (abs_le.mpr ⟨by linarith, by linarith⟩)
  have t2 : |rnd (LedRing.fmodf (rnd (y / 60)) 2 - 1)| ≤ 1 :=
    rnd_abs_le rnd_one (abs_le.mpr ⟨by linarith, by linarith⟩)
  have t3 := abs_nonneg (rnd (LedRing.fmodf (rnd (y / 60)) 2 - 1))
  obtain ⟨w1, w2, w3⟩ := @of_real_mem (1 - |rnd (LedRing.fmodf (rnd (y / 60)) 2 - 1)|) 1
    rnd_one one_le_FLT_MAX (by linarith) (by linarith)
  refine ⟨_, ?_, w2, w3⟩
  rw [div_fin (by norm_num), q1, fmodf_fin (by norm_num), sub_fin, t1, fabsf_fin, sub_fin, w1]

/-- One channel: the sum and the product are finite and the product lies in
`[0, 255]`. -/
theorem channel_fin {a m : ℚ} (ha : 0 ≤ a) (hm : 0 ≤ m) (h : a + m ≤ 1 + 1 / 2 ^ 25) :
    mul (add (f32.fin a) (f32.fin m)) (f32.fin 255) = f32.fin (rnd (rnd (a + m) * 255)) ∧
      0 ≤ rnd (rnd (a + m) * 255) ∧ rnd (rnd (a + m) * 255) ≤ 255 := by
  have hup : rnd (1 + 1 / 2 ^ 25) = 1 := by decide!
  have u0 : 0 ≤ rnd (a + m) := rnd_nonneg (by linarith)
  have u1 : rnd (a + m) ≤ 1 := by
    have := rnd_mono h
    rw [hup] at this
    exact this
  have e1 : of_real (a + m) = f32.fin (rnd (a + m)) :=
    of_real_of_abs_le (by rw [abs_of_nonneg u0]; linarith [one_le_FLT_MAX])
  have hfm : (255 : ℚ) ≤ FLT_MAX := by unfold FLT_MAX; norm_num
  obtain ⟨p1, p2, p3⟩ := @of_real_mem (rnd (a + m) * 255) 255 rnd_255 hfm (by positivity)
    (by linarith)
  rw [add_fin, e1, mul_fin, p1]
  exact ⟨rfl, p2, p3⟩

/-- The sector choice picks each of `r1`, `g1`, `b1` among `C`, `X` and 0. -/
theorem hsv_sector_cases (H C X : f32) (P : f32 → Prop) (hC : P C) (hX : P X)
    (h0 : P (f32.fin 0)) :
    P (hsv_sector H C X).1 ∧ P (hsv_sector H C X).2.1 ∧ P (hsv_sector H C X).2.2 := by
  unfold hsv_sector
  split_ifs <;> exact ⟨by assumption, by assumption, by assumption⟩

/-- The three products of `hsv_to_rgb` are finite and lie in `[0, 255]`, for a
hue in `[0, 360)` and binary32 `S`, `V` in `[0, 1]`. -/
theorem hsv_scaled_mem_b32 {y s v : ℚ} (hy0 : 0 ≤ y) (hy1 : y < 360) (hs0 : 0 ≤ s)
    (hs1 : s ≤ 1) (hv : rnd v = v) (hv0 : 0 ≤ v) (hv1 : v ≤ 1) :
    ∃ p1 p2 p3 : ℚ, hsv_scaled (f32.fin y) (f32.fin s) (f32.fin v) =
        (f32.fin p1, f32.fin p2, f32.fin p3) ∧
      (0 ≤ p1 ∧ p1 ≤ 255) ∧ (0 ≤ p2 ∧ p2 ≤ 255) ∧ (0 ≤ p3 ∧ p3 ≤ 255) := by
  have hv1' : v ≤ FLT_MAX := le_trans hv1 one_le_FLT_MAX
  -- C
  obtain ⟨c1, c2, c3⟩ := @of_real_mem (v * s) v hv hv1' (mul_nonneg hv0 hs0) (by nlinarith)
  -- the factor
  obtain ⟨w, hw, w0, w1⟩ := hsv_factor_fin hy0 hy1
  -- X
  have hcm : rnd (v * s) ≤ FLT_MAX := le_trans c3 hv1'
  obtain ⟨x1, x2, x3⟩ := @of_real_mem (rnd (v * s) * w) (rnd (v * s)) (rnd_idem _) hcm
    (mul_nonneg c2 w0) (by nlinarith)
  -- m
  obtain ⟨m1, m2, m3⟩ := @of_real_mem (v - rnd (v * s)) v hv hv1' (by linarith) (by linarith)
  have hsum : rnd (v * s) + rnd (v - rnd (v * s)) ≤ 1 + 1 / 2 ^ 25 := by
    rcases eq_or_lt_of_le (show v - rnd (v * s) ≤ 1 by linarith) with he | hl
    · rw [he, rnd_one]; linarith
    · have := abs_le.mp (rnd_err_unit (show 0 ≤ v - rnd (v * s) by linarith) hl)
      linarith [this.2]
  -- the channels
  have key : ∀ z : f32, (∃ a : ℚ, z = f32.fin a ∧ 0 ≤ a ∧ a ≤ rnd (v * s)) →
      ∃ p : ℚ, mul (add z (f32.fin (rnd (v - rnd (v * s))))) (f32.fin 255) = f32.fin p ∧
        0 ≤ p ∧ p ≤ 255 := by
    rintro z ⟨a, rfl, a0, a1⟩
    obtain ⟨e, p0, p1⟩ := @channel_fin a (rnd (v - rnd (v * s))) a0 m2 (by linarith)
    exact ⟨_, e, p0, p1⟩
  have hsec := hsv_sector_cases (f32.fin y) (f32.fin (rnd (v * s)))
    (f32.fin (rnd (rnd (v * s) * w)))
    (fun z => ∃ a : ℚ, z = f32.fin a ∧ 0 ≤ a ∧ a ≤ rnd (v * s))
    ⟨_, rfl, c2, le_refl _⟩ ⟨_, rfl, x2, x3⟩ ⟨0, rfl, le_refl _, c2⟩
  obtain ⟨p1, e1, b1⟩ := key _ hsec.1
  obtain ⟨p2, e2, b2⟩ := key _ hsec.2.1
  obtain ⟨p3, e3, b3⟩ := key _ hsec.2.2
  refine ⟨p1, p2, p3, ?_, b1, b2, b3⟩
  unfold hsv_scaled
  simp only []
  rw [mul_fin, c1, hw, mul_fin, x1, sub_fin, m1, e1, e2, e3]

/-- With saturation 0 the three products are the binary32 product
`V * 255.0f`. -/
theorem hsv_scaled_zero_saturation_b32 {y v : ℚ} (hy0 : 0 ≤ y) (hy1 : y < 360)
    (hv : rnd v = v) (hv0 : 0 ≤ v) (hv1 : v ≤ 1) :
    hsv_scaled (f32.fin y) (f32.fin 0) (f32.fin v) =
        (f32.fin (rnd (v * 255)), f32.fin (rnd (v * 255)), f32.fin (rnd (v * 255))) ∧
      0 ≤ rnd (v * 255) ∧ rnd (v * 255) ≤ 255 := by
  obtain ⟨w, hw, w0, w1⟩ := hsv_factor_fin hy0 hy1
  have hfm : (255 : ℚ) ≤ FLT_MAX := by unfold FLT_MAX; norm_num
  obtain ⟨p1, p2, p3⟩ := @of_real_mem (v * 255) 255 rnd_255 hfm (by positivity) (by linarith)
  have hvm : |v| ≤ FLT_MAX := by
    rw [abs_of_nonneg hv0]; exact le_trans hv1 one_le_FLT_MAX
  have hsec := hsv_sector_cases (f32.fin y) (f32.fin 0) (f32.fin 0)
    (fun z => z = f32.fin 0) rfl rfl rfl
  refine ⟨?_, p2, p3⟩
  unfold hsv_scaled
  simp only []
  rw [mul_fin, mul_zero, of_real_zero, hw, mul_fin, zero_mul, of_real_zero, sub_fin, sub_zero,
    of_real_of_rnd_eq hv hvm, hsec.1, hsec.2.1, hsec.2.2, add_fin, zero_add,
    of_real_of_rnd_eq hv hvm, mul_fin, p1]

/-- The value of `lrintf` is specified on `[0, 255]`, and the narrowing to
`uint8_t` keeps it. -/
theorem lrintf_fin_of_mem {p : ℚ} (h0 : 0 ≤ p) (h1 : p ≤ 255) :
    lrintf (f32.fin p) = some (LedRing.lrintf p) ∧ 0 ≤ LedRing.lrintf p ∧
      LedRing.lrintf p ≤ 255 ∧ (to_uint8 (LedRing.lrintf p) : ℤ) = LedRing.lrintf p := by
  have z0 : (0 : ℤ) ≤ LedRing.lrintf p := le_lrintf (by simpa using h0)
  have z1 : LedRing.lrintf p ≤ 255 := lrintf_le (by simpa using h1)
  refine ⟨?_, z0, z1, to_uint8_of_mem z0 z1⟩
  show (if -2 ^ 31 ≤ LedRing.lrintf p ∧ LedRing.lrintf p < 2 ^ 31 then
    some (LedRing.lrintf p) else none) = _
  rw [if_pos ⟨by omega, by omega⟩]

theorem hsv_round_fin {p1 p2 p3 : ℚ} (b1 : 0 ≤ p1 ∧ p1 ≤ 255) (b2 : 0 ≤ p2 ∧ p2 ≤ 255)
    (b3 : 0 ≤ p3 ∧ p3 ≤ 255) :
    hsv_round (f32.fin p1, f32.fin p2, f32.fin p3) =
      some { r := to_uint8 (LedRing.lrintf p1), g := to_uint8 (LedRing.lrintf p2),
             b := to_uint8 (LedRing.lrintf p3) } := by
  unfold hsv_round
  simp only []
  rw [(lrintf_fin_of_mem b1.1 b1.2).1, (lrintf_fin_of_mem b2.1 b2.2).1,
    (lrintf_fin_of_mem b3.1 b3.2).1]

/-! ## `hsv_to_rgb` in binary32 -/

theorem valid_fin {x : ℚ} : (f32.fin x).valid ↔ rnd x = x ∧ |x| ≤ FLT_MAX := Iff.rfl

/-- The colour returned for a hue on which the loops end, with binary32 `S` and
`V` in `[0, 1]`: the three products are finite, in `[0, 255]`, and each channel
is `lrintf` of its product. -/
theorem hsv_to_rgb_of_hue {fuel : Nat} {x s v : ℚ} {h : f32}
    (e : hsv_hue fuel (f32.fin x) = some h) (hx : |x| ≤ FLT_MAX)
    (hs0 : 0 ≤ s) (hs1 : s ≤ 1) (hv : rnd v = v) (hv0 : 0 ≤ v) (hv1 : v ≤ 1) :
    ∃ p1 p2 p3 : ℚ, hsv_scaled h (f32.fin s) (f32.fin v) =
        (f32.fin p1, f32.fin p2, f32.fin p3) ∧
      (0 ≤ p1 ∧ p1 ≤ 255) ∧ (0 ≤ p2 ∧ p2 ≤ 255) ∧ (0 ≤ p3 ∧ p3 ≤ 255) ∧
      hsv_to_rgb fuel (f32.fin x) (f32.fin s) (f32.fin v) =
        some { r := to_uint8 (LedRing.lrintf p1), g := to_uint8 (LedRing.lrintf p2),
               b := to_uint8 (LedRing.lrintf p3) } := by
  obtain ⟨y, rfl, y0, y1⟩ := hsv_hue_some hx e
  obtain ⟨p1, p2, p3, hp, b1, b2, b3⟩ := hsv_scaled_mem_b32 y0 y1 hs0 hs1 hv hv0 hv1
  refine ⟨p1, p2, p3, hp, b1, b2, b3, ?_⟩
  rw [hsv_to_rgb_eq, e]
  simp only []
  rw [hp, hsv_round_fin b1 b2 b3]

/-- `hsv_to_rgb` returns for every binary32 hue of magnitude at most `2 ^ 27` and
binary32 `S`, `V` in `[0, 1]`. -/
theorem hsv_to_rgb_returns {fuel : Nat} {x s v : ℚ} (hx : rnd x = x) (hb : |x| ≤ 2 ^ 27)
    (hf : 372830 ≤ fuel) (hs0 : 0 ≤ s) (hs1 : s ≤ 1) (hv : rnd v = v) (hv0 : 0 ≤ v)
    (hv1 : v ≤ 1) :
    ∃ c : rgb_t, hsv_to_rgb fuel (f32.fin x) (f32.fin s) (f32.fin v) = some c ∧
      c.r ≤ 255 ∧ c.g ≤ 255 ∧ c.b ≤ 255 := by
  obtain ⟨y, e, _, _, _, _⟩ := hsv_hue_returns hx hb hf
  obtain ⟨p1, p2, p3, _, b1, b2, b3, hc⟩ := hsv_to_rgb_of_hue e
    (le_trans hb FLT_MAX_ge) hs0 hs1 hv hv0 hv1
  refine ⟨_, hc, ?_, ?_, ?_⟩
  · have h := lrintf_fin_of_mem b1.1 b1.2
    have : (to_uint8 (LedRing.lrintf p1) : ℤ) ≤ 255 := by rw [h.2.2.2]; exact h.2.2.1
    exact_mod_cast this
  · have h := lrintf_fin_of_mem b2.1 b2.2
    have : (to_uint8 (LedRing.lrintf p2) : ℤ) ≤ 255 := by rw [h.2.2.2]; exact h.2.2.1
    exact_mod_cast this
  · have h := lrintf_fin_of_mem b3.1 b3.2
    have : (to_uint8 (LedRing.lrintf p3) : ℤ) ≤ 255 := by rw [h.2.2.2]; exact h.2.2.1
    exact_mod_cast this

/-- One subtraction that rounds: `134218096 - 360` is stored as `2 ^ 27`. -/
theorem sub_360_rounds : sub (f32.fin 134218096) (f32.fin 360) = f32.fin 134217728 := by
  decide!

/-- The hue left by the loops for `H = 2 ^ 27 + 368 = 16 + 360 * 372828` is 8. -/
theorem hsv_hue_134218096 : hsv_hue 400000 (f32.fin 134218096) = some (f32.fin 8) := by
  have e1 : hsv_wrap_neg 400000 (f32.fin 134218096) = some (f32.fin 134218096) := by
    refine Eq.trans (hsv_wrap_neg_succ 399999 _) ?_
    rw [lt_fin, decide_eq_false (by norm_num)]
    simp
  have e2 : LedRing.hsv_wrap_ge 134217728 = 8 := by
    have h1 : LedRing.hsv_hue (8 + 360 * ((372827 : ℤ) : ℚ)) = LedRing.hsv_hue 8 :=
      LedRing.hsv_hue_add_turns 8 372827
    have h2 : (8 : ℚ) + 360 * ((372827 : ℤ) : ℚ) = 134217728 := by norm_num
    have h3 : LedRing.hsv_hue (8 : ℚ) = 8 := LedRing.hsv_hue_of_mem (by norm_num) (by norm_num)
    have h4 : LedRing.hsv_hue (134217728 : ℚ) = LedRing.hsv_wrap_ge 134217728 := by
      unfold LedRing.hsv_hue
      rw [LedRing.hsv_wrap_neg_of_nonneg (by norm_num)]
    rw [← h4, ← h2, h1, h3]
  have r27 : rnd 134217728 = 134217728 := by
    have := @rnd_int_mul_zpow_lt 1 27 (by norm_num) (by norm_num)
    norm_num at this
    exact this
  have e3 := hsv_wrap_ge_exact 399999 134217728 r27 (by norm_num) (by norm_num) (by norm_num)
  rw [hsv_hue_eq, e1]
  refine Eq.trans (hsv_wrap_ge_succ 399999 _) ?_
  rw [ge_fin, decide_eq_true (by norm_num), if_pos rfl, sub_360_rounds, e3, e2]

/-- C1, counterexample. (1) `H = 16` and `H + 360 * 372828 = 134218096` are both
binary32 values; with `S = V = 1` the code returns `(255, 68, 0)` for the first
and `(255, 34, 0)` for the second: the first subtraction of the loop,
`134218096 - 360`, is rounded to `2 ^ 27`, so the loop ends on hue 8.
(2) For the binary32 value `H = 0.11765f = 3947679 / 2 ^ 25` the number
`H + 360` is not a binary32 value; the binary32 sum `H + 360.0f` is
`11800335 / 2 ^ 15`, and with `S = V = 1` the code returns `(255, 0, 0)` for it
and `(255, 1, 0)` for `H`. -/
theorem hsv_to_rgb_hue_periodic_fails :
    (f32.fin 16).valid ∧ (f32.fin 134218096).valid ∧
    (134218096 : ℚ) = 16 + 360 * ((372828 : ℤ) : ℚ) ∧
    hsv_to_rgb 400000 (f32.fin 16) (f32.fin 1) (f32.fin 1) =
      some { r := 255, g := 68, b := 0 } ∧
    hsv_to_rgb 400000 (f32.fin 134218096) (f32.fin 1) (f32.fin 1) =
      some { r := 255, g := 34, b := 0 } ∧
    (f32.fin (3947679 / 33554432)).valid ∧
    ¬ (f32.fin (3947679 / 33554432 + 360 * ((1 : ℤ) : ℚ))).valid ∧
    add (f32.fin (3947679 / 33554432)) (f32.fin 360) = f32.fin (11800335 / 32768) ∧
    hsv_to_rgb 400000 (f32.fin (3947679 / 33554432)) (f32.fin 1) (f32.fin 1) =
      some { r := 255, g := 1, b := 0 } ∧
    hsv_to_rgb 400000 (f32.fin (11800335 / 32768)) (f32.fin 1) (f32.fin 1) =
      some { r := 255, g := 0, b := 0 } := by
  refine ⟨by decide!, by decide!, by norm_num, by decide!, ?_, by decide!, by decide!,
    by decide!, by decide!, by decide!⟩
  rw [hsv_to_rgb_eq, hsv_hue_134218096]
  decide!

/-- C1, amended. For binary32 hues `H` and `H + 360 k` of magnitude at most
`2 ^ 27` the two loops end on the same hue, a binary32 value in `[0, 360)`, so
`hsv_to_rgb(H + 360 k, S, V)` and `hsv_to_rgb(H, S, V)` are the same for every
`S` and `V`; for binary32 `S`, `V` in `[0, 1]` both calls return a triple. -/
theorem hsv_to_rgb_hue_periodic_b32 (fuel : Nat) (x : ℚ) (k : ℤ) (S V : f32)
    (hx : (f32.fin x).valid) (hy : (f32.fin (x + 360 * k)).valid)
    (hxb : |x| ≤ 2 ^ 27) (hyb : |x + 360 * k| ≤ 2 ^ 27) (hf : 372830 ≤ fuel) :
    (∃ y : ℚ, hsv_hue fuel (f32.fin (x + 360 * k)) = some (f32.fin y) ∧
      hsv_hue fuel (f32.fin x) = some (f32.fin y) ∧ 0 ≤ y ∧ y < 360) ∧
    hsv_to_rgb fuel (f32.fin (x + 360 * k)) S V = hsv_to_rgb fuel (f32.fin x) S V ∧
    (∀ s v : ℚ, S = f32.fin s → V = f32.fin v → S.valid → V.valid → 0 ≤ s → s ≤ 1 →
      0 ≤ v → v ≤ 1 → ∃ c : rgb_t, hsv_to_rgb fuel (f32.fin x) S V = some c) := by
  obtain ⟨y, e1, e2, _, y0, y1⟩ := hsv_hue_add_turns_b32 hx.1 hy.1 hxb hyb hf
  refine ⟨⟨y, e1, e2, y0, y1⟩, ?_, ?_⟩
  · rw [hsv_to_rgb_eq, hsv_to_rgb_eq, e1, e2]
  · rintro s v rfl rfl _ hv hs0 hs1 hv0 hv1
    obtain ⟨c, hc, _⟩ := @hsv_to_rgb_returns fuel x s v hx.1 hxb hf hs0 hs1 hv.1 hv0 hv1
    exact ⟨c, hc⟩

/-- The hues -350 and 10, one turn apart, with `S = 1` and `V = 1/2`. -/
theorem hsv_to_rgb_hue_periodic_b32_witness :
    ((f32.fin (-350)).valid ∧ (f32.fin (-350 + 360 * ((1 : ℤ) : ℚ))).valid ∧
      |(-350 : ℚ)| ≤ 2 ^ 27 ∧ |(-350 : ℚ) + 360 * ((1 : ℤ) : ℚ)| ≤ 2 ^ 27 ∧
      372830 ≤ 372830) ∧
    ((∃ y : ℚ, hsv_hue 372830 (f32.fin (-350 + 360 * ((1 : ℤ) : ℚ))) = some (f32.fin y) ∧
      hsv_hue 372830 (f32.fin (-350)) = some (f32.fin y) ∧ 0 ≤ y ∧ y < 360) ∧
    hsv_to_rgb 372830 (f32.fin (-350 + 360 * ((1 : ℤ) : ℚ))) (f32.fin 1) (f32.fin (1 / 2)) =
      hsv_to_rgb 372830 (f32.fin (-350)) (f32.fin 1) (f32.fin (1 / 2)) ∧
    (∀ s v : ℚ, f32.fin 1 = f32.fin s → f32.fin (1 / 2) = f32.fin v → (f32.fin 1).valid →
      (f32.fin (1 / 2)).valid → 0 ≤ s → s ≤ 1 →
      0 ≤ v → v ≤ 1 →
      ∃ c : rgb_t, hsv_to_rgb 372830 (f32.fin (-350)) (f32.fin 1) (f32.fin (1 / 2)) = some c)) :=
  have h1 : (f32.fin (-350)).valid := by decide!
  have h2 : (f32.fin (-350 + 360 * ((1 : ℤ) : ℚ))).valid := by decide!
  have h3 : |(-350 : ℚ)| ≤ 2 ^ 27 := by decide!
  have h4 : |(-350 : ℚ) + 360 * ((1 : ℤ) : ℚ)| ≤ 2 ^ 27 := by decide!
  ⟨⟨h1, h2, h3, h4, le_refl _⟩,
    hsv_to_rgb_hue_periodic_b32 372830 (-350) 1 (f32.fin 1) (f32.fin (1 / 2)) h1 h2 h3 h4
      (le_refl _)⟩

/-! ## The loop that does not end -/

theorem hsv_hue_1e10 : ∀ fuel : Nat, hsv_hue fuel (f32.fin 10000000000) = none :=
  hsv_hue_stuck_ge (by decide!) (by decide!) (by decide!)

/-- C2. At the binary32 hue `1e10f` (`10000000000`), with `S = V = 1`,
`hsv_to_rgb` does not return: `1e10f >= 360.0f` holds and `1e10f - 360.0f` is
rounded back to `1e10f`, so `while (H >= 360.0f) H -= 360.0f;` never ends,
whatever the number of iterations allowed. -/
theorem hsv_to_rgb_never_returns :
    (f32.fin 10000000000).valid ∧
    ge (f32.fin 10000000000) (f32.fin 360) = true ∧
    sub (f32.fin 10000000000) (f32.fin 360) = f32.fin 10000000000 ∧
    ∀ fuel : Nat, hsv_to_rgb fuel (f32.fin 10000000000) (f32.fin 1) (f32.fin 1) = none :=
  ⟨by decide!, by decide!, by decide!, hsv_to_rgb_stuck hsv_hue_1e10 _ _⟩

/-! ## Zero saturation -/

/-- C3, counterexample. `V = 8421505 / 2 ^ 32` is the binary32 value nearest to
`1/510`. `V * 255` is above `1/2`, so it rounds to 1 whichever way ties go; the
code computes the binary32 product `V * 255.0f`, which is exactly `1/2`, and
`lrintf` sends that tie to the even integer: the code returns `(0, 0, 0)`. -/
theorem hsv_to_rgb_zero_saturation_fails :
    (f32.fin (8421505 / 4294967296)).valid ∧
    (1 : ℚ) / 2 < 8421505 / 4294967296 * 255 ∧
    round_half_away (8421505 / 4294967296 * 255) = 1 ∧
    LedRing.lrintf (8421505 / 4294967296 * 255) = 1 ∧
    mul (f32.fin (8421505 / 4294967296)) (f32.fin 255) = f32.fin (1 / 2) ∧
    hsv_to_rgb 4 (f32.fin 0) (f32.fin 0) (f32.fin (8421505 / 4294967296)) =
      some { r := 0, g := 0, b := 0 } := by
  refine ⟨by decide!, by norm_num, by decide!, by decide!, by decide!, by decide!⟩

/-- C3, amended. For a binary32 `V` in `[0, 1]` and a finite binary32 hue,
whenever the two loops end `hsv_to_rgb(h, 0, V)` returns `R = G = B = z`, where
`z` is `lrintf` of the binary32 product `V * 255.0f`: that product rounded to
the nearest integer, a tie going to the even one, and `0 ≤ z ≤ 255`. For every
hue of magnitude at most `2 ^ 27` the loops end. -/
theorem hsv_to_rgb_zero_saturation_b32 (fuel : Nat) (x v : ℚ)
    (hx : (f32.fin x).valid) (hv : (f32.fin v).valid) (hv0 : 0 ≤ v) (hv1 : v ≤ 1) :
    ∃ (p : ℚ) (z : ℤ), mul (f32.fin v) (f32.fin 255) = f32.fin p ∧
      lrintf (f32.fin p) = some z ∧ nearest_ties_even p z ∧ 0 ≤ z ∧ z ≤ 255 ∧
      (∀ h : f32, hsv_hue fuel (f32.fin x) = some h →
        hsv_to_rgb fuel (f32.fin x) (f32.fin 0) (f32.fin v) =
          some { r := z.toNat, g := z.toNat, b := z.toNat }) ∧
      (|x| ≤ 2 ^ 27 → 372830 ≤ fuel →
        (∃ h : f32, hsv_hue fuel (f32.fin x) = some h) ∧
        hsv_to_rgb fuel (f32.fin x) (f32.fin 0) (f32.fin v) =
          some { r := z.toNat, g := z.toNat, b := z.toNat }) := by
  have hfm : (255 : ℚ) ≤ FLT_MAX := by unfold FLT_MAX; norm_num
  obtain ⟨p1, p2, p3⟩ := @of_real_mem (v * 255) 255 rnd_255 hfm (by positivity) (by linarith)
  obtain ⟨l1, l2, l3, l4⟩ := lrintf_fin_of_mem p2 p3
  have key : ∀ h : f32, hsv_hue fuel (f32.fin x) = some h →
      hsv_to_rgb fuel (f32.fin x) (f32.fin 0) (f32.fin v) =
        some { r := (LedRing.lrintf (rnd (v * 255))).toNat,
               g := (LedRing.lrintf (rnd (v * 255))).toNat,
               b := (LedRing.lrintf (rnd (v * 255))).toNat } := by
    intro h e
    obtain ⟨y, rfl, y0, y1⟩ := hsv_hue_some hx.2 e
    obtain ⟨hsc, _⟩ := hsv_scaled_zero_saturation_b32 y0 y1 hv.1 hv0 hv1
    have ht : to_uint8 (LedRing.lrintf (rnd (v * 255))) =
        (LedRing.lrintf (rnd (v * 255))).toNat := by
      have := l4
      omega
    rw [hsv_to_rgb_eq, e]
    simp only []
    rw [hsc, hsv_round_fin ⟨p2, p3⟩ ⟨p2, p3⟩ ⟨p2, p3⟩, ht]
  refine ⟨rnd (v * 255), LedRing.lrintf (rnd (v * 255)), ?_, l1, lrintf_nearest _, l2, l3, key,
    ?_⟩
  · rw [mul_fin, p1]
  · intro hb hf
    obtain ⟨y, e, _⟩ := hsv_hue_returns hx.1 hb hf
    exact ⟨⟨_, e⟩, key _ e⟩

/-- Hue 200 and `V = 1/2`: the product is `127.5` and the channels are 128. -/
theorem hsv_to_rgb_zero_saturation_b32_witness :
    ((f32.fin 200).valid ∧ (f32.fin (1 / 2)).valid ∧ (0 : ℚ) ≤ 1 / 2 ∧ (1 : ℚ) / 2 ≤ 1) ∧
    ∃ (p : ℚ) (z : ℤ), mul (f32.fin (1 / 2)) (f32.fin 255) = f32.fin p ∧
      lrintf (f32.fin p) = some z ∧ nearest_ties_even p z ∧ 0 ≤ z ∧ z ≤ 255 ∧
      (∀ h : f32, hsv_hue 372830 (f32.fin 200) = some h →
        hsv_to_rgb 372830 (f32.fin 200) (f32.fin 0) (f32.fin (1 / 2)) =
          some { r := z.toNat, g := z.toNat, b := z.toNat }) ∧
      (|(200 : ℚ)| ≤ 2 ^ 27 → 372830 ≤ 372830 →
        (∃ h : f32, hsv_hue 372830 (f32.fin 200) = some h) ∧
        hsv_to_rgb 372830 (f32.fin 200) (f32.fin 0) (f32.fin (1 / 2)) =
          some { r := z.toNat, g := z.toNat, b := z.toNat }) :=
  have h1 : (f32.fin 200).valid := by decide!
  have h2 : (f32.fin (1 / 2)).valid := by decide!
  ⟨⟨h1, h2, by norm_num, by norm_num⟩,
    hsv_to_rgb_zero_saturation_b32 372830 200 (1 / 2) h1 h2 (by norm_num) (by norm_num)⟩

/-! ## Channel rounding -/

/-- C4, counterexample. `V = 10526881 / 2 ^ 30` is the binary32 value nearest to
`5/510`. With `S = 0` the product `(component + m) * 255.0f` computed by the code
is exactly `5/2`; rounding ties away from zero gives 3 (as it does for the real
product `V * 255`), the code returns 2. -/
theorem hsv_to_rgb_tie_to_even :
    (f32.fin (10526881 / 1073741824)).valid ∧
    hsv_scaled (f32.fin 0) (f32.fin 0) (f32.fin (10526881 / 1073741824)) =
      (f32.fin (5 / 2), f32.fin (5 / 2), f32.fin (5 / 2)) ∧
    round_half_away (5 / 2) = 3 ∧
    round_half_away (10526881 / 1073741824 * 255) = 3 ∧
    hsv_to_rgb 4 (f32.fin 0) (f32.fin 0) (f32.fin (10526881 / 1073741824)) =
      some { r := 2, g := 2, b := 2 } := by
  refine ⟨by decide!, by decide!, by decide!, by decide!, by decide!⟩

/-- C4, amended. For binary32 `S`, `V` in `[0, 1]` and a finite binary32 hue,
whenever the two loops end on the hue `h`, the three binary32 products
`(r1 + m) * 255.0f`, `(g1 + m) * 255.0f`, `(b1 + m) * 255.0f` are finite and in
`[0, 255]`, and `hsv_to_rgb` returns in each channel its product rounded to the
nearest integer, a tie going to the even integer; the narrowing to `uint8_t`
does not wrap. The loops end for every hue of magnitude at most `2 ^ 27`. -/
theorem hsv_to_rgb_rounds_ties_even_b32 (fuel : Nat) (x s v : ℚ)
    (hx : (f32.fin x).valid) (_hs : (f32.fin s).valid) (hv : (f32.fin v).valid)
    (hs0 : 0 ≤ s) (hs1 : s ≤ 1) (hv0 : 0 ≤ v) (hv1 : v ≤ 1) :
    (∀ h : f32, hsv_hue fuel (f32.fin x) = some h →
      ∃ (p1 p2 p3 : ℚ) (c : rgb_t),
        hsv_scaled h (f32.fin s) (f32.fin v) = (f32.fin p1, f32.fin p2, f32.fin p3) ∧
        (0 ≤ p1 ∧ p1 ≤ 255) ∧ (0 ≤ p2 ∧ p2 ≤ 255) ∧ (0 ≤ p3 ∧ p3 ≤ 255) ∧
        hsv_to_rgb fuel (f32.fin x) (f32.fin s) (f32.fin v) = some c ∧
        nearest_ties_even p1 (c.r : ℤ) ∧ nearest_ties_even p2 (c.g : ℤ) ∧
        nearest_ties_even p3 (c.b : ℤ) ∧ c.r ≤ 255 ∧ c.g ≤ 255 ∧ c.b ≤ 255) ∧
    (|x| ≤ 2 ^ 27 → 372830 ≤ fuel → ∃ h : f32, hsv_hue fuel (f32.fin x) = some h) := by
  constructor
  · intro h e
    obtain ⟨p1, p2, p3, hp, b1, b2, b3, hc⟩ := hsv_to_rgb_of_hue e hx.2 hs0 hs1 hv.1 hv0 hv1
    have l1 := lrintf_fin_of_mem b1.1 b1.2
    have l2 := lrintf_fin_of_mem b2.1 b2.2
    have l3 := lrintf_fin_of_mem b3.1 b3.2
    refine ⟨p1, p2, p3, _, hp, b1, b2, b3, hc, ?_, ?_, ?_, ?_, ?_, ?_⟩
    · show nearest_ties_even p1 (to_uint8 (LedRing.lrintf p1) : ℤ)
      rw [l1.2.2.2]; exact lrintf_nearest p1
    · show nearest_ties_even p2 (to_uint8 (LedRing.lrintf p2) : ℤ)
      rw [l2.2.2.2]; exact lrintf_nearest p2
    · show nearest_ties_even p3 (to_uint8 (LedRing.lrintf p3) : ℤ)
      rw [l3.2.2.2]; exact lrintf_nearest p3
    · have : (to_uint8 (LedRing.lrintf p1) : ℤ) ≤ 255 := by rw [l1.2.2.2]; exact l1.2.2.1
      exact_mod_cast this
    · have : (to_uint8 (LedRing.lrintf p2) : ℤ) ≤ 255 := by rw [l2.2.2.2]; exact l2.2.2.1
      exact_mod_cast this
    · have : (to_uint8 (LedRing.lrintf p3) : ℤ) ≤ 255 := by rw [l3.2.2.2]; exact l3.2.2.1
      exact_mod_cast this
  · intro hb hf
    obtain ⟨y, e, _⟩ := hsv_hue_returns hx.1 hb hf
    exact ⟨_, e⟩

/-- Hue 2, `S = V = 1`: the code returns green 9 (the real product is `17/2`). -/
theorem hsv_to_rgb_rounds_ties_even_b32_witness :
    ((f32.fin 2).valid ∧ (f32.fin 1).valid ∧ (f32.fin 1).valid ∧ (0 : ℚ) ≤ 1 ∧ (1 : ℚ) ≤ 1 ∧
      (0 : ℚ) ≤ 1 ∧ (1 : ℚ) ≤ 1) ∧
    hsv_to_rgb 372830 (f32.fin 2) (f32.fin 1) (f32.fin 1) = some { r := 255, g := 9, b := 0 } ∧
    ((∀ h : f32, hsv_hue 372830 (f32.fin 2) = some h →
      ∃ (p1 p2 p3 : ℚ) (c : rgb_t),
        hsv_scaled h (f32.fin 1) (f32.fin 1) = (f32.fin p1, f32.fin p2, f32.fin p3) ∧
        (0 ≤ p1 ∧ p1 ≤ 255) ∧ (0 ≤ p2 ∧ p2 ≤ 255) ∧ (0 ≤ p3 ∧ p3 ≤ 255) ∧
        hsv_to_rgb 372830 (f32.fin 2) (f32.fin 1) (f32.fin 1) = some c ∧
        nearest_ties_even p1 (c.r : ℤ) ∧ nearest_ties_even p2 (c.g : ℤ) ∧
        nearest_ties_even p3 (c.b : ℤ) ∧ c.r ≤ 255 ∧ c.g ≤ 255 ∧ c.b ≤ 255) ∧
    (|(2 : ℚ)| ≤ 2 ^ 27 → 372830 ≤ 372830 → ∃ h : f32, hsv_hue 372830 (f32.fin 2) = some h)) :=
  have h1 : (f32.fin 2).valid := by decide!
  have h2 : (f32.fin 1).valid := by decide!
  ⟨⟨h1, h2, h2, by norm_num, le_refl _, by norm_num, le_refl _⟩, by decide!,
    hsv_to_rgb_rounds_ties_even_b32 372830 2 1 1 h1 h2 h2 (by norm_num) (le_refl _)
      (by norm_num) (le_refl _)⟩

/-! ## The pixel loop -/

theorem all_some_cons {α : Type} (x : Option α) (xs : List (Option α)) :
    all_some (x :: xs) =
      match x, all_some xs with
      | some a, some l => some (a :: l)
      | _, _ => none := rfl

theorem all_some_map_of_forall {ι α : Type} {f : ι → Option α} {g : ι → α} :
    ∀ {l : List ι}, (∀ i ∈ l, f i = some (g i)) → all_some (l.map f) = some (l.map g) := by
  intro l
  induction l with
  | nil => intro _; rfl
  | cons a l ih =>
    intro h
    rw [List.map_cons, all_some_cons, h a (List.mem_cons_self a l),
      ih (fun i hi => h i (List.mem_cons_of_mem a hi))]
    rfl

theorem all_some_eq_none_of_mem {α : Type} :
    ∀ {l : List (Option α)}, none ∈ l → all_some l = none := by
  intro l
  induction l with
  | nil => intro h; simp at h
  | cons a l ih =>
    intro h
    rw [all_some_cons]
    rcases List.mem_cons.mp h with h1 | h1
    · rw [← h1]
    · rw [ih h1]
      cases a <;> rfl

theorem all_some_eq_some {α : Type} :
    ∀ {l : List (Option α)} {r : List α}, all_some l = some r → l = r.map some := by
  intro l
  induction l with
  | nil =>
    intro r h
    have h0 : all_some ([] : List (Option α)) = some [] := rfl
    rw [h0] at h
    injection h with h
    subst h
    rfl
  | cons a l ih =>
    intro r h
    rw [all_some_cons] at h
    cases a with
    | none => simp at h
    | some a =>
      cases hl : all_some l with
      | none => rw [hl] at h; simp at h
      | some l1 =>
        rw [hl] at h
        simp at h
        subst h
        rw [List.map_cons, ← ih hl]

theorem pixel_writes_eq_b32 (fuel : Nat) (e : env) (strip : Option Nat) (c : led_ring_ctrl_t)
    (n : Nat) :
    pixel_writes fuel e strip c n =
      all_some ((List.range n).map fun (i : Nat) =>
        (pixel_colour fuel c i).map fun col =>
          api_call.led_strip_set_pixel strip i col.r col.g col.b (e.set_pixel_rc i)) := rfl

theorem written_colours_cons_set_pixel (s : Option Nat) (i : Nat) (col : rgb_t)
    (rc : esp_err_t) (l : List api_call) :
    written_colours (api_call.led_strip_set_pixel s i col.r col.g col.b rc :: l) =
      col :: written_colours l := rfl

/-- The colours of the pixel writes are the colours computed for the LEDs, in
order. -/
theorem all_some_written {fuel : Nat} {e : env} {strip : Option Nat} {c : led_ring_ctrl_t} :
    ∀ l : List Nat,
    (all_some (l.map fun (i : Nat) =>
        (pixel_colour fuel c i).map fun col =>
          api_call.led_strip_set_pixel strip i col.r col.g col.b (e.set_pixel_rc i))).map
      written_colours = all_some (l.map (pixel_colour fuel c)) := by
  intro l
  induction l with
  | nil => rfl
  | cons a l ih =>
    rw [List.map_cons, List.map_cons, all_some_cons, all_some_cons, ← ih]
    cases pixel_colour fuel c a with
    | none => rfl
    | some col =>
      simp only [Option.map_some']
      cases all_some (l.map fun (i : Nat) =>
        (pixel_colour fuel c i).map fun col =>
          api_call.led_strip_set_pixel strip i col.r col.g col.b (e.set_pixel_rc i)) with
      | none => rfl
      | some r => rfl

/-- The frame of one tick: LED `i` gets the colour computed from
`base_hue_deg + i * hue_span_deg`. -/
theorem tick_frame_eq_b32 (fuel : Nat) (e : env) (st : State) :
    tick_frame fuel e st =
      all_some ((List.range LED_RING_COUNT).map (pixel_colour fuel st.s_ctrl)) := by
  unfold tick_frame
  rw [pixel_writes_eq_b32]
  exact all_some_written _

theorem led_ring_timer_cb_eq (fuel : Nat) (e : env) (st : State) :
    led_ring_timer_cb fuel e st =
      match pixel_writes fuel e st.s_led_strip st.s_ctrl LED_RING_COUNT with
      | some writes =>
        some
          { st with
            s_ctrl := { st.s_ctrl with
              base_hue_deg := advance_hue st.s_ctrl.base_hue_deg st.s_ctrl.speed_deg_per_sec
                st.s_ctrl.update_hz }
            calls := st.calls ++ writes ++
              [api_call.led_strip_refresh st.s_led_strip e.refresh_rc] }
      | none => none := rfl

/-- What one tick leaves when it returns: the phase is advanced, the other
fields and the handles are kept, and the record grows by the pixel writes and
one refresh. -/
theorem led_ring_timer_cb_some {fuel : Nat} {e : env} {st st1 : State}
    (h : led_ring_timer_cb fuel e st = some st1) :
    st1.s_ctrl = { st.s_ctrl with
      base_hue_deg := advance_hue st.s_ctrl.base_hue_deg st.s_ctrl.speed_deg_per_sec
        st.s_ctrl.update_hz } ∧
    st1.s_led_strip = st.s_led_strip ∧ st1.s_timer = st.s_timer ∧
    ∃ writes : List api_call,
      pixel_writes fuel e st.s_led_strip st.s_ctrl LED_RING_COUNT = some writes ∧
      st1.calls = st.calls ++ writes ++
        [api_call.led_strip_refresh st.s_led_strip e.refresh_rc] := by
  rw [led_ring_timer_cb_eq] at h
  cases hw : pixel_writes fuel e st.s_led_strip st.s_ctrl LED_RING_COUNT with
  | none => rw [hw] at h; simp at h
  | some w =>
    rw [hw] at h
    simp only [Option.some.injEq] at h
    subst h
    exact ⟨rfl, rfl, rfl, w, rfl, rfl⟩

/-- One tick returns when the colour of each LED is computed. -/
theorem led_ring_timer_cb_returns {fuel : Nat} (e : env) {st : State}
    (h : ∀ i : Nat, i < LED_RING_COUNT → ∃ c : rgb_t, pixel_colour fuel st.s_ctrl i = some c) :
    ∃ st1 : State, led_ring_timer_cb fuel e st = some st1 := by
  have h1 : ∀ i ∈ List.range LED_RING_COUNT,
      ((pixel_colour fuel st.s_ctrl i).map fun col =>
        api_call.led_strip_set_pixel st.s_led_strip i col.r col.g col.b (e.set_pixel_rc i)) =
      some (api_call.led_strip_set_pixel st.s_led_strip i
        ((pixel_colour fuel st.s_ctrl i).getD rgb_off).r
        ((pixel_colour fuel st.s_ctrl i).getD rgb_off).g
        ((pixel_colour fuel st.s_ctrl i).getD rgb_off).b (e.set_pixel_rc i)) := by
    intro i hi
    obtain ⟨c, hc⟩ := h i (List.mem_range.mp hi)
    rw [hc]
    rfl
  have h2 := all_some_map_of_forall h1
  rw [led_ring_timer_cb_eq, pixel_writes_eq_b32, h2]
  exact ⟨_, rfl⟩

/-- When one LED's colour is not computed, the tick does not return. -/
theorem led_ring_timer_cb_none {fuel : Nat} (e : env) {st : State} {i : Nat}
    (hi : i < LED_RING_COUNT) (h : pixel_colour fuel st.s_ctrl i = none) :
    led_ring_timer_cb fuel e st = none := by
  have h1 : none ∈ (List.range LED_RING_COUNT).map fun (i : Nat) =>
      (pixel_colour fuel st.s_ctrl i).map fun col =>
        api_call.led_strip_set_pixel st.s_led_strip i col.r col.g col.b (e.set_pixel_rc i) := by
    refine List.mem_map.mpr ⟨i, List.mem_range.mpr hi, ?_⟩
    rw [h]
    rfl
  rw [led_ring_timer_cb_eq, pixel_writes_eq_b32, all_some_eq_none_of_mem h1]

/-! ## Hues of the pixels with the span at 45 degrees -/

theorem rnd_45_mul (i : Nat) (hi : i < 8) : rnd ((i : ℚ) * 45) = (i : ℚ) * 45 := by
  have := @rnd_natCast (i * 45) (by omega)
  push_cast at this
  exact this

theorem mul_fin_45 (i : Nat) (hi : i < 8) :
    mul (f32.fin (i : ℚ)) (f32.fin 45) = f32.fin ((i : ℚ) * 45) := by
  have hi' : (i : ℚ) < 8 := by exact_mod_cast hi
  have hm : |(i : ℚ) * 45| ≤ FLT_MAX := by
    rw [abs_of_nonneg (by positivity)]
    have := FLT_MAX_ge_360
    linarith
  rw [mul_fin, of_real_of_rnd_eq (rnd_45_mul i hi) hm]

/-- The hue of LED `i` for a phase in `[0, 360)` and the span at 45: the
binary32 sum, a value between 0 and 1024. -/
theorem pixel_hue_45 {p : ℚ} (h0 : 0 ≤ p) (h1 : p < 360) (i : Nat) (hi : i < 8) :
    pixel_hue (f32.fin p) (f32.fin 45) i = f32.fin (rnd (p + (i : ℚ) * 45)) ∧
      0 ≤ rnd (p + (i : ℚ) * 45) ∧ rnd (p + (i : ℚ) * 45) ≤ 1024 := by
  have hi' : (i : ℚ) < 8 := by exact_mod_cast hi
  have hi0 : (0 : ℚ) ≤ (i : ℚ) := by positivity
  have r1024 : rnd 1024 = 1024 := by
    have := @rnd_natCast 1024 (by norm_num)
    simpa using this
  have hfm : (1024 : ℚ) ≤ FLT_MAX := by unfold FLT_MAX; norm_num
  obtain ⟨a, b, c⟩ := @of_real_mem (p + (i : ℚ) * 45) 1024 r1024 hfm (by nlinarith)
    (by nlinarith)
  unfold pixel_hue
  rw [mul_fin_45 i hi, add_fin, a]
  exact ⟨rfl, b, c⟩

/-- The same hue for a phase that is a multiple of `2 ^ (-14)`: the sum is
exact. -/
theorem pixel_hue_45_exact {p : ℚ} (ha : aligned (-14) p) (h0 : 0 ≤ p) (h1 : p < 360) (i : Nat)
    (hi : i < 8) :
    pixel_hue (f32.fin p) (f32.fin 45) i = f32.fin (p + (i : ℚ) * 45) ∧
      rnd (p + (i : ℚ) * 45) = p + (i : ℚ) * 45 := by
  have hi' : (i : ℚ) < 8 := by exact_mod_cast hi
  have hi0 : (0 : ℚ) ≤ (i : ℚ) := by positivity
  have hal : aligned (-14) ((i : ℚ) * 45) := by
    have := @aligned_intCast (-14) (by norm_num) ((i * 45 : Nat) : ℤ)
    push_cast at this
    exact this
  have hr : rnd (p + (i : ℚ) * 45) = p + (i : ℚ) * 45 := by
    refine rnd_eq_of_aligned (by norm_num) (aligned_add ha hal) ?_
    rw [abs_of_nonneg (by nlinarith)]
    have : (2 : ℚ) ^ 24 * (2 : ℚ) ^ (-14 : ℤ) = 1024 := by norm_num [zpow_neg]
    rw [this]
    nlinarith
  have := (pixel_hue_45 h0 h1 i hi).1
  rw [hr] at this
  exact ⟨this, hr⟩

/-- Each LED's colour is computed when the span is 45, the phase a binary32
value in `[0, 360)` and saturation and brightness binary32 values in
`[0, 1]`. -/
theorem pixel_colour_returns {fuel : Nat} {c : led_ring_ctrl_t} {p s v : ℚ}
    (hp : c.base_hue_deg = f32.fin p) (h0 : 0 ≤ p) (h1 : p < 360)
    (hspan : c.hue_span_deg = f32.fin 45)
    (hsat : c.saturation = f32.fin s) (hs0 : 0 ≤ s) (hs1 : s ≤ 1)
    (hbri : c.brightness = f32.fin v) (hv : rnd v = v) (hv0 : 0 ≤ v) (hv1 : v ≤ 1)
    (hf : 372830 ≤ fuel) (i : Nat) (hi : i < LED_RING_COUNT) :
    ∃ col : rgb_t, pixel_colour fuel c i = some col := by
  obtain ⟨e, b0, b1⟩ := pixel_hue_45 h0 h1 i hi
  unfold pixel_colour
  rw [hp, hspan, hsat, hbri, e]
  have hb : |rnd (p + (i : ℚ) * 45)| ≤ 2 ^ 27 := by
    rw [abs_of_nonneg b0]
    norm_num
    linarith
  obtain ⟨col, hc, _⟩ := @hsv_to_rgb_returns fuel _ s v (rnd_idem _) hb hf hs0 hs1 hv hv0 hv1
  exact ⟨col, hc⟩

/-! ## The phase advance by one pixel step -/

/-- When `update_hz > 0` and the real product `45 * update_hz` is the stored
speed, the binary32 quotient `speed_deg_per_sec / update_hz` is 45. -/
theorem div_speed_of_product {s hz : ℚ} (hz0 : 0 < hz) (hs : s = 45 * hz) :
    gt (f32.fin hz) (f32.fin 0) = true ∧ div (f32.fin s) (f32.fin hz) = f32.fin 45 := by
  have e45 : rnd 45 = 45 := by
    have := @rnd_natCast 45 (by norm_num)
    simpa using this
  constructor
  · show lt (f32.fin 0) (f32.fin hz) = true
    rw [lt_fin]
    exact decide_eq_true hz0
  · rw [div_fin (ne_of_gt hz0), hs]
    have : 45 * hz / hz = 45 := by field_simp
    rw [this]
    exact of_real_of_rnd_eq e45 (by unfold FLT_MAX; norm_num)

/-- With `update_hz > 0`, the binary32 quotient `speed_deg_per_sec / update_hz`
equal to 45 and a phase in `[0, 360)` that is a multiple of `2 ^ (-15)`, every
step of the phase update is exact: the new phase is `phase + 45`, less 360 when
that reaches 360. -/
theorem advance_hue_45 {p : ℚ} {speed hz : f32} (ha : aligned (-15) p) (h0 : 0 ≤ p)
    (h1 : p < 360) (hgt : gt hz (f32.fin 0) = true) (hdiv : div speed hz = f32.fin 45) :
    advance_hue (f32.fin p) speed hz =
      f32.fin (if 360 ≤ p + 45 then p + 45 - 360 else p + 45) := by
  have hgrid : (2 : ℚ) ^ 24 * (2 : ℚ) ^ (-15 : ℤ) = 512 := by norm_num [zpow_neg]
  have a45 : aligned (-15) (45 : ℚ) := by
    have := @aligned_intCast (-15) (by norm_num) 45
    simpa using this
  have r1 : rnd (p + 45) = p + 45 := by
    refine rnd_eq_of_aligned (by norm_num) (aligned_add ha a45) ?_
    rw [abs_of_nonneg (by linarith), hgrid]
    linarith
  have hF : (1024 : ℚ) ≤ FLT_MAX := by unfold FLT_MAX; norm_num
  have m1 : |p + 45| ≤ FLT_MAX := by
    rw [abs_of_nonneg (by linarith)]
    linarith
  unfold advance_hue
  simp only []
  rw [hgt, if_pos rfl, hdiv, add_fin, of_real_of_rnd_eq r1 m1, ge_fin]
  by_cases hge : 360 ≤ p + 45
  · have r2 : rnd (p + 45 - 360) = p + 45 - 360 := by
      refine rnd_eq_of_aligned (by norm_num)
        (aligned_sub (aligned_add ha a45) (aligned_360 (by norm_num))) ?_
      rw [abs_of_nonneg (by linarith), hgrid]
      linarith
    have m2 : |p + 45 - 360| ≤ FLT_MAX := by
      rw [abs_of_nonneg (by linarith)]
      linarith [FLT_MAX_ge_360]
    rw [decide_eq_true hge, if_pos rfl, if_pos hge, sub_fin, of_real_of_rnd_eq r2 m2, lt_fin,
      decide_eq_false (not_lt.mpr (by linarith))]
    simp
  · rw [decide_eq_false hge, if_neg hge]
    simp only [Bool.false_eq_true, if_false]
    rw [lt_fin, decide_eq_false (not_lt.mpr (by linarith))]
    simp

/-- The new phase of `advance_hue_45`: in `[0, 360)`, aligned as the old one, a
binary32 value, and one pixel step further up to a whole turn. -/
theorem advance_hue_45_spec {p : ℚ} {g : ℤ} (hg : g ≤ 0) (ha : aligned g p) (h0 : 0 ≤ p)
    (h1 : p < 360) :
    aligned g (if 360 ≤ p + 45 then p + 45 - 360 else p + 45) ∧
    0 ≤ (if 360 ≤ p + 45 then p + 45 - 360 else p + 45) ∧
    (if 360 ≤ p + 45 then p + 45 - 360 else p + 45) < 360 ∧
    ∃ k : ℤ, (if 360 ≤ p + 45 then p + 45 - 360 else p + 45) = p + 45 + 360 * k := by
  have a45 : aligned g (45 : ℚ) := by
    have := @aligned_intCast g hg 45
    simpa using this
  by_cases hge : 360 ≤ p + 45
  · rw [if_pos hge]
    exact ⟨aligned_sub (aligned_add ha a45) (aligned_360 (by omega)), by linarith, by linarith,
      -1, by push_cast; ring⟩
  · rw [if_neg hge]
    exact ⟨aligned_add ha a45, by linarith, by linarith, 0, by simp⟩

/-! ## A tick that does not return -/

/-- C18. In the boot state after `led_ring_set_hue_span_deg(1e10f)` the
callback computes the colour of LED 0 (hue 0) and then calls `hsv_to_rgb` with
the hue `0 + 1 * 1e10f = 1e10f` for LED 1, where
`while (H >= 360.0f) H -= 360.0f;` never ends: whatever the number of
iterations allowed, the callback does not return, so it issues neither the
eight writes nor the refresh. -/
theorem led_ring_timer_cb_never_returns :
    (led_ring_set_hue_span_deg (f32.fin 10000000000) State.boot).s_ctrl.hue_span_deg =
      f32.fin 10000000000 ∧
    (f32.fin 10000000000).valid ∧
    pixel_hue (led_ring_set_hue_span_deg (f32.fin 10000000000) State.boot).s_ctrl.base_hue_deg
      (led_ring_set_hue_span_deg (f32.fin 10000000000) State.boot).s_ctrl.hue_span_deg 1 =
      f32.fin 10000000000 ∧
    pixel_colour 4 (led_ring_set_hue_span_deg (f32.fin 10000000000) State.boot).s_ctrl 0 =
      some { r := 51, g := 0, b := 0 } ∧
    (∀ fuel : Nat,
      pixel_colour fuel (led_ring_set_hue_span_deg (f32.fin 10000000000) State.boot).s_ctrl 1 =
        none) ∧
    ∀ (fuel : Nat) (e : env),
      led_ring_timer_cb fuel e (led_ring_set_hue_span_deg (f32.fin 10000000000) State.boot) =
        none := by
  have hh : pixel_hue
      (led_ring_set_hue_span_deg (f32.fin 10000000000) State.boot).s_ctrl.base_hue_deg
      (led_ring_set_hue_span_deg (f32.fin 10000000000) State.boot).s_ctrl.hue_span_deg 1 =
      f32.fin 10000000000 := by decide!
  have h1 : ∀ fuel : Nat,
      pixel_colour fuel (led_ring_set_hue_span_deg (f32.fin 10000000000) State.boot).s_ctrl 1 =
        none := by
    intro fuel
    unfold pixel_colour
    rw [hh]
    exact hsv_to_rgb_stuck hsv_hue_1e10 _ _ fuel
  exact ⟨rfl, by decide!, hh, by decide!, h1,
    fun fuel e => led_ring_timer_cb_none e (by decide) (h1 fuel)⟩

/-! ## Rotation over several ticks -/

theorem run_ticks_cons_b32 (fuel : Nat) (e : env) (es : List env) (st : State) :
    run_ticks fuel (e :: es) st =
      match led_ring_timer_cb fuel e st with
      | some st1 => run_ticks fuel es st1
      | none => none := rfl

theorem span_default_eq : span_default = f32.fin 45 := by decide!

theorem div_360_count : div (f32.fin 360) (f32.fin (LED_RING_COUNT : ℚ)) = f32.fin 45 := by
  decide!

/-- Over any number of ticks that return, with `update_hz > 0`, the binary32
quotient `speed_deg_per_sec / update_hz` equal to 45 and a phase in `[0, 360)`
that is a multiple of `2 ^ (-15)`, the phase stays such a value and is the start
phase plus 45 per tick, up to whole turns. -/
theorem run_ticks_phase_b32 (fuel : Nat) :
    ∀ (es : List env) (st st1 : State) (p : ℚ), st.s_ctrl.base_hue_deg = f32.fin p →
    aligned (-15) p → 0 ≤ p → p < 360 → gt st.s_ctrl.update_hz (f32.fin 0) = true →
    div st.s_ctrl.speed_deg_per_sec st.s_ctrl.update_hz = f32.fin 45 →
    run_ticks fuel es st = some st1 →
    ∃ (q : ℚ) (k : ℤ), st1.s_ctrl.base_hue_deg = f32.fin q ∧ 0 ≤ q ∧ q < 360 ∧
      q = p + 45 * (es.length : ℚ) + 360 * k := by
  intro es
  induction es with
  | nil =>
    intro st st1 p hp _ h0 h1 _ _ h
    have : st = st1 := by simpa [run_ticks] using h
    subst this
    exact ⟨p, 0, hp, h0, h1, by simp⟩
  | cons e es ih =>
    intro st st1 p hp ha h0 h1 hgt hd h
    rw [run_ticks_cons_b32] at h
    cases ht : led_ring_timer_cb fuel e st with
    | none => rw [ht] at h; simp at h
    | some st2 =>
      rw [ht] at h
      simp only [] at h
      obtain ⟨hc, _, _, _⟩ := led_ring_timer_cb_some ht
      obtain ⟨a1, b0, b1, j, hj⟩ := advance_hue_45_spec (by norm_num : (-15 : ℤ) ≤ 0) ha h0 h1
      have hp2 : st2.s_ctrl.base_hue_deg =
          f32.fin (if 360 ≤ p + 45 then p + 45 - 360 else p + 45) := by
        rw [hc]
        simp only []
        rw [hp]
        exact advance_hue_45 ha h0 h1 hgt hd
      obtain ⟨q, k, hq, q0, q1, hk⟩ := ih st2 st1 _ hp2 a1 b0 b1 (by rw [hc]; exact hgt)
        (by rw [hc]; exact hd) h
      refine ⟨q, k + j, hq, q0, q1, ?_⟩
      rw [hk, hj]
      simp only [List.length_cons]
      push_cast
      ring

/-- The ticks return when, besides, the span is 45 and saturation and
brightness are binary32 values in `[0, 1]`. -/
theorem run_ticks_returns_b32 {fuel : Nat} (hf : 372830 ≤ fuel) {sat bri : ℚ}
    (hs0 : 0 ≤ sat) (hs1 : sat ≤ 1) (hv : rnd bri = bri) (hv0 : 0 ≤ bri) (hv1 : bri ≤ 1) :
    ∀ (es : List env) (st : State) (p : ℚ), st.s_ctrl.base_hue_deg = f32.fin p →
    aligned (-15) p → 0 ≤ p → p < 360 → gt st.s_ctrl.update_hz (f32.fin 0) = true →
    div st.s_ctrl.speed_deg_per_sec st.s_ctrl.update_hz = f32.fin 45 →
    st.s_ctrl.hue_span_deg = f32.fin 45 →
    st.s_ctrl.saturation = f32.fin sat → st.s_ctrl.brightness = f32.fin bri →
    ∃ st1 : State, run_ticks fuel es st = some st1 := by
  intro es
  induction es with
  | nil => intro st _ _ _ _ _ _ _ _ _ _; exact ⟨st, rfl⟩
  | cons e es ih =>
    intro st p hp ha h0 h1 hgt hd hspan hsat hbri
    obtain ⟨st2, ht⟩ := @led_ring_timer_cb_returns fuel e st
      (pixel_colour_returns hp h0 h1 hspan hsat hs0 hs1 hbri hv hv0 hv1 hf)
    obtain ⟨hc, _, _, _⟩ := led_ring_timer_cb_some ht
    obtain ⟨a1, b0, b1, _⟩ := advance_hue_45_spec (by norm_num : (-15 : ℤ) ≤ 0) ha h0 h1
    have hp2 : st2.s_ctrl.base_hue_deg =
        f32.fin (if 360 ≤ p + 45 then p + 45 - 360 else p + 45) := by
      rw [hc]
      simp only []
      rw [hp]
      exact advance_hue_45 ha h0 h1 hgt hd
    rw [run_ticks_cons_b32, ht]
    exact ih st2 _ hp2 a1 b0 b1 (by rw [hc]; exact hgt) (by rw [hc]; exact hd)
      (by rw [hc]; exact hspan) (by rw [hc]; exact hsat) (by rw [hc]; exact hbri)

/-- C8, counterexample. (1) With the hue span at 10, 50 Hz and the speed
`500 = hue_span_deg * update_hz`, eight ticks from phase 0 end at phase 80.
(2) With the hue span at 45, 50 Hz and the speed `2250 = 45 * 50`, eight ticks
from the binary32 phase `1 + 2 ^ (-19)` end at phase 1: the sum `phase + 45`
loses the last bit of the phase once it reaches 256. (3) With the hue span at
45, the binary32 rate `7385301 / 2 ^ 12` (about 1803.05 Hz) and the speed the
binary32 product `45.0f * update_hz = 2596395 / 2 ^ 5`, the quotient
`speed_deg_per_sec / update_hz` is `11796481 / 2 ^ 18`, not 45, and eight ticks
from phase 0 end at phase `2 ^ (-15)`. -/
theorem run_ticks_no_full_loop :
    (run_ticks 4 (List.replicate LED_RING_COUNT env_ok)
        (led_ring_set_speed_deg (f32.fin 500)
          (led_ring_set_hue_span_deg (f32.fin 10) State.boot))).map
      (fun st => st.s_ctrl.base_hue_deg) = some (f32.fin 80) ∧
    (led_ring_set_speed_deg (f32.fin 500)
      (led_ring_set_hue_span_deg (f32.fin 10) State.boot)).s_ctrl =
      { s_ctrl_init with hue_span_deg := f32.fin 10, speed_deg_per_sec := f32.fin 500 } ∧
    s_ctrl_init.base_hue_deg = f32.fin 0 ∧ s_ctrl_init.update_hz = f32.fin 50 ∧
    s_ctrl_init.hue_span_deg = f32.fin 45 ∧
    (f32.fin (524289 / 524288)).valid ∧
    (run_ticks 4 (List.replicate LED_RING_COUNT env_ok)
        { State.boot with
          s_ctrl := { s_ctrl_init with
            base_hue_deg := f32.fin (524289 / 524288)
            speed_deg_per_sec := f32.fin 2250 } }).map
      (fun st => st.s_ctrl.base_hue_deg) = some (f32.fin 1) ∧
    (f32.fin (7385301 / 4096)).valid ∧
    mul (f32.fin 45) (f32.fin (7385301 / 4096)) = f32.fin (2596395 / 32) ∧
    div (f32.fin (2596395 / 32)) (f32.fin (7385301 / 4096)) = f32.fin (11796481 / 262144) ∧
    (run_ticks 4 (List.replicate LED_RING_COUNT env_ok)
        { State.boot with
          s_ctrl := { s_ctrl_init with
            update_hz := f32.fin (7385301 / 4096)
            speed_deg_per_sec := f32.fin (2596395 / 32) } }).map
      (fun st => st.s_ctrl.base_hue_deg) = some (f32.fin (1 / 32768)) := by
  refine ⟨by decide!, by decide!, by decide!, by decide!, by decide!, by decide!, by decide!,
    by decide!, by decide!, by decide!, by decide!⟩

/-- C8, amended. For a state with the hue span at `360 / N = 45`,
`update_hz > 0`, the binary32 quotient `speed_deg_per_sec / update_hz` equal to
`hue_span_deg` and a binary32 phase in `[0, 360)` that is a multiple of
`2 ^ (-15)`: whenever `N = 8` ticks return they leave `base_hue_deg` at its
value before the first tick; and they return when saturation and brightness are
binary32 values in `[0, 1]`. The quotient is `hue_span_deg` whenever the real
product `hue_span_deg * update_hz` is the stored speed
(`div_speed_of_product`). -/
theorem run_ticks_full_loop_b32 (fuel : Nat) (es : List env) (st : State) (p : ℚ)
    (hn : es.length = LED_RING_COUNT)
    (hp : st.s_ctrl.base_hue_deg = f32.fin p) (_hpv : (f32.fin p).valid)
    (h0 : 0 ≤ p) (h1 : p < 360) (ha : aligned (-15) p)
    (hgt : gt st.s_ctrl.update_hz (f32.fin 0) = true)
    (hspan : st.s_ctrl.hue_span_deg = div (f32.fin 360) (f32.fin (LED_RING_COUNT : ℚ)))
    (hd : div st.s_ctrl.speed_deg_per_sec st.s_ctrl.update_hz = st.s_ctrl.hue_span_deg) :
    (∀ st1 : State, run_ticks fuel es st = some st1 →
      st1.s_ctrl.base_hue_deg = st.s_ctrl.base_hue_deg) ∧
    (∀ sat bri : ℚ, st.s_ctrl.saturation = f32.fin sat → st.s_ctrl.brightness = f32.fin bri →
      (f32.fin sat).valid → (f32.fin bri).valid → 0 ≤ sat → sat ≤ 1 → 0 ≤ bri → bri ≤ 1 →
      372830 ≤ fuel → ∃ st1 : State, run_ticks fuel es st = some st1) := by
  rw [div_360_count] at hspan
  rw [hspan] at hd
  constructor
  · intro st1 h
    obtain ⟨q, k, hq, q0, q1, hk⟩ :=
      run_ticks_phase_b32 fuel es st st1 p hp ha h0 h1 hgt hd h
    rw [hq, hp]
    congr 1
    refine turn_unique q0 q1 h0 h1 (k + 1) ?_
    rw [hk, hn]
    simp only [LED_RING_COUNT]
    push_cast
    ring
  · intro sat bri hsat hbri _ hbv hs0 hs1 hv0 hv1 hf
    exact run_ticks_returns_b32 hf hs0 hs1 hbv.1 hv0 hv1 es st p hp ha h0 h1 hgt hd
      hspan hsat hbri

/-- Eight ticks at 60 Hz with speed 2700 from the phase `1 + 2 ^ (-15)`. -/
theorem run_ticks_full_loop_b32_witness :
    ((List.replicate 8 env_ok).length = LED_RING_COUNT ∧
      (f32.fin (32769 / 32768)).valid ∧ (0 : ℚ) ≤ 32769 / 32768 ∧ (32769 : ℚ) / 32768 < 360 ∧
      aligned (-15) (32769 / 32768) ∧ gt (f32.fin 60) (f32.fin 0) = true ∧
      span_default = div (f32.fin 360) (f32.fin (LED_RING_COUNT : ℚ)) ∧
      div (f32.fin 2700) (f32.fin 60) = span_default) ∧
    ((∀ st1 : State,
      run_ticks 372830 (List.replicate 8 env_ok)
        { State.boot with
          s_ctrl := { s_ctrl_init with
            base_hue_deg := f32.fin (32769 / 32768)
            update_hz := f32.fin 60
            speed_deg_per_sec := f32.fin 2700 } } = some st1 →
      st1.s_ctrl.base_hue_deg = f32.fin (32769 / 32768)) ∧
    (∀ sat bri : ℚ, f32.fin 1 = f32.fin sat → f32.fin (13421773 / 67108864) = f32.fin bri →
      (f32.fin sat).valid → (f32.fin bri).valid → 0 ≤ sat → sat ≤ 1 → 0 ≤ bri → bri ≤ 1 →
      372830 ≤ 372830 →
      ∃ st1 : State, run_ticks 372830 (List.replicate 8 env_ok)
        { State.boot with
          s_ctrl := { s_ctrl_init with
            base_hue_deg := f32.fin (32769 / 32768)
            update_hz := f32.fin 60
            speed_deg_per_sec := f32.fin 2700 } } = some st1)) :=
  have hv : (f32.fin (32769 / 32768)).valid := by decide!
  have ha : aligned (-15) (32769 / 32768) := by decide!
  have hgt : gt (f32.fin 60) (f32.fin 0) = true := by decide!
  have hd : div (f32.fin 2700) (f32.fin 60) = span_default := by decide!
  ⟨⟨rfl, hv, by norm_num, by norm_num, ha, hgt, rfl, hd⟩,
    run_ticks_full_loop_b32 372830 (List.replicate 8 env_ok)
      { State.boot with
        s_ctrl := { s_ctrl_init with
          base_hue_deg := f32.fin (32769 / 32768)
          update_hz := f32.fin 60
          speed_deg_per_sec := f32.fin 2700 } }
      (32769 / 32768) rfl rfl hv (by norm_num) (by norm_num) ha hgt rfl hd⟩

/-! ## Rotation of the frame -/

/-- Position `i` of the frame of a tick that returns. -/
theorem tick_frame_getElem_b32 {fuel : Nat} {e : env} {st : State} {f : List rgb_t}
    (h : tick_frame fuel e st = some f) {i : Nat} (hi : i < LED_RING_COUNT) :
    f[i]? = pixel_colour fuel st.s_ctrl i := by
  rw [tick_frame_eq_b32] at h
  have h1 := all_some_eq_some h
  have h2 : ((List.range LED_RING_COUNT).map (pixel_colour fuel st.s_ctrl))[i]? =
      (f.map some)[i]? := by rw [h1]
  rw [List.getElem?_map, List.getElem?_range hi, List.getElem?_map] at h2
  cases hf : f[i]? with
  | none => rw [hf] at h2; simp at h2
  | some a =>
    rw [hf] at h2
    simp only [Option.map_some', Option.some.injEq] at h2
    exact h2.symm

theorem tick_frame_length_b32 {fuel : Nat} {e : env} {st : State} {f : List rgb_t}
    (h : tick_frame fuel e st = some f) : f.length = LED_RING_COUNT := by
  rw [tick_frame_eq_b32] at h
  have h1 := congrArg List.length (all_some_eq_some h)
  simpa using h1.symm

/-- The frame of a tick that returns exists. -/
theorem tick_frame_of_timer_cb {fuel : Nat} {e : env} {st st1 : State}
    (h : led_ring_timer_cb fuel e st = some st1) (e2 : env) :
    ∃ f : List rgb_t, tick_frame fuel e2 st = some f := by
  obtain ⟨_, _, _, w, hw, _⟩ := led_ring_timer_cb_some h
  rw [pixel_writes_eq_b32] at hw
  have h1 := congrArg (Option.map written_colours) hw
  rw [all_some_written] at h1
  rw [tick_frame_eq_b32, h1]
  exact ⟨_, rfl⟩

/-- Two hues that are not negative, exact and a whole number of turns apart give
the same colour. -/
theorem hsv_to_rgb_add_turns_b32 {fuel : Nat} (hf : 372830 ≤ fuel) {x y : ℚ} (k : ℤ)
    (hx : rnd x = x) (hy : rnd y = y) (hx0 : 0 ≤ x) (hx1 : x ≤ 2 ^ 27) (hy0 : 0 ≤ y)
    (hy1 : y ≤ 2 ^ 27) (h : x = y + 360 * k) (S V : f32) :
    hsv_to_rgb fuel (f32.fin x) S V = hsv_to_rgb fuel (f32.fin y) S V := by
  rw [hsv_to_rgb_eq, hsv_to_rgb_eq, hsv_hue_exact_of_nonneg hx hx0 hx1 hf,
    hsv_hue_exact_of_nonneg hy hy0 hy1 hf, h, LedRing.hsv_hue_add_turns]

/-- With the span at 45 and a phase in `[0, 360)` that is a multiple of
`2 ^ (-14)`, LED `i` after one pixel step has the colour of LED
`(i + 1) mod 8` before it. -/
theorem pixel_colour_rotates {fuel : Nat} (hf : 372830 ≤ fuel) {c : led_ring_ctrl_t} {p : ℚ}
    (hp : c.base_hue_deg = f32.fin p) (ha : aligned (-14) p) (h0 : 0 ≤ p) (h1 : p < 360)
    (hspan : c.hue_span_deg = f32.fin 45) {i : Nat} (hi : i < LED_RING_COUNT) :
    pixel_colour fuel
        { c with base_hue_deg := f32.fin (if 360 ≤ p + 45 then p + 45 - 360 else p + 45) } i =
      pixel_colour fuel c ((i + 1) % LED_RING_COUNT) := by
  obtain ⟨a1, b0, b1, k, hk⟩ := advance_hue_45_spec (by norm_num : (-14 : ℤ) ≤ 0) ha h0 h1
  have hm : (i + 1) % LED_RING_COUNT < 8 := Nat.mod_lt _ (by decide)
  obtain ⟨e1, r1⟩ := pixel_hue_45_exact a1 b0 b1 i hi
  obtain ⟨e2, r2⟩ := pixel_hue_45_exact ha h0 h1 ((i + 1) % LED_RING_COUNT) hm
  have hi' : (i : ℚ) < 8 := by exact_mod_cast hi
  have hi0 : (0 : ℚ) ≤ (i : ℚ) := by positivity
  have hm' : (((i + 1) % LED_RING_COUNT : Nat) : ℚ) < 8 := by exact_mod_cast hm
  have hm0 : (0 : ℚ) ≤ (((i + 1) % LED_RING_COUNT : Nat) : ℚ) := by positivity
  have h27 : (2 : ℚ) ^ 27 = 134217728 := by norm_num
  have hdm := Nat.div_add_mod (i + 1) 8
  generalize (i + 1) / 8 = q at hdm
  have hqr : (8 : ℚ) * (q : ℚ) + (((i + 1) % LED_RING_COUNT : Nat) : ℚ) = (i : ℚ) + 1 := by
    have hmod : (i + 1) % LED_RING_COUNT = (i + 1) % 8 := rfl
    rw [hmod]
    exact_mod_cast hdm
  unfold pixel_colour
  simp only []
  rw [hp, hspan, e1, e2]
  refine hsv_to_rgb_add_turns_b32 hf (k + (q : ℤ)) r1 r2 (by nlinarith)
    (by rw [h27]; nlinarith) (by nlinarith) (by rw [h27]; nlinarith) ?_ _ _
  rw [hk]
  push_cast
  linear_combination (-45 : ℚ) * hqr

/-- C19, counterexample. The binary32 phase `123373 / 2 ^ 20`, the span at 45,
50 Hz and the speed `2250 = 45 * 50` (saturation and brightness 1): this tick
writes `(255, 1, 0)` to LED 0, the next tick writes `(255, 0, 0)` to LED 7. -/
theorem tick_rotates_frame_fails :
    (f32.fin (123373 / 1048576)).valid ∧ s_ctrl_init.hue_span_deg = f32.fin 45 ∧
    s_ctrl_init.update_hz = f32.fin 50 ∧ (2250 : ℚ) = 45 * 50 ∧
    div (f32.fin 2250) (f32.fin 50) = f32.fin 45 ∧
    (tick_frame 4 env_ok
        { State.boot with
          s_ctrl := { s_ctrl_init with
            base_hue_deg := f32.fin (123373 / 1048576)
            speed_deg_per_sec := f32.fin 2250
            brightness := f32.fin 1 } }).map (fun f => f[(7 + 1) % LED_RING_COUNT]?) =
      some (some { r := 255, g := 1, b := 0 }) ∧
    ((led_ring_timer_cb 4 env_ok
        { State.boot with
          s_ctrl := { s_ctrl_init with
            base_hue_deg := f32.fin (123373 / 1048576)
            speed_deg_per_sec := f32.fin 2250
            brightness := f32.fin 1 } }).bind (tick_frame 4 env_ok)).map (fun f => f[7]?) =
      some (some { r := 255, g := 0, b := 0 }) := by
  refine ⟨by decide!, by decide!, by decide!, by norm_num, by decide!, by decide!, by decide!⟩

/-- C19, amended. For a state with the hue span at `360 / N = 45`,
`update_hz > 0`, the binary32 quotient `speed_deg_per_sec / update_hz` equal to
`hue_span_deg` and a binary32 phase in `[0, 360)` that is a multiple of
`2 ^ (-14)`: whenever this tick and the next return, the colour written to LED
`i` by the next tick is the colour written to LED `(i + 1) mod N` by this tick,
for every `i` in `0..N-1`; and both ticks return, each with a frame of `N`
colours, when saturation and brightness are binary32 values in `[0, 1]`. The
quotient is `hue_span_deg` whenever the real product `hue_span_deg * update_hz`
is the stored speed (`div_speed_of_product`). -/
theorem tick_rotates_frame_b32 (fuel : Nat) (e e2 : env) (st : State) (p : ℚ)
    (hf : 372830 ≤ fuel)
    (hp : st.s_ctrl.base_hue_deg = f32.fin p) (_hpv : (f32.fin p).valid)
    (h0 : 0 ≤ p) (h1 : p < 360) (ha : aligned (-14) p)
    (hgt : gt st.s_ctrl.update_hz (f32.fin 0) = true)
    (hspan : st.s_ctrl.hue_span_deg = div (f32.fin 360) (f32.fin (LED_RING_COUNT : ℚ)))
    (hd : div st.s_ctrl.speed_deg_per_sec st.s_ctrl.update_hz = st.s_ctrl.hue_span_deg) :
    (∀ (st1 : State) (f1 f2 : List rgb_t), led_ring_timer_cb fuel e st = some st1 →
      tick_frame fuel e st = some f1 → tick_frame fuel e2 st1 = some f2 →
      ∀ i : Nat, i < LED_RING_COUNT → f2[i]? = f1[(i + 1) % LED_RING_COUNT]? ∧
        (f2[i]?).isSome = true) ∧
    (∀ sat bri : ℚ, st.s_ctrl.saturation = f32.fin sat → st.s_ctrl.brightness = f32.fin bri →
      (f32.fin sat).valid → (f32.fin bri).valid → 0 ≤ sat → sat ≤ 1 → 0 ≤ bri → bri ≤ 1 →
      ∃ (st1 : State) (f1 f2 : List rgb_t), led_ring_timer_cb fuel e st = some st1 ∧
        tick_frame fuel e st = some f1 ∧ tick_frame fuel e2 st1 = some f2 ∧
        f1.length = LED_RING_COUNT ∧ f2.length = LED_RING_COUNT) := by
  rw [div_360_count] at hspan
  rw [hspan] at hd
  have ha15 : aligned (-15) p := aligned_of_le (by norm_num) ha
  have hadv : ∀ st1 : State, led_ring_timer_cb fuel e st = some st1 →
      st1.s_ctrl = { st.s_ctrl with
        base_hue_deg := f32.fin (if 360 ≤ p + 45 then p + 45 - 360 else p + 45) } := by
    intro st1 h
    obtain ⟨hc, _⟩ := led_ring_timer_cb_some h
    rw [hc, hp, advance_hue_45 ha15 h0 h1 hgt hd]
  constructor
  · intro st1 f1 f2 ht hf1 hf2 i hi
    have hm : (i + 1) % LED_RING_COUNT < LED_RING_COUNT := Nat.mod_lt _ (by decide)
    have e2' := tick_frame_getElem_b32 hf2 hi
    have hlen := tick_frame_length_b32 hf2
    rw [e2', tick_frame_getElem_b32 hf1 hm, hadv st1 ht]
    refine ⟨pixel_colour_rotates hf hp ha h0 h1 hspan hi, ?_⟩
    rw [← hadv st1 ht, ← e2']
    have : i < f2.length := by rw [hlen]; exact hi
    rw [List.getElem?_eq_getElem this]
    rfl
  · intro sat bri hsat hbri _ hbv hs0 hs1 hv0 hv1
    obtain ⟨st1, ht⟩ := @led_ring_timer_cb_returns fuel e st
      (pixel_colour_returns hp h0 h1 hspan hsat hs0 hs1 hbri hbv.1 hv0 hv1 hf)
    obtain ⟨f1, hf1⟩ := tick_frame_of_timer_cb ht e
    obtain ⟨_, b0, b1, _⟩ := advance_hue_45_spec (by norm_num : (-14 : ℤ) ≤ 0) ha h0 h1
    have hc := hadv st1 ht
    obtain ⟨st2, ht2⟩ := @led_ring_timer_cb_returns fuel e2 st1
      (pixel_colour_returns (by rw [hc]) b0 b1 (by rw [hc]; exact hspan)
        (by rw [hc]; exact hsat) hs0 hs1 (by rw [hc]; exact hbri) hbv.1 hv0 hv1 hf)
    obtain ⟨f2, hf2⟩ := tick_frame_of_timer_cb ht2 e2
    exact ⟨st1, f1, f2, ht, hf1, hf2, tick_frame_length_b32 hf1, tick_frame_length_b32 hf2⟩

/-- The rotation from the phase `1 + 2 ^ (-14)` at 8 Hz with speed 360. -/
theorem tick_rotates_frame_b32_witness :
    (372830 ≤ 372830 ∧ (f32.fin (16385 / 16384)).valid ∧ (0 : ℚ) ≤ 16385 / 16384 ∧
      (16385 : ℚ) / 16384 < 360 ∧ aligned (-14) (16385 / 16384) ∧
      gt (f32.fin 8) (f32.fin 0) = true ∧
      span_default = div (f32.fin 360) (f32.fin (LED_RING_COUNT : ℚ)) ∧
      div (f32.fin 360) (f32.fin 8) = span_default) ∧
    ((∀ (st1 : State) (f1 f2 : List rgb_t),
      led_ring_timer_cb 372830 env_ok
        { State.boot with
          s_ctrl := { s_ctrl_init with
            base_hue_deg := f32.fin (16385 / 16384)
            update_hz := f32.fin 8
            speed_deg_per_sec := f32.fin 360 } } = some st1 →
      tick_frame 372830 env_ok
        { State.boot with
          s_ctrl := { s_ctrl_init with
            base_hue_deg := f32.fin (16385 / 16384)
            update_hz := f32.fin 8
            speed_deg_per_sec := f32.fin 360 } } = some f1 →
      tick_frame 372830 env_ok st1 = some f2 →
      ∀ i : Nat, i < LED_RING_COUNT → f2[i]? = f1[(i + 1) % LED_RING_COUNT]? ∧
        (f2[i]?).isSome = true) ∧
    (∀ sat bri : ℚ, f32.fin 1 = f32.fin sat → f32.fin (13421773 / 67108864) = f32.fin bri →
      (f32.fin sat).valid → (f32.fin bri).valid → 0 ≤ sat → sat ≤ 1 → 0 ≤ bri → bri ≤ 1 →
      ∃ (st1 : State) (f1 f2 : List rgb_t),
        led_ring_timer_cb 372830 env_ok
          { State.boot with
            s_ctrl := { s_ctrl_init with
              base_hue_deg := f32.fin (16385 / 16384)
              update_hz := f32.fin 8
              speed_deg_per_sec := f32.fin 360 } } = some st1 ∧
        tick_frame 372830 env_ok
          { State.boot with
            s_ctrl := { s_ctrl_init with
              base_hue_deg := f32.fin (16385 / 16384)
              update_hz := f32.fin 8
              speed_deg_per_sec := f32.fin 360 } } = some f1 ∧
        tick_frame 372830 env_ok st1 = some f2 ∧
        f1.length = LED_RING_COUNT ∧ f2.length = LED_RING_COUNT)) :=
  have hv : (f32.fin (16385 / 16384)).valid := by decide!
  have ha : aligned (-14) (16385 / 16384) := by decide!
  have hgt : gt (f32.fin 8) (f32.fin 0) = true := by decide!
  have hd : div (f32.fin 360) (f32.fin 8) = span_default := by decide!
  ⟨⟨le_refl _, hv, by norm_num, by norm_num, ha, hgt, rfl, hd⟩,
    tick_rotates_frame_b32 372830 env_ok env_ok
      { State.boot with
        s_ctrl := { s_ctrl_init with
          base_hue_deg := f32.fin (16385 / 16384)
          update_hz := f32.fin 8
          speed_deg_per_sec := f32.fin 360 } }
      (16385 / 16384) (le_refl _) rfl hv (by norm_num) (by norm_num) ha hgt rfl hd⟩

/-! ## Start in binary32 -/

/-- In the normal range the rounding error is at most `2 ^ (-24)` of the
value. -/
theorem rnd_rel_err {x : ℚ} (h : (2 : ℚ) ^ (-126 : ℤ) ≤ |x|) :
    |rnd x - x| ≤ |x| / 2 ^ 24 := by
  have hx : x ≠ 0 := by
    intro h0
    rw [h0, abs_zero] at h
    exact absurd h (not_le.mpr (two_zpow_pos _))
  have hl := le_ilog2_of_le_abs hx h
  have hu : ulp_exp x = ilog2 x - 23 := by
    unfold ulp_exp
    exact max_eq_left (by omega)
  have h1 := rnd_err x
  have h2 := (ilog2_spec hx).1
  rw [hu] at h1
  have h3 : (2 : ℚ) ^ (ilog2 x - 23) / 2 = (2 : ℚ) ^ ilog2 x / 2 ^ 24 := by
    rw [zpow_sub₀ (by norm_num : (2 : ℚ) ≠ 0)]
    norm_num
    ring
  rw [h3] at h1
  have h4 : (2 : ℚ) ^ ilog2 x / 2 ^ 24 ≤ |x| / 2 ^ 24 :=
    div_le_div_of_nonneg_right h2 (by positivity)
  linarith

/-- C9, counterexample. `p = 0.1f = 13421773 / 2 ^ 27`: the code stores `9/2`,
the binary32 product `p * 45.0f`; `p * 360 / 8` is `603979785 / 2 ^ 27`. -/
theorem led_ring_set_speed_pixels_rounds :
    (f32.fin (13421773 / 134217728)).valid ∧
    (led_ring_set_speed_pixels (f32.fin (13421773 / 134217728))
      State.boot).s_ctrl.speed_deg_per_sec = f32.fin (9 / 2) ∧
    (13421773 : ℚ) / 134217728 * 360 / (LED_RING_COUNT : ℚ) = 603979785 / 134217728 ∧
    f32.fin (9 / 2) ≠ f32.fin (603979785 / 134217728) := by
  refine ⟨by decide!, by decide!, by decide!, by decide!⟩

/-- C9, amended. For every `p`, `led_ring_set_speed_pixels(p)` stores the
binary32 product `p * 45.0f`, exactly as `led_ring_set_speed_deg(p * 45.0f)`
would, and changes nothing else (`45.0f` is the constant `360.0f / N`, `N = 8`);
for a finite `p` with `p * 360 / N` in the normal range that is `p * 360 / N`
rounded to the nearest binary32 value, within `2 ^ (-24)` of it in relative
terms; for `p = 1` it is 45. -/
theorem led_ring_set_speed_pixels_b32 (p : f32) (st : State) :
    led_ring_set_speed_pixels p st = led_ring_set_speed_deg (mul p (f32.fin 45)) st ∧
    led_ring_set_speed_pixels p st =
      { st with s_ctrl := { st.s_ctrl with speed_deg_per_sec := mul p (f32.fin 45) } } ∧
    (∀ x : ℚ, p = f32.fin x → (2 : ℚ) ^ (-126 : ℤ) ≤ |x * 360 / (LED_RING_COUNT : ℚ)| →
      |x * 360 / (LED_RING_COUNT : ℚ)| ≤ FLT_MAX →
      (led_ring_set_speed_pixels p st).s_ctrl.speed_deg_per_sec =
        f32.fin (rnd (x * 360 / (LED_RING_COUNT : ℚ))) ∧
      |rnd (x * 360 / (LED_RING_COUNT : ℚ)) - x * 360 / (LED_RING_COUNT : ℚ)| ≤
        |x * 360 / (LED_RING_COUNT : ℚ)| / 2 ^ 24) ∧
    (p = f32.fin 1 →
      (led_ring_set_speed_pixels p st).s_ctrl.speed_deg_per_sec = f32.fin 45) := by
  have h0 : led_ring_set_speed_pixels p st = led_ring_set_speed_deg (mul p (f32.fin 45)) st := by
    unfold led_ring_set_speed_pixels
    simp only []
    rw [span_default_eq]
  refine ⟨h0, by rw [h0]; rfl, ?_, ?_⟩
  · rintro x rfl hn hm
    have e : x * 360 / (LED_RING_COUNT : ℚ) = x * 45 := by
      simp only [LED_RING_COUNT]
      push_cast
      ring
    rw [e] at hn hm ⊢
    refine ⟨?_, rnd_rel_err hn⟩
    rw [h0]
    show mul (f32.fin x) (f32.fin 45) = _
    rw [mul_fin, of_real_of_abs_le_FLT_MAX hm]
  · rintro rfl
    rw [h0]
    show mul (f32.fin 1) (f32.fin 45) = _
    decide!

/-- One pixel per second on the boot state. -/
theorem led_ring_set_speed_pixels_b32_witness :
    led_ring_set_speed_pixels (f32.fin 1) State.boot =
      led_ring_set_speed_deg (mul (f32.fin 1) (f32.fin 45)) State.boot ∧
    led_ring_set_speed_pixels (f32.fin 1) State.boot =
      { State.boot with
        s_ctrl := { State.boot.s_ctrl with speed_deg_per_sec := mul (f32.fin 1) (f32.fin 45) } } ∧
    (∀ x : ℚ, f32.fin 1 = f32.fin x → (2 : ℚ) ^ (-126 : ℤ) ≤ |x * 360 / (LED_RING_COUNT : ℚ)| →
      |x * 360 / (LED_RING_COUNT : ℚ)| ≤ FLT_MAX →
      (led_ring_set_speed_pixels (f32.fin 1) State.boot).s_ctrl.speed_deg_per_sec =
        f32.fin (rnd (x * 360 / (LED_RING_COUNT : ℚ))) ∧
      |rnd (x * 360 / (LED_RING_COUNT : ℚ)) - x * 360 / (LED_RING_COUNT : ℚ)| ≤
        |x * 360 / (LED_RING_COUNT : ℚ)| / 2 ^ 24) ∧
    (f32.fin 1 = f32.fin 1 →
      (led_ring_set_speed_pixels (f32.fin 1) State.boot).s_ctrl.speed_deg_per_sec =
        f32.fin 45) :=
  led_ring_set_speed_pixels_b32 (f32.fin 1) State.boot

/-! ## Update rate -/

/-- At the primaries every binary32 step is exact and the loops do not run: the
binary32 code returns the triples that the exact embedding gives. -/
theorem hsv_to_rgb_primaries_exact :
    hsv_to_rgb 5 (f32.fin 0) (f32.fin 1) (f32.fin 1) =
      some (LedRing.hsv_to_rgb 0 1 1) ∧
    hsv_to_rgb 5 (f32.fin 120) (f32.fin 1) (f32.fin 1) =
      some (LedRing.hsv_to_rgb 120 1 1) ∧
    hsv_to_rgb 5 (f32.fin 240) (f32.fin 1) (f32.fin 1) =
      some (LedRing.hsv_to_rgb 240 1 1) := by
  refine ⟨by decide!, by decide!, by decide!⟩

/-- From phase 0 at 36000 degrees per second and 50 Hz the binary32 phase
advance is the exact one: `36000 / 50 = 720`, one subtraction of 360, and the
phase is left at 360. -/
theorem advance_hue_escapes_exact :
    advance_hue (f32.fin 0) (f32.fin 36000) (f32.fin 50) =
      f32.fin (LedRing.advance_hue 0 36000 50) ∧
    LedRing.advance_hue 0 36000 50 = 360 := by
  refine ⟨by decide!, by decide!⟩

end B32

end LedRing
